import Mathlib

/-!
Verification development for the go-vectorstore repository.

The Go source is shallowly embedded: Go `any` values that occur in filters
and decoded metadata form the JSON-scalar/container domain `JVal`; Go
`float64` is modelled by exact rationals `ℚ` (floating-point rounding is
outside the model); Go strings are Lean `String` (Go byte-lexicographic
comparison coincides with Lean's codepoint order on valid UTF-8); Go maps
decoded from JSON documents are association lists with unique keys, first
match wins; Go `nil` interface values and pointers are `Option`/a dedicated
constructor; fallible Go functions return `Except Err`.
-/

namespace vectordata

/-- Error kinds mirroring the sentinel errors of vectordata/errors.go plus the
mssql-internal pushdown sentinel and a generic kind for `fmt.Errorf` errors
that wrap no sentinel. -/
inductive ErrKind where
  | notFound
  | dimensionMismatch
  | schemaMismatch
  | invalidFilter
  | pushdownUnsupported
  | generic
deriving DecidableEq

/-- A Go error value: the sentinel kind it wraps (checked by errors.Is) and
its message text. -/
structure Err where
  kind : ErrKind
  msg : String
deriving DecidableEq

/-- The domain of Go `any` values that appear as filter values and decoded
JSON metadata: null, booleans, numbers (exact rationals standing for
float64/ints), strings, arrays and objects (assoc lists, unique keys). -/
inductive JVal where
  | jnull
  | jbool (b : Bool)
  | jnum (q : ℚ)
  | jstr (s : String)
  | jarr (items : List JVal)
  | jobj (fields : List (String × JVal))

mutual

def jvalDecEq : (a b : JVal) → Decidable (a = b)
  | .jnull, .jnull => .isTrue rfl
  | .jnull, .jbool _ => .isFalse nofun
  | .jnull, .jnum _ => .isFalse nofun
  | .jnull, .jstr _ => .isFalse nofun
  | .jnull, .jarr _ => .isFalse nofun
  | .jnull, .jobj _ => .isFalse nofun
  | .jbool _, .jnull => .isFalse nofun
  | .jbool a, .jbool b =>
    if h : a = b then .isTrue (by rw [h]) else .isFalse (by simp [h])
  | .jbool _, .jnum _ => .isFalse nofun
  | .jbool _, .jstr _ => .isFalse nofun
  | .jbool _, .jarr _ => .isFalse nofun
  | .jbool _, .jobj _ => .isFalse nofun
  | .jnum _, .jnull => .isFalse nofun
  | .jnum _, .jbool _ => .isFalse nofun
  | .jnum a, .jnum b =>
    if h : a = b then .isTrue (by rw [h]) else .isFalse (by simp [h])
  | .jnum _, .jstr _ => .isFalse nofun
  | .jnum _, .jarr _ => .isFalse nofun
  | .jnum _, .jobj _ => .isFalse nofun
  | .jstr _, .jnull => .isFalse nofun
  | .jstr _, .jbool _ => .isFalse nofun
  | .jstr _, .jnum _ => .isFalse nofun
  | .jstr a, .jstr b =>
    if h : a = b then .isTrue (by rw [h]) else .isFalse (by simp [h])
  | .jstr _, .jarr _ => .isFalse nofun
  | .jstr _, .jobj _ => .isFalse nofun
  | .jarr _, .jnull => .isFalse nofun
  | .jarr _, .jbool _ => .isFalse nofun
  | .jarr _, .jnum _ => .isFalse nofun
  | .jarr _, .jstr _ => .isFalse nofun
  | .jarr a, .jarr b =>
    match jarrDecEq a b with
    | .isTrue h => .isTrue (by rw [h])
    | .isFalse h => .isFalse (by simp [h])
  | .jarr _, .jobj _ => .isFalse nofun
  | .jobj _, .jnull => .isFalse nofun
  | .jobj _, .jbool _ => .isFalse nofun
  | .jobj _, .jnum _ => .isFalse nofun
  | .jobj _, .jstr _ => .isFalse nofun
  | .jobj _, .jarr _ => .isFalse nofun
  | .jobj a, .jobj b =>
    match jobjDecEq a b with
    | .isTrue h => .isTrue (by rw [h])
    | .isFalse h => .isFalse (by simp [h])

def jarrDecEq : (a b : List JVal) → Decidable (a = b)
  | [], [] => .isTrue rfl
  | [], _ :: _ => .isFalse nofun
  | _ :: _, [] => .isFalse nofun
  | x :: xs, y :: ys =>
    match jvalDecEq x y, jarrDecEq xs ys with
    | .isTrue h1, .isTrue h2 => .isTrue (by rw [h1, h2])
    | .isFalse h1, _ => .isFalse (by simp [h1])
    | _, .isFalse h2 => .isFalse (by simp [h2])

def jobjDecEq : (a b : List (String × JVal)) → Decidable (a = b)
  | [], [] => .isTrue rfl
  | [], _ :: _ => .isFalse nofun
  | _ :: _, [] => .isFalse nofun
  | (k, v) :: xs, (k2, v2) :: ys =>
    match String.decEq k k2, jvalDecEq v v2, jobjDecEq xs ys with
    | .isTrue h0, .isTrue h1, .isTrue h2 => .isTrue (by rw [h0, h1, h2])
    | .isFalse h0, _, _ => .isFalse (by simp [h0])
    | _, .isFalse h1, _ => .isFalse (by simp [h1])
    | _, _, .isFalse h2 => .isFalse (by simp [h2])

end

instance : DecidableEq JVal := jvalDecEq

/-- FieldKind is a string type in the source (`type FieldKind string`), so a
FieldRef carries the kind as a plain string; unknown kinds hit the default
branches of the consumers. Mirrors the FieldRef struct of the filter AST. -/
structure FieldRef where
  kind : String
  name : String
  path : List String
deriving DecidableEq

/-- `Column` constructor of the filter AST. -/
def Column (name : String) : FieldRef := ⟨"column", name, []⟩

/-- `Metadata` constructor of the filter AST. -/
def Metadata (path : List String) : FieldRef := ⟨"metadata", "", path⟩

/-- The Go `Filter` interface type: a value is nil or one of the eight node
structs. `fnil` stands for a nil interface value (checked by `filter == nil`
and the per-child nil checks in the source). -/
inductive Filter where
  | fnil
  | feq (field : FieldRef) (value : JVal)
  | fin (field : FieldRef) (values : List JVal)
  | fgt (field : FieldRef) (value : JVal)
  | flt (field : FieldRef) (value : JVal)
  | fex (field : FieldRef)
  | fand (children : List Filter)
  | forl (children : List Filter)
  | fnot (child : Filter)

/-- Record: ID, vector (float32 slice, modelled as exact rationals), optional
metadata map (None = nil map) and optional content pointer. -/
structure Record where
  id : String
  vector : List ℚ
  metadata : Option (List (String × JVal))
  content : Option String
deriving DecidableEq

def idColumn : String := "id"
def contentColumn : String := "content"

def invalidFilterErr (m : String) : Err := ⟨.invalidFilter, m⟩
/-- The stored form of a record: the write paths of both backends persist
the metadata map through normalizeMetadata, turning a nil map into the
empty document; everything else is stored verbatim (serialization is
value-level identity in the model). -/
def persistedForm (record : Record) : Record :=
  { record with metadata := some (record.metadata.getD []) }


/-! Structural (kernel-reducible) implementations of the string primitives
the Go source uses: strings.TrimSpace, strings.ReplaceAll, byte-wise `<`
and strings.ToLower. Lean's built-in versions are extensionally the same
but are defined by well-founded recursion and do not reduce in proofs. -/

def dropWhileWS : List Char → List Char
  | [] => []
  | c :: rest => if c.isWhitespace then dropWhileWS rest else c :: rest

/-- strings.TrimSpace (leading and trailing whitespace removed). -/
def goTrim (s : String) : String :=
  String.mk ((dropWhileWS ((dropWhileWS s.data.reverse)).reverse))

def startsWithChars : List Char → List Char → Bool
  | [], _ => true
  | _ :: _, [] => false
  | p :: ps, c :: cs => p = c && startsWithChars ps cs

def replaceCharsAux (pattern repl : List Char) : ℕ → List Char → List Char
  | 0, l => l
  | _ + 1, [] => []
  | fuel + 1, c :: rest =>
    if pattern ≠ [] ∧ startsWithChars pattern (c :: rest) then
      repl ++ replaceCharsAux pattern repl fuel ((c :: rest).drop pattern.length)
    else c :: replaceCharsAux pattern repl fuel rest

/-- One scan replacing every non-overlapping occurrence of the pattern; the
fuel equals the input length, which strictly bounds the recursion since a
match consumes at least one character. -/
def replaceChars (pattern repl : List Char) (l : List Char) : List Char :=
  replaceCharsAux pattern repl l.length l

/-- strings.ReplaceAll. -/
def strReplace (s pattern repl : String) : String :=
  String.mk (replaceChars pattern.data repl.data s.data)

def charListLt : List Char → List Char → Bool
  | [], [] => false
  | [], _ :: _ => true
  | _ :: _, [] => false
  | a :: as, b :: bs =>
    if a < b then true else if b < a then false else charListLt as bs

/-- Go's `<` on strings: byte-lexicographic comparison, which on valid
UTF-8 coincides with codepoint-lexicographic comparison. -/
def strLt (a b : String) : Bool :=
  charListLt a.data b.data

/-- strings.ToLower (simple per-character case folding). -/
def strToLower (s : String) : String :=
  String.mk (s.data.map Char.toLower)

/-- NormalizeFieldRef (filter_normalize.go): trims every component, rejects
empty column names, empty paths and empty path segments. -/
def NormalizeFieldRef (ref : FieldRef) : Except Err FieldRef :=
  if ref.kind = "column" then
    let name := goTrim ref.name
    if name = "" then .error (invalidFilterErr "column field name is empty")
    else .ok ⟨"column", name, []⟩
  else if ref.kind = "metadata" then
    if ref.path.isEmpty then .error (invalidFilterErr "metadata path is empty")
    else do
      let path ← ref.path.mapM fun segment =>
        let trimmed := goTrim segment
        if trimmed = "" then
          Except.error (invalidFilterErr "metadata path segment is empty")
        else Except.ok trimmed
      .ok ⟨"metadata", "", path⟩
  else .error (invalidFilterErr ("unsupported field kind " ++ ref.kind))

/-- toFloat64 (filter_sql.go and stores/mssql/helpers.go agree on this
domain): Go numeric types and json.Number collapse to the single numeric
constructor of `JVal`; everything else is not numeric. -/
def toFloat64 : JVal → Option ℚ
  | .jnum q => some q
  | _ => none

/-- Smallest number of decimal digits that makes `q * 10^digits` integral,
searched up to 64 digits (every float64 value has a finite decimal
expansion, so the bound is immaterial for reachable inputs). -/
def ratDecimalDigits (q : ℚ) : Option ℕ :=
  (List.range 64).find? fun e => (q * (10 : ℚ) ^ (e + 1)).den = 1

/-- Decimal rendering of a rational, modelling Go's fmt/strconv rendering of
a float64 (`%v`): integers print without a decimal point, other values print
their shortest decimal expansion. Go switches to e-notation for extreme
magnitudes; that regime is not exercised here and is rendered in plain
decimal by the model. -/
def formatRat (q : ℚ) : String :=
  if q.den = 1 then toString q.num
  else
    match ratDecimalDigits q with
    | some e =>
      let k := e + 1
      let scaled : ℤ := (q * (10 : ℚ) ^ k).num
      let sign := if scaled < 0 then "-" else ""
      let digits := toString scaled.natAbs
      let padded :=
        if digits.length ≤ k then
          String.mk (List.replicate (k + 1 - digits.length) '0') ++ digits
        else digits
      sign ++ padded.take (padded.length - k) ++ "." ++
        padded.drop (padded.length - k)
    | none => toString q.num ++ "/" ++ toString q.den

/-- Stand-in for math.Sqrt on the exact-rational model of float64: the
denominator-precision floor of the square root (exact on perfect squares).
No theorem below depends on its values at non-perfect squares; it exists so
the cosine/L2 distance formulas stay executable. -/
def ratSqrt (q : ℚ) : ℚ :=
  if q ≤ 0 then 0
  else (Nat.sqrt (q.num.toNat * q.den) : ℚ) / (q.den : ℚ)

def insertByKey (kv : String × String) :
    List (String × String) → List (String × String)
  | [] => [kv]
  | hd :: tl => if !strLt hd.1 kv.1 then kv :: hd :: tl else hd :: insertByKey kv tl

def sortPairsByKey (l : List (String × String)) : List (String × String) :=
  l.foldr insertByKey []

mutual

/-- fmt.Sprint of a decoded JSON value (Go's default `%v` formatting):
strings print verbatim, booleans as true/false, nil as `<nil>`, numbers per
`formatRat`, slices as space-separated brackets, maps as `map[k:v ...]` with
keys sorted. -/
def goSprint : JVal → String
  | .jnull => "<nil>"
  | .jbool true => "true"
  | .jbool false => "false"
  | .jnum q => formatRat q
  | .jstr s => s
  | .jarr items =>
    "[" ++ String.intercalate " " (goSprintList items) ++ "]"
  | .jobj fields =>
    "map[" ++
      String.intercalate " "
        ((sortPairsByKey (goSprintFields fields)).map fun kv =>
          kv.1 ++ ":" ++ kv.2) ++
      "]"

def goSprintList : List JVal → List String
  | [] => []
  | x :: xs => goSprint x :: goSprintList xs

def goSprintFields : List (String × JVal) → List (String × String)
  | [] => []
  | (k, v) :: xs => (k, goSprint v) :: goSprintFields xs

end

/-- A value appended to the compiler argument list: either a Go value bound
directly (`bind`) or the `[]byte` JSON encoding appended by `bindJSONB`. -/
inductive BindVal where
  | v (x : JVal)
  | jsonb (encoded : String)
deriving DecidableEq

def jsonEscapeString (s : String) : String :=
  s.data.foldl
    (fun acc c =>
      if c = '"' then acc ++ "\\\""
      else if c = '\\' then acc ++ "\\\\"
      else if c = Char.ofNat 10 then acc ++ "\\n"
      else if c = Char.ofNat 9 then acc ++ "\\t"
      else if c = Char.ofNat 13 then acc ++ "\\r"
      else acc.push c)
    ""

mutual

/-- json.Marshal of a decoded JSON value. Numbers render per `formatRat`;
Go's additional HTML escaping (of `<`, `>`, `&`) is not modelled. -/
def jsonEncode : JVal → String
  | .jnull => "null"
  | .jbool true => "true"
  | .jbool false => "false"
  | .jnum q => formatRat q
  | .jstr s => "\"" ++ jsonEscapeString s ++ "\""
  | .jarr items => "[" ++ String.intercalate "," (jsonEncodeList items) ++ "]"
  | .jobj fields =>
    "\x7b" ++ String.intercalate "," (jsonEncodeFields fields) ++ "\x7d"

def jsonEncodeList : List JVal → List String
  | [] => []
  | x :: xs => jsonEncode x :: jsonEncodeList xs

def jsonEncodeFields : List (String × JVal) → List String
  | [] => []
  | (k, v) :: xs =>
    ("\"" ++ jsonEscapeString k ++ "\":" ++ jsonEncode v) :: jsonEncodeFields xs

end

/-- FilterSQLConfig (filter_sql.go): whitelisted column expressions (None is
a nil map) plus the metadata column expression. -/
structure FilterSQLConfig where
  columnExpr : Option (List (String × String))
  metadataExpr : String

def singleQuoted (v : String) : String :=
  "'" ++ strReplace v "'" "''" ++ "'"

def pathArraySQL (path : List String) : String :=
  String.intercalate ", " (path.map singleQuoted)

def metadataPathJSONBExpr (metadataExpr : String) (path : List String) :
    String :=
  "(" ++ metadataExpr ++ " #> ARRAY[" ++ pathArraySQL path ++ "])"

def metadataPathTextExpr (metadataExpr : String) (path : List String) :
    String :=
  "jsonb_extract_path_text(" ++ metadataExpr ++ ", " ++
    String.intercalate ", " (path.map singleQuoted) ++ ")"

/-- The mutable compiler state of filterCompiler: accumulated args and the
next positional parameter index. -/
structure PGState where
  args : List BindVal
  nextArg : ℤ
deriving DecidableEq

def pgBind (st : PGState) (x : BindVal) : String × PGState :=
  ("$" ++ toString st.nextArg, ⟨st.args ++ [x], st.nextArg + 1⟩)

/-- filterCompiler.resolveField (filter_sql.go): note that, unlike the other
two strategies, this resolver performs no trimming or normalization — the
untrimmed name is looked up in the whitelist and the untrimmed path is
copied through. -/
def pgResolveField (cfg : FilterSQLConfig) (ref : FieldRef) :
    Except Err (String × Bool × List String) :=
  if ref.kind = "column" then
    if ref.name = "" then
      .error (invalidFilterErr "column field name is empty")
    else
      match cfg.columnExpr with
      | none => .error (invalidFilterErr "no column mapping configured")
      | some mapping =>
        match mapping.lookup ref.name with
        | some expr =>
          if expr = "" then
            .error (invalidFilterErr ("unknown column " ++ ref.name))
          else .ok (expr, false, [])
        | none => .error (invalidFilterErr ("unknown column " ++ ref.name))
  else if ref.kind = "metadata" then
    if cfg.metadataExpr = "" then
      .error (invalidFilterErr "metadata expression not configured")
    else if ref.path.isEmpty then
      .error (invalidFilterErr "metadata path is empty")
    else .ok (cfg.metadataExpr, true, ref.path)
  else .error (invalidFilterErr ("unsupported field kind " ++ ref.kind))

def pgCompileEq (cfg : FilterSQLConfig) (field : FieldRef) (value : JVal)
    (st : PGState) : Except Err (String × PGState) := do
  let (fieldExpr, isMetadata, path) ← pgResolveField cfg field
  if !isMetadata then
    let (ph, st2) := pgBind st (.v value)
    .ok ("(" ++ fieldExpr ++ " = " ++ ph ++ ")", st2)
  else
    let (ph, st2) := pgBind st (.jsonb (jsonEncode value))
    .ok ("(" ++ metadataPathJSONBExpr fieldExpr path ++ " = " ++ ph ++
      "::jsonb)", st2)

def pgCompileInParts (isMetadata : Bool) (values : List JVal) (st : PGState) :
    List String × PGState :=
  values.foldl
    (fun (acc : List String × PGState) v =>
      if isMetadata then
        let (ph, st2) := pgBind acc.2 (.jsonb (jsonEncode v))
        (acc.1 ++ [ph ++ "::jsonb"], st2)
      else
        let (ph, st2) := pgBind acc.2 (.v v)
        (acc.1 ++ [ph], st2))
    ([], st)

def pgCompileIn (cfg : FilterSQLConfig) (field : FieldRef)
    (values : List JVal) (st : PGState) : Except Err (String × PGState) := do
  if values.isEmpty then
    throw (invalidFilterErr "IN requires at least one value")
  let (fieldExpr, isMetadata, path) ← pgResolveField cfg field
  let (parts, st2) := pgCompileInParts isMetadata values st
  if !isMetadata then
    .ok ("(" ++ fieldExpr ++ " IN (" ++ String.intercalate ", " parts ++
      "))", st2)
  else
    .ok ("(" ++ metadataPathJSONBExpr fieldExpr path ++ " IN (" ++
      String.intercalate ", " parts ++ "))", st2)

def pgCompileGt (cfg : FilterSQLConfig) (field : FieldRef) (value : JVal)
    (st : PGState) : Except Err (String × PGState) := do
  let (fieldExpr, isMetadata, path) ← pgResolveField cfg field
  if !isMetadata then
    let (ph, st2) := pgBind st (.v value)
    .ok ("(" ++ fieldExpr ++ " > " ++ ph ++ ")", st2)
  else
    match toFloat64 value with
    | some num =>
      let (ph, st2) := pgBind st (.v (.jnum num))
      .ok ("((" ++ metadataPathTextExpr fieldExpr path ++
        ")::double precision > " ++ ph ++ ")", st2)
    | none =>
      let (ph, st2) := pgBind st (.v (.jstr (goSprint value)))
      .ok ("(" ++ metadataPathTextExpr fieldExpr path ++ " > " ++ ph ++ ")",
        st2)

def pgCompileLt (cfg : FilterSQLConfig) (field : FieldRef) (value : JVal)
    (st : PGState) : Except Err (String × PGState) := do
  let (fieldExpr, isMetadata, path) ← pgResolveField cfg field
  if !isMetadata then
    let (ph, st2) := pgBind st (.v value)
    .ok ("(" ++ fieldExpr ++ " < " ++ ph ++ ")", st2)
  else
    match toFloat64 value with
    | some num =>
      let (ph, st2) := pgBind st (.v (.jnum num))
      .ok ("((" ++ metadataPathTextExpr fieldExpr path ++
        ")::double precision < " ++ ph ++ ")", st2)
    | none =>
      let (ph, st2) := pgBind st (.v (.jstr (goSprint value)))
      .ok ("(" ++ metadataPathTextExpr fieldExpr path ++ " < " ++ ph ++ ")",
        st2)

def pgCompileExists (cfg : FilterSQLConfig) (field : FieldRef)
    (st : PGState) : Except Err (String × PGState) := do
  let (fieldExpr, isMetadata, path) ← pgResolveField cfg field
  if !isMetadata then
    .ok ("(" ++ fieldExpr ++ " IS NOT NULL)", st)
  else
    .ok ("(" ++ metadataPathJSONBExpr fieldExpr path ++ " IS NOT NULL)", st)

mutual

/-- filterCompiler.compile (filter_sql.go): per-node dispatch of the
Postgres filter compiler. -/
def pgCompileFilter (cfg : FilterSQLConfig) :
    Filter → PGState → Except Err (String × PGState)
  | .fnil, _ => .error (invalidFilterErr "unsupported node type")
  | .feq field value, st => pgCompileEq cfg field value st
  | .fin field values, st => pgCompileIn cfg field values st
  | .fgt field value, st => pgCompileGt cfg field value st
  | .flt field value, st => pgCompileLt cfg field value st
  | .fex field, st => pgCompileExists cfg field st
  | .fand children, st =>
    if children.isEmpty then
      .error (invalidFilterErr "AND requires at least one child")
    else do
      let (parts, st2) ← pgCompileList cfg "AND" children st
      .ok ("(" ++ String.intercalate " AND " parts ++ ")", st2)
  | .forl children, st =>
    if children.isEmpty then
      .error (invalidFilterErr "OR requires at least one child")
    else do
      let (parts, st2) ← pgCompileList cfg "OR" children st
      .ok ("(" ++ String.intercalate " OR " parts ++ ")", st2)
  | .fnot child, st =>
    match child with
    | .fnil => .error (invalidFilterErr "NOT requires a child")
    | _ => do
      let (childSQL, st2) ← pgCompileFilter cfg child st
      .ok ("(NOT " ++ childSQL ++ ")", st2)

/-- The child loop of filterCompiler.compileLogical: nil children are
invalid, child fragments accumulate left to right. -/
def pgCompileList (cfg : FilterSQLConfig) (op : String) :
    List Filter → PGState → Except Err (List String × PGState)
  | [], st => .ok ([], st)
  | child :: rest, st =>
    match child with
    | .fnil => .error (invalidFilterErr (op ++ " contains nil child"))
    | _ => do
      let (childSQL, st2) ← pgCompileFilter cfg child st
      let (parts, st3) ← pgCompileList cfg op rest st2
      .ok (childSQL :: parts, st3)

end

/-- CompileFilterSQL (filter_sql.go): compiles a filter into a WHERE
fragment, the bound argument list and the next free parameter index. A
start index below 1 is clamped to 1; a nil filter compiles to the empty
fragment with no arguments. -/
def CompileFilterSQL (filter : Filter) (cfg : FilterSQLConfig)
    (startArg : ℤ) : Except Err (String × List BindVal × ℤ) :=
  let start := if startArg < 1 then 1 else startArg
  match filter with
  | .fnil => .ok ("", [], start)
  | f => do
    let (out, st) ← pgCompileFilter cfg f ⟨[], start⟩
    .ok (out, st.args, st.nextArg)

/-- DistanceMetric is a string type in the source. -/
def DistanceCosine : String := "cosine"

def DistanceL2 : String := "l2"

def DistanceInnerProduct : String := "inner_product"

/-- ScoreFromDistance (vectordata types file): converts a backend distance
into a monotonic score. Note the default branch: an unrecognized metric
silently gets the inner-product normalization instead of failing. -/
def ScoreFromDistance (metric : String) (distance : ℚ) : ℚ :=
  if metric = DistanceCosine then 1 - distance
  else if metric = DistanceL2 then 1 / (1 + distance)
  else if metric = DistanceInnerProduct then -distance
  else -distance

/-- Projection (vectordata types file). -/
structure Projection where
  includeVector : Bool
  includeMetadata : Bool
  includeContent : Bool
deriving DecidableEq

def DefaultProjection : Projection := ⟨false, true, true⟩

/-- SearchOptions; a nil filter is `Filter.fnil`. -/
structure SearchOptions where
  filter : Filter
  projection : Option Projection
  threshold : Option ℚ

/-- SearchResult. -/
structure SearchResult where
  record : Record
  distance : ℚ
  score : ℚ
deriving DecidableEq

/-! SQL three-valued logic, used by the modelled execution of compiled
filter fragments: `none` is the SQL UNKNOWN truth value, a row matches a
WHERE clause only when it evaluates to `some true`. -/

def triAnd : Option Bool → Option Bool → Option Bool
  | some false, _ => some false
  | _, some false => some false
  | some true, some true => some true
  | _, _ => none

def triOr : Option Bool → Option Bool → Option Bool
  | some true, _ => some true
  | _, some true => some true
  | some false, some false => some false
  | _, _ => none

def triNot : Option Bool → Option Bool
  | some b => some (!b)
  | none => none

def digitsVal (cs : List Char) : ℕ :=
  cs.foldl (fun acc c => acc * 10 + (c.toNat - 48)) 0

/-- Text-to-double conversion as performed by the engines
(`::double precision`, `TRY_CONVERT(float, ...)`): optional sign, decimal
digits with optional fraction and exponent; anything else fails. -/
def parseFloatText (s : String) : Option ℚ :=
  let cs := s.data
  let (sign, cs) : ℚ × List Char :=
    match cs with
    | '-' :: t => (-1, t)
    | '+' :: t => (1, t)
    | _ => (1, cs)
  let (ipart, cs) := cs.span Char.isDigit
  let (fpart, cs) :=
    match cs with
    | '.' :: t =>
      let (f, r) := t.span Char.isDigit
      (some f, r)
    | _ => (none, cs)
  if ipart.isEmpty ∧ (fpart.getD []).isEmpty then none
  else
    let mantissa : ℚ :=
      (digitsVal ipart : ℚ) +
        (digitsVal (fpart.getD []) : ℚ) / (10 : ℚ) ^ (fpart.getD []).length
    match cs with
    | [] => some (sign * mantissa)
    | e :: t =>
      if e = 'e' ∨ e = 'E' then
        let (esign, t) : ℤ × List Char :=
          match t with
          | '-' :: u => (-1, u)
          | '+' :: u => (1, u)
          | _ => (1, t)
        let (edigits, rest) := t.span Char.isDigit
        if edigits.isEmpty ∨ ¬rest.isEmpty then none
        else some (sign * mantissa * (10 : ℚ) ^ (esign * digitsVal edigits))
      else none

/-- A decimal integer path segment (for jsonb array indexing): optional
sign, digits only. -/
def parseIntText (s : String) : Option ℤ :=
  let cs := s.data
  let (sign, digits) : ℤ × List Char :=
    match cs with
    | '-' :: t => (-1, t)
    | _ => (1, cs)
  if digits.isEmpty ∨ ¬(digits.all Char.isDigit) then none
  else some (sign * digitsVal digits)

/-- jsonb path navigation (`#>` / `jsonb_extract_path`): each path element
is an object key, or an array index (negative counts from the end) when
the element parses as an integer and the value is an array; a failed step
yields SQL NULL. The untrimmed compiled path elements are used verbatim. -/
def pgNav : JVal → List String → Option JVal
  | v, [] => some v
  | .jobj fields, seg :: rest =>
    match fields.lookup seg with
    | some next => pgNav next rest
    | none => none
  | .jarr items, seg :: rest =>
    match parseIntText seg with
    | some i =>
      let idx : ℤ := if i < 0 then (items.length : ℤ) + i else i
      if h : 0 ≤ idx ∧ idx.toNat < items.length then
        pgNav (items.get ⟨idx.toNat, h.2⟩) rest
      else none
    | none => none
  | _, _ :: _ => none

/-- The text rendering (`#>>` / jsonb_extract_path_text) of a navigated
jsonb value: an explicit JSON null renders as SQL NULL, scalars as their
text, containers as their JSON text. -/
def pgTextOf : JVal → Option String
  | .jnull => none
  | .jbool true => some "true"
  | .jbool false => some "false"
  | .jnum q => some (formatRat q)
  | .jstr s => some s
  | v => some (jsonEncode v)

/-- The stored metadata document of a record: the write path persists
`normalizeMetadata`, so a nil map is stored as the empty document. -/
def storedMetadata (record : Record) : JVal :=
  .jobj (record.metadata.getD [])

/-- The SQL value of a whitelisted column of the standard filter
configuration (PostgresCollection.filterConfig): the primary key is never
NULL, the content column is NULL when the record has no content. -/
def columnSQLValue (name : String) (record : Record) :
    Except Err (Option String) :=
  if name = idColumn then .ok (some record.id)
  else if name = contentColumn then .ok record.content
  else .error (invalidFilterErr ("unknown column " ++ name))

mutual

/-- The verdict of executing the fragment emitted by the Postgres filter
compiler (for the standard column whitelist id/content and the metadata
document column) against the stored form of one record. This is the
spec-side semantics of §4.2 for the refinement cross-check: per-node SQL
fragments are interpreted under standard SQL three-valued logic; string
comparison is byte-wise (binary collation assumed); jsonb equality is
structural with exact numeric comparison; a text-to-double cast failure is
a query execution error. -/
def pgEvalSQL : Filter → Record → Except Err (Option Bool)
  | .fnil, _ => .error (invalidFilterErr "unsupported node type")
  | .feq field value, record =>
    if field.kind = "column" then
      if field.name = "" then
        .error (invalidFilterErr "column field name is empty")
      else do
        let columnValue ← columnSQLValue field.name record
        match value with
        | .jstr t => .ok (columnValue.map fun s => decide (s = t))
        | _ => .error ⟨.generic, "operator does not exist: text = non-text"⟩
    else if field.kind = "metadata" then
      if field.path.isEmpty then
        .error (invalidFilterErr "metadata path is empty")
      else
        match pgNav (storedMetadata record) field.path with
        | none => .ok none
        | some stored => .ok (some (decide (stored = value)))
    else .error (invalidFilterErr ("unsupported field kind " ++ field.kind))
  | .fin field values, record =>
    if values.isEmpty then
      .error (invalidFilterErr "IN requires at least one value")
    else if field.kind = "column" then
      if field.name = "" then
        .error (invalidFilterErr "column field name is empty")
      else do
        let columnValue ← columnSQLValue field.name record
        if values.all fun v => match v with | .jstr _ => true | _ => false then
          .ok (columnValue.map fun s =>
            values.any fun v => match v with
              | .jstr t => decide (s = t)
              | _ => false)
        else .error ⟨.generic, "operator does not exist: text = non-text"⟩
    else if field.kind = "metadata" then
      if field.path.isEmpty then
        .error (invalidFilterErr "metadata path is empty")
      else
        match pgNav (storedMetadata record) field.path with
        | none => .ok none
        | some stored => .ok (some (values.any fun v => decide (stored = v)))
    else .error (invalidFilterErr ("unsupported field kind " ++ field.kind))
  | .fgt field value, record => pgEvalCompare field value true record
  | .flt field value, record => pgEvalCompare field value false record
  | .fex field, record =>
    if field.kind = "column" then
      if field.name = "" then
        .error (invalidFilterErr "column field name is empty")
      else do
        let columnValue ← columnSQLValue field.name record
        .ok (some columnValue.isSome)
    else if field.kind = "metadata" then
      if field.path.isEmpty then
        .error (invalidFilterErr "metadata path is empty")
      else .ok (some (pgNav (storedMetadata record) field.path).isSome)
    else .error (invalidFilterErr ("unsupported field kind " ++ field.kind))
  | .fand children, record =>
    if children.isEmpty then
      .error (invalidFilterErr "AND requires at least one child")
    else pgEvalList true children record
  | .forl children, record =>
    if children.isEmpty then
      .error (invalidFilterErr "OR requires at least one child")
    else pgEvalList false children record
  | .fnot child, record =>
    match child with
    | .fnil => .error (invalidFilterErr "NOT requires a child")
    | _ => do
      let v ← pgEvalSQL child record
      .ok (triNot v)

/-- Execution of a compiled `>`/`<` fragment: direct bound-value comparison
on columns; on metadata, numeric filter values compare through a
double-precision cast of the extracted text (failing the query on
non-numeric stored text), other values compare the extracted text with the
fmt.Sprint rendering of the filter value. -/
def pgEvalCompare (field : FieldRef) (value : JVal) (isGt : Bool)
    (record : Record) : Except Err (Option Bool) :=
  if field.kind = "column" then
    if field.name = "" then
      .error (invalidFilterErr "column field name is empty")
    else do
      let columnValue ← columnSQLValue field.name record
      match value with
      | .jstr t =>
        .ok (columnValue.map fun s => if isGt then strLt t s else strLt s t)
      | _ => .error ⟨.generic, "operator does not exist: text > non-text"⟩
  else if field.kind = "metadata" then
    if field.path.isEmpty then
      .error (invalidFilterErr "metadata path is empty")
    else
      let extracted :=
        (pgNav (storedMetadata record) field.path).bind pgTextOf
      match toFloat64 value with
      | some num =>
        match extracted with
        | none => .ok none
        | some text =>
          match parseFloatText text with
          | none =>
            .error ⟨.generic, "invalid input syntax for type double precision"⟩
          | some d =>
            .ok (some (if isGt then decide (num < d) else decide (d < num)))
      | none =>
        let t := goSprint value
        .ok (extracted.map fun s => if isGt then strLt t s else strLt s t)
  else .error (invalidFilterErr ("unsupported field kind " ++ field.kind))

/-- Ternary conjunction/disjunction over the children of a compiled logical
fragment, left to right; nil children mirror the compile-time refusal and an
erroring child fails the query. -/
def pgEvalList (isAnd : Bool) (children : List Filter) (record : Record) :
    Except Err (Option Bool) :=
  match children with
  | [] => .ok (some isAnd)
  | child :: rest =>
    match child with
    | .fnil =>
      .error
        (invalidFilterErr ((if isAnd then "AND" else "OR") ++
          " contains nil child"))
    | _ => do
      let v ← pgEvalSQL child record
      let w ← pgEvalList isAnd rest record
      .ok (if isAnd then triAnd v w else triOr v w)

end

/-- Generic per-row candidate collection in row order: the shared shape of
the in-process candidate loops and of the modelled engine scans. `ok none`
skips the row, the first error (in row order) aborts. -/
def collectRows {α : Type} (g : Record → Except Err (Option α)) :
    List Record → Except Err (List α)
  | [] => .ok []
  | record :: rest => do
    match ← g record with
    | none => collectRows g rest
    | some x => do
      let xs ← collectRows g rest
      .ok (x :: xs)

/-- The candidate a fallible per-row step yields: `some` exactly on a
successful hit. -/
def exOpt {α : Type} : Except Err (Option α) → Option α
  | .ok (some a) => some a
  | _ => none

end vectordata

namespace mssql

open vectordata

/-- Walks the decoded metadata value along the remaining path segments,
as in the loop body of resolveFieldValue: each segment is trimmed (empty
segment is an invalid-filter error), the current value must be a map and
must contain the key, otherwise the value does not exist. -/
def metadataWalk : JVal → List String → Except Err (Option JVal)
  | current, [] => .ok (some current)
  | current, segment :: rest =>
    let key := goTrim segment
    if key = "" then .error (invalidFilterErr "metadata path segment is empty")
    else
      match current with
      | .jobj fields =>
        match fields.lookup key with
        | some next => metadataWalk next rest
        | none => .ok none
      | _ => .ok none

/-- resolveFieldValue (stores/mssql/filter_eval.go): resolves a field
reference against a decoded record. `ok (some v)` is (value, exists=true),
`ok none` is exists=false. -/
def resolveFieldValue (field : FieldRef) (record : Record) :
    Except Err (Option JVal) :=
  if field.kind = "column" then
    let name := goTrim field.name
    if name = "" then .error (invalidFilterErr "column field name is empty")
    else if name = idColumn then .ok (some (.jstr record.id))
    else if name = contentColumn then
      match record.content with
      | none => .ok none
      | some c => .ok (some (.jstr c))
    else .error (invalidFilterErr ("unknown column " ++ name))
  else if field.kind = "metadata" then
    if field.path.isEmpty then
      .error (invalidFilterErr "metadata path is empty")
    else
      match record.metadata with
      | none => .ok none
      | some m => metadataWalk (.jobj m) field.path
  else .error (invalidFilterErr ("unsupported field kind " ++ field.kind))

/-- valuesEqual (stores/mssql/filter_eval.go): Go interface equality when a
side is nil, numeric comparison when both sides are numeric, otherwise
reflect.DeepEqual (structural equality on this domain). -/
def valuesEqual (left right : JVal) : Bool :=
  if left = .jnull ∨ right = .jnull then left = right
  else
    match toFloat64 left, toFloat64 right with
    | some l, some r => l = r
    | _, _ => left = right

/-- compareValues (stores/mssql/filter_eval.go): numeric comparison when both
sides are numeric, otherwise byte-lexicographic comparison of the
fmt.Sprint renderings. -/
def compareValues (left right : JVal) : Int :=
  match toFloat64 left, toFloat64 right with
  | some l, some r => if l < r then -1 else if l > r then 1 else 0
  | _, _ =>
    let lt := goSprint left
    let rt := goSprint right
    if strLt lt rt then -1 else if strLt rt lt then 1 else 0

mutual

/-- matchesFilter (stores/mssql/filter_eval.go): the in-process evaluator of
a filter AST against one decoded record. A nil filter matches everything. -/
def matchesFilter (filter : Filter) (record : Record) : Except Err Bool :=
  match filter with
  | .fnil => .ok true
  | .feq field value => do
    match ← resolveFieldValue field record with
    | none => .ok false
    | some left => .ok (valuesEqual left value)
  | .fin field values =>
    if values.isEmpty then
      .error (invalidFilterErr "IN requires at least one value")
    else do
      match ← resolveFieldValue field record with
      | none => .ok false
      | some left => .ok (values.any fun value => valuesEqual left value)
  | .fgt field value => do
    match ← resolveFieldValue field record with
    | none => .ok false
    | some left => .ok (compareValues left value > 0)
  | .flt field value => do
    match ← resolveFieldValue field record with
    | none => .ok false
    | some left => .ok (compareValues left value < 0)
  | .fex field => do
    let resolved ← resolveFieldValue field record
    .ok resolved.isSome
  | .fand children =>
    if children.isEmpty then
      .error (invalidFilterErr "AND requires at least one child")
    else matchesAll children record
  | .forl children =>
    if children.isEmpty then
      .error (invalidFilterErr "OR requires at least one child")
    else matchesAny children record
  | .fnot child =>
    match child with
    | .fnil => .error (invalidFilterErr "NOT requires a child")
    | _ => do
      let ok ← matchesFilter child record
      .ok (!ok)

/-- The AND loop of matchesFilter: nil children error, a false child stops
with false. -/
def matchesAll (children : List Filter) (record : Record) : Except Err Bool :=
  match children with
  | [] => .ok true
  | child :: rest =>
    match child with
    | .fnil => .error (invalidFilterErr "AND contains nil child")
    | _ => do
      let ok ← matchesFilter child record
      if ok then matchesAll rest record else .ok false

/-- The OR loop of matchesFilter: nil children error, a true child stops
with true. -/
def matchesAny (children : List Filter) (record : Record) : Except Err Bool :=
  match children with
  | [] => .ok false
  | child :: rest =>
    match child with
    | .fnil => .error (invalidFilterErr "OR contains nil child")
    | _ => do
      let ok ← matchesFilter child record
      if ok then .ok true else matchesAny rest record

end

/-- quoteIdent (stores/mssql/helpers.go). -/
def quoteIdent (ident : String) : String :=
  "[" ++ strReplace ident "]" "]]" ++ "]"

def metadataColumn : String := "metadata"

def unsupportedPushdown (m : String) : Err := ⟨.pushdownUnsupported, m⟩

/-- metadataPathLiteral (stores/mssql/filter_pushdown.go): the JSON path
string for a normalized metadata path, with backslashes and double quotes
escaped inside each quoted segment. -/
def metadataPathLiteral (path : List String) : String :=
  path.foldl
    (fun acc segment =>
      let escaped := strReplace (strReplace segment "\\" "\\\\") "\"" "\\\""
      acc ++ ".\"" ++ escaped ++ "\"")
    "$"

/-- The mutable state of mssqlFilterCompiler: accumulated args and the next
parameter index. -/
structure MSState where
  args : List BindVal
  nextArg : ℤ
deriving DecidableEq

def msBind (st : MSState) (x : BindVal) : String × MSState :=
  ("@p" ++ toString st.nextArg, ⟨st.args ++ [x], st.nextArg + 1⟩)

/-- mssqlFilterCompiler.resolveField: normalizes the reference via the
shared NormalizeFieldRef, then resolves columns against the two known
physical columns or produces the metadata path literal. -/
def msResolveField (ref : FieldRef) :
    Except Err (String × String × Bool) := do
  let normalized ← NormalizeFieldRef ref
  if normalized.kind = "column" then
    if normalized.name = idColumn then
      .ok (quoteIdent idColumn, "", false)
    else if normalized.name = contentColumn then
      .ok (quoteIdent contentColumn, "", false)
    else .error (invalidFilterErr ("unknown column " ++ normalized.name))
  else if normalized.kind = "metadata" then
    .ok ("", metadataPathLiteral normalized.path, true)
  else
    .error (invalidFilterErr ("unsupported field kind " ++ normalized.kind))

/-- mssqlFilterCompiler.compileMetadataEq: the path placeholder is bound
first; nil values and non-scalar values are refused with the pushdown
sentinel, strings compare via JSON_VALUE, booleans via LOWER, numbers via
TRY_CONVERT. -/
def msCompileMetadataEq (metadataPath : String) (value : JVal)
    (st : MSState) : Except Err (String × MSState) :=
  let (pathPh, st2) := msBind st (.v (.jstr metadataPath))
  let valueExpr :=
    "JSON_VALUE(" ++ quoteIdent metadataColumn ++ ", " ++ pathPh ++ ")"
  match value with
  | .jnull =>
    .error
      (unsupportedPushdown
        "metadata equality with nil is not supported by SQL pushdown")
  | .jstr s =>
    let (ph, st3) := msBind st2 (.v (.jstr s))
    .ok ("(" ++ valueExpr ++ " = " ++ ph ++ ")", st3)
  | .jbool b =>
    let boolValue := if b then "true" else "false"
    let (ph, st3) := msBind st2 (.v (.jstr boolValue))
    .ok ("(LOWER(" ++ valueExpr ++ ") = " ++ ph ++ ")", st3)
  | other =>
    match toFloat64 other with
    | some number =>
      let (ph, st3) := msBind st2 (.v (.jnum number))
      .ok ("(TRY_CONVERT(float, " ++ valueExpr ++ ") = " ++ ph ++ ")", st3)
    | none =>
      .error
        (unsupportedPushdown
          "metadata scalar comparison does not support value type")

def msCompileEq (field : FieldRef) (value : JVal) (st : MSState) :
    Except Err (String × MSState) := do
  let (columnExpr, metadataPath, isMetadata) ← msResolveField field
  if !isMetadata then
    match value with
    | .jstr s =>
      let (ph, st2) := msBind st (.v (.jstr s))
      .ok ("(" ++ columnExpr ++ " = " ++ ph ++ ")", st2)
    | _ =>
      .error (unsupportedPushdown "column equality only supports string values")
  else msCompileMetadataEq metadataPath value st

def msCompileInColumnParts (values : List JVal) (st : MSState) :
    Except Err (List String × MSState) :=
  match values with
  | [] => .ok ([], st)
  | value :: rest =>
    match value with
    | .jstr s =>
      let (ph, st2) := msBind st (.v (.jstr s))
      (msCompileInColumnParts rest st2).map fun (parts, st3) =>
        (ph :: parts, st3)
    | _ =>
      .error (unsupportedPushdown "column IN only supports string values")

def msCompileInMetadataParts (metadataPath : String) (values : List JVal)
    (st : MSState) : Except Err (List String × MSState) :=
  match values with
  | [] => .ok ([], st)
  | value :: rest => do
    let (predicate, st2) ← msCompileMetadataEq metadataPath value st
    let (parts, st3) ← msCompileInMetadataParts metadataPath rest st2
    .ok (predicate :: parts, st3)

def msCompileIn (field : FieldRef) (values : List JVal) (st : MSState) :
    Except Err (String × MSState) := do
  if values.isEmpty then
    throw (invalidFilterErr "IN requires at least one value")
  let (columnExpr, metadataPath, isMetadata) ← msResolveField field
  if !isMetadata then
    let (parts, st2) ← msCompileInColumnParts values st
    .ok ("(" ++ columnExpr ++ " IN (" ++ String.intercalate ", " parts ++
      "))", st2)
  else
    let (predicates, st2) ← msCompileInMetadataParts metadataPath values st
    .ok ("(" ++ String.intercalate " OR " predicates ++ ")", st2)

def msCompileGt (field : FieldRef) (value : JVal) (st : MSState) :
    Except Err (String × MSState) := do
  let (columnExpr, metadataPath, isMetadata) ← msResolveField field
  if !isMetadata then
    match value with
    | .jstr s =>
      let (ph, st2) := msBind st (.v (.jstr s))
      .ok ("(" ++ columnExpr ++ " > " ++ ph ++ ")", st2)
    | _ =>
      .error
        (unsupportedPushdown "column greater-than only supports string values")
  else
    match toFloat64 value with
    | some number =>
      let (pathPh, st2) := msBind st (.v (.jstr metadataPath))
      let valueExpr :=
        "JSON_VALUE(" ++ quoteIdent metadataColumn ++ ", " ++ pathPh ++ ")"
      let (ph, st3) := msBind st2 (.v (.jnum number))
      .ok ("(TRY_CONVERT(float, " ++ valueExpr ++ ") > " ++ ph ++ ")", st3)
    | none =>
      .error
        (unsupportedPushdown "metadata greater-than only supports numeric values")

def msCompileLt (field : FieldRef) (value : JVal) (st : MSState) :
    Except Err (String × MSState) := do
  let (columnExpr, metadataPath, isMetadata) ← msResolveField field
  if !isMetadata then
    match value with
    | .jstr s =>
      let (ph, st2) := msBind st (.v (.jstr s))
      .ok ("(" ++ columnExpr ++ " < " ++ ph ++ ")", st2)
    | _ =>
      .error
        (unsupportedPushdown "column less-than only supports string values")
  else
    match toFloat64 value with
    | some number =>
      let (pathPh, st2) := msBind st (.v (.jstr metadataPath))
      let valueExpr :=
        "JSON_VALUE(" ++ quoteIdent metadataColumn ++ ", " ++ pathPh ++ ")"
      let (ph, st3) := msBind st2 (.v (.jnum number))
      .ok ("(TRY_CONVERT(float, " ++ valueExpr ++ ") < " ++ ph ++ ")", st3)
    | none =>
      .error
        (unsupportedPushdown "metadata less-than only supports numeric values")

def msCompileExists (field : FieldRef) (st : MSState) :
    Except Err (String × MSState) := do
  let (columnExpr, metadataPath, isMetadata) ← msResolveField field
  if !isMetadata then
    .ok ("(" ++ columnExpr ++ " IS NOT NULL)", st)
  else
    let (pathPh, st2) := msBind st (.v (.jstr metadataPath))
    .ok ("(JSON_PATH_EXISTS(" ++ quoteIdent metadataColumn ++ ", " ++
      pathPh ++ ") = 1)", st2)

mutual

/-- mssqlFilterCompiler.compile (stores/mssql/filter_pushdown.go). -/
def msCompileFilter :
    Filter → MSState → Except Err (String × MSState)
  | .fnil, _ => .error (invalidFilterErr "unsupported node type")
  | .feq field value, st => msCompileEq field value st
  | .fin field values, st => msCompileIn field values st
  | .fgt field value, st => msCompileGt field value st
  | .flt field value, st => msCompileLt field value st
  | .fex field, st => msCompileExists field st
  | .fand children, st =>
    if children.isEmpty then
      .error (invalidFilterErr "AND requires at least one child")
    else do
      let (parts, st2) ← msCompileList "AND" children st
      .ok ("(" ++ String.intercalate " AND " parts ++ ")", st2)
  | .forl children, st =>
    if children.isEmpty then
      .error (invalidFilterErr "OR requires at least one child")
    else do
      let (parts, st2) ← msCompileList "OR" children st
      .ok ("(" ++ String.intercalate " OR " parts ++ ")", st2)
  | .fnot child, st =>
    match child with
    | .fnil => .error (invalidFilterErr "NOT requires a child")
    | _ => do
      let (childSQL, st2) ← msCompileFilter child st
      .ok ("(NOT " ++ childSQL ++ ")", st2)

def msCompileList (op : String) :
    List Filter → MSState → Except Err (List String × MSState)
  | [], st => .ok ([], st)
  | child :: rest, st =>
    match child with
    | .fnil => .error (invalidFilterErr (op ++ " contains nil child"))
    | _ => do
      let (childSQL, st2) ← msCompileFilter child st
      let (parts, st3) ← msCompileList op rest st2
      .ok (childSQL :: parts, st3)

end

/-- compileMSSQLFilterSQL (stores/mssql/filter_pushdown.go): the restricted
compiler entry point; a start index below 1 is clamped to 1, a nil filter
compiles to the empty fragment. -/
def compileMSSQLFilterSQL (filter : Filter) (startArg : ℤ) :
    Except Err (String × List BindVal × ℤ) :=
  let start := if startArg < 1 then 1 else startArg
  match filter with
  | .fnil => .ok ("", [], start)
  | f => do
    let (out, st) ← msCompileFilter f ⟨[], start⟩
    .ok (out, st.args, st.nextArg)

/-- Field resolution at the semantic level, mirroring
mssqlFilterCompiler.resolveField: the reference is normalized and a column
resolves to one of the two physical columns, while a metadata reference
yields its normalized segments (the path literal built from them parses
back to exactly these segments). -/
def msResolveFieldSem (ref : FieldRef) : Except Err (String ⊕ List String) := do
  let normalized ← NormalizeFieldRef ref
  if normalized.kind = "column" then
    if normalized.name = idColumn then .ok (.inl idColumn)
    else if normalized.name = contentColumn then .ok (.inl contentColumn)
    else .error (invalidFilterErr ("unknown column " ++ normalized.name))
  else if normalized.kind = "metadata" then .ok (.inr normalized.path)
  else
    .error (invalidFilterErr ("unsupported field kind " ++ normalized.kind))

/-- JSON path navigation as performed by JSON_VALUE / JSON_PATH_EXISTS on a
compiled `$."seg"..."seg"` literal: every step is an object member access;
a missing member or a non-object intermediate yields no value (lax mode). -/
def msNav : JVal → List String → Option JVal
  | v, [] => some v
  | .jobj fields, seg :: rest =>
    match fields.lookup seg with
    | some next => msNav next rest
    | none => none
  | _, _ :: _ => none

/-- The scalar text JSON_VALUE returns for a navigated value: strings
verbatim, numbers and booleans as their token text, an explicit JSON null
and non-scalar values as SQL NULL. -/
def msScalarText : JVal → Option String
  | .jnull => none
  | .jbool true => some "true"
  | .jbool false => some "false"
  | .jnum q => some (formatRat q)
  | .jstr s => some s
  | _ => none

/-- JSON_VALUE(metadata, path) against the stored metadata document. -/
def msJsonValue (record : Record) (path : List String) : Option String :=
  (msNav (storedMetadata record) path).bind msScalarText

/-- The verdict of a compiled metadata-equality predicate
(msCompileMetadataEq) on one record: strings compare against JSON_VALUE,
booleans against LOWER of it, numbers through TRY_CONVERT (which turns
non-numeric text into SQL NULL); nil and non-scalar filter values were
refused by the compiler and mirror that refusal here. -/
def msEvalMetadataEq (record : Record) (path : List String) (value : JVal) :
    Except Err (Option Bool) :=
  match value with
  | .jnull =>
    .error
      (unsupportedPushdown
        "metadata equality with nil is not supported by SQL pushdown")
  | .jstr t => .ok ((msJsonValue record path).map fun s => decide (s = t))
  | .jbool b =>
    let boolValue := if b then "true" else "false"
    .ok ((msJsonValue record path).map fun s => decide (strToLower s = boolValue))
  | other =>
    match toFloat64 other with
    | some num =>
      .ok (((msJsonValue record path).bind parseFloatText).map
        fun d => decide (d = num))
    | none =>
      .error
        (unsupportedPushdown
          "metadata scalar comparison does not support value type")

mutual

/-- The verdict of executing the fragment emitted by the restricted MSSQL
filter compiler against the stored form of one record, under standard SQL
three-valued logic. String comparison is modelled byte-wise (a binary,
case-sensitive collation is assumed); TRY_CONVERT yields SQL NULL on
non-numeric text instead of failing the query. Shapes the compiler refuses
mirror its pushdown-unsupported refusal. -/
def msEvalSQL : Filter → Record → Except Err (Option Bool)
  | .fnil, _ => .error (invalidFilterErr "unsupported node type")
  | .feq field value, record => do
    match ← msResolveFieldSem field with
    | .inl name =>
      match value with
      | .jstr t =>
        .ok ((columnSQLValue name record).toOption.join.map fun s =>
          decide (s = t))
      | _ =>
        .error
          (unsupportedPushdown "column equality only supports string values")
    | .inr path => msEvalMetadataEq record path value
  | .fin field values, record => do
    if values.isEmpty then
      throw (invalidFilterErr "IN requires at least one value")
    match ← msResolveFieldSem field with
    | .inl name =>
      if values.all fun v => match v with | .jstr _ => true | _ => false then
        .ok ((columnSQLValue name record).toOption.join.map fun s =>
          values.any fun v => match v with
            | .jstr t => decide (s = t)
            | _ => false)
      else
        .error (unsupportedPushdown "column IN only supports string values")
    | .inr path => msEvalInMetadata record path values
  | .fgt field value, record => msEvalCompare field value true record
  | .flt field value, record => msEvalCompare field value false record
  | .fex field, record => do
    match ← msResolveFieldSem field with
    | .inl name =>
      .ok (some ((columnSQLValue name record).toOption.join.isSome))
    | .inr path =>
      .ok (some (msNav (storedMetadata record) path).isSome)
  | .fand children, record =>
    if children.isEmpty then
      .error (invalidFilterErr "AND requires at least one child")
    else msEvalList true children record
  | .forl children, record =>
    if children.isEmpty then
      .error (invalidFilterErr "OR requires at least one child")
    else msEvalList false children record
  | .fnot child, record =>
    match child with
    | .fnil => .error (invalidFilterErr "NOT requires a child")
    | _ => do
      let v ← msEvalSQL child record
      .ok (triNot v)

/-- A compiled metadata IN: the disjunction of the per-value equality
predicates, under ternary OR. -/
def msEvalInMetadata (record : Record) (path : List String)
    (values : List JVal) : Except Err (Option Bool) :=
  match values with
  | [] => .ok (some false)
  | value :: rest => do
    let v ← msEvalMetadataEq record path value
    let w ← msEvalInMetadata record path rest
    .ok (triOr v w)

/-- Execution of a compiled `>`/`<` fragment: string comparison on columns,
TRY_CONVERT-based numeric comparison on metadata. -/
def msEvalCompare (field : FieldRef) (value : JVal) (isGt : Bool)
    (record : Record) : Except Err (Option Bool) := do
  match ← msResolveFieldSem field with
  | .inl name =>
    match value with
    | .jstr t =>
      .ok ((columnSQLValue name record).toOption.join.map fun s =>
        if isGt then strLt t s else strLt s t)
    | _ =>
      .error
        (unsupportedPushdown
          (if isGt then "column greater-than only supports string values"
           else "column less-than only supports string values"))
  | .inr path =>
    match toFloat64 value with
    | some num =>
      .ok (((msJsonValue record path).bind parseFloatText).map fun d =>
        if isGt then decide (num < d) else decide (d < num))
    | none =>
      .error
        (unsupportedPushdown
          (if isGt then "metadata greater-than only supports numeric values"
           else "metadata less-than only supports numeric values"))

/-- Ternary conjunction/disjunction over the children of a compiled logical
fragment. -/
def msEvalList (isAnd : Bool) (children : List Filter) (record : Record) :
    Except Err (Option Bool) :=
  match children with
  | [] => .ok (some isAnd)
  | child :: rest =>
    match child with
    | .fnil =>
      .error
        (invalidFilterErr ((if isAnd then "AND" else "OR") ++
          " contains nil child"))
    | _ => do
      let v ← msEvalSQL child record
      let w ← msEvalList isAnd rest record
      .ok (if isAnd then triAnd v w else triOr v w)

end

/-- defaultMetric (stores/mssql/helpers.go). -/
def defaultMetric (metric : String) : String :=
  if metric = "" then DistanceCosine else metric

/-- resolveProjection (stores/mssql/helpers.go). -/
def resolveProjection (projection : Option Projection) : Projection :=
  projection.getD DefaultProjection

/-- projectRecord (stores/mssql/filter_eval.go). -/
def projectRecord (record : Record) (projection : Projection) : Record :=
  { id := record.id
    vector := if projection.includeVector then record.vector else []
    metadata :=
      if projection.includeMetadata then some (record.metadata.getD []) else none
    content := if projection.includeContent then record.content else none }

def dot (left right : List ℚ) : ℚ :=
  (List.zipWith (· * ·) left right).sum

def norm (vector : List ℚ) : ℚ :=
  ratSqrt ((vector.map fun v => v * v).sum)

/-- cosineDistance (stores/mssql/helpers.go): 1 − similarity, with distance
1 when either vector has zero norm. -/
def cosineDistance (left right : List ℚ) : ℚ :=
  let leftNorm := norm left
  let rightNorm := norm right
  if leftNorm = 0 ∨ rightNorm = 0 then 1
  else 1 - dot left right / (leftNorm * rightNorm)

def l2Distance (left right : List ℚ) : ℚ :=
  ratSqrt ((List.zipWith (fun l r => (l - r) * (l - r)) left right).sum)

/-- distanceBetween (stores/mssql/helpers.go): dimension check, then the
metric-specific distance; an unrecognized metric is a schema-mismatch
failure. -/
def distanceBetween (metric : String) (query candidate : List ℚ) :
    Except Err ℚ :=
  if query.length ≠ candidate.length then
    .error ⟨.dimensionMismatch, "expected query dimension"⟩
  else if metric = DistanceCosine then .ok (cosineDistance query candidate)
  else if metric = DistanceL2 then .ok (l2Distance query candidate)
  else if metric = DistanceInnerProduct then .ok (-(dot query candidate))
  else .error ⟨.schemaMismatch, "unsupported distance metric " ++ metric⟩

/-- searchDistanceExpr (stores/mssql/search_sql.go): the SQL distance
expression per metric (whitespace condensed); an unrecognized metric is a
schema-mismatch failure. -/
def searchDistanceExpr (metric : String) : Except Err String :=
  if metric = DistanceCosine then
    .ok ("CASE WHEN vec_stats.query_norm_sq = 0 OR " ++
      "candidate_stats.candidate_norm_sq = 0 THEN 1.0 ELSE 1.0 - " ++
      "(vec_stats.dot_product / (SQRT(vec_stats.query_norm_sq) * " ++
      "SQRT(candidate_stats.candidate_norm_sq))) END")
  else if metric = DistanceL2 then .ok "SQRT(vec_stats.sum_sq_diff)"
  else if metric = DistanceInnerProduct then .ok "(-vec_stats.dot_product)"
  else .error ⟨.schemaMismatch, "unsupported distance metric " ++ metric⟩

/-- isBetterResult (stores/mssql/filter_eval.go): strictly smaller distance
wins, ascending ID breaks exact distance ties. -/
def isBetterResult (left right : SearchResult) : Bool :=
  if left.distance = right.distance then strLt left.record.id right.record.id
  else left.distance < right.distance

/-- isWorseResult (stores/mssql/filter_eval.go). -/
def isWorseResult (left right : SearchResult) : Bool :=
  if left.distance = right.distance then strLt right.record.id left.record.id
  else right.distance < left.distance

/-- Models the container/heap ADT used by searchResultMaxHeap: the heap is
kept as a list sorted worst-first under isWorseResult, so index 0 is the
root (the worst retained result, the maximum of the heap ordering), Push
inserts and Pop removes the root. Only this contract of package
container/heap is relied on by the source. -/
def heapPush (x : SearchResult) : List SearchResult → List SearchResult
  | [] => [x]
  | y :: rest =>
    if isWorseResult x y then x :: y :: rest else y :: heapPush x rest

/-- One candidate against the bounded heap, as in
searchByVectorStreaming: push while below capacity, otherwise replace the
root exactly when the candidate beats it. The empty-heap full case is
unreachable for positive topK. -/
def streamStep (topK : ℤ) (heap : List SearchResult)
    (candidate : SearchResult) : List SearchResult :=
  if (heap.length : ℤ) < topK then heapPush candidate heap
  else
    match heap with
    | [] => heap
    | worst :: rest =>
      if isBetterResult candidate worst then heapPush candidate rest else heap

/-- The per-record body of the streaming search: stored-vector dimension
check, in-process filter, in-process distance, optional threshold, then the
projected candidate. `ok none` means the row is skipped. -/
def streamCandidate (dim : ℤ) (metric : String) (queryVector : List ℚ)
    (opts : SearchOptions) (projection : Projection) (record : Record) :
    Except Err (Option SearchResult) := do
  if (record.vector.length : ℤ) ≠ dim then
    throw ⟨.dimensionMismatch, "invalid stored vector for record " ++ record.id⟩
  let isMatch ← matchesFilter opts.filter record
  if !isMatch then
    .ok none
  else do
    let distance ← distanceBetween metric queryVector record.vector
    match opts.threshold with
    | some threshold =>
      if threshold < distance then .ok none
      else
        .ok (some ⟨projectRecord record projection, distance,
          ScoreFromDistance metric distance⟩)
    | none =>
      .ok (some ⟨projectRecord record projection, distance,
        ScoreFromDistance metric distance⟩)

/-- The row loop of searchByVectorStreaming over the streamed rows, carrying
the bounded heap; the first error aborts the stream. -/
def streamFold (dim : ℤ) (metric : String) (queryVector : List ℚ)
    (opts : SearchOptions) (projection : Projection) (topK : ℤ) :
    List Record → List SearchResult → Except Err (List SearchResult)
  | [], heap => .ok heap
  | record :: rest, heap => do
    match ← streamCandidate dim metric queryVector opts projection record with
    | none => streamFold dim metric queryVector opts projection topK rest heap
    | some candidate =>
      streamFold dim metric queryVector opts projection topK rest
        (streamStep topK heap candidate)

/-- Models sort.Slice with the isBetterResult comparator. sort.Slice is an
unstable sort; this insertion sort is one of its admissible outcomes, and
the outcome is unique whenever no two elements tie on both distance and ID
(always the case for rows of a primary-keyed table). -/
def insertBetter (x : SearchResult) :
    List SearchResult → List SearchResult
  | [] => [x]
  | y :: rest =>
    if isBetterResult x y then x :: y :: rest else y :: insertBetter x rest

def sortByBetter (results : List SearchResult) : List SearchResult :=
  results.foldl (fun acc x => insertBetter x acc) []

/-- searchByVectorStreaming (stores/mssql/filter_eval.go): streams every
row, keeps the bounded worst-first heap, then drains it (worst first — the
drained list is the heap list itself) and sorts by isBetterResult. -/
def searchByVectorStreaming (dim : ℤ) (metric : String) (rows : List Record)
    (queryVector : List ℚ) (topK : ℤ) (opts : SearchOptions) :
    Except Err (List SearchResult) := do
  let projection := resolveProjection opts.projection
  let m := defaultMetric metric
  let heap ← streamFold dim m queryVector opts projection topK rows []
  .ok (sortByBetter heap)

/-- The candidate loop of the naive full-scan SearchByVector of the earlier
revision (unnamed/part_007): same per-record logic as the streaming path,
accumulating every passing candidate in row order. -/
def naiveCollect (dim : ℤ) (metric : String) (queryVector : List ℚ)
    (opts : SearchOptions) (projection : Projection) :
    List Record → Except Err (List SearchResult)
  | [] => .ok []
  | record :: rest => do
    match ← streamCandidate dim metric queryVector opts projection record with
    | none => naiveCollect dim metric queryVector opts projection rest
    | some candidate => do
      let results ← naiveCollect dim metric queryVector opts projection rest
      .ok (candidate :: results)

/-- The naive reference SearchByVector (unnamed/part_007): validates topK
and the query dimension, loads all rows, filters and scores in-process,
sorts all matches with the distance-ascending ID-ascending comparator and
truncates to topK. -/
def searchByVectorNaive (dim : ℤ) (metric : String) (rows : List Record)
    (queryVector : List ℚ) (topK : ℤ) (opts : SearchOptions) :
    Except Err (List SearchResult) := do
  if topK ≤ 0 then
    throw ⟨.generic, "topK must be > 0"⟩
  if (queryVector.length : ℤ) ≠ dim then
    throw ⟨.dimensionMismatch, "query vector dimension"⟩
  let projection := resolveProjection opts.projection
  let m := defaultMetric metric
  let results ← naiveCollect dim m queryVector opts projection rows
  let sorted := sortByBetter results
  .ok (if (sorted.length : ℤ) > topK then sorted.take topK.toNat else sorted)

/-- The data of a built SQL search plan that determines the modelled
execution (buildSearchSQLPlan): the metric, the filter whose compiled
fragment is ANDed into the inner WHERE, the optional threshold of the outer
WHERE and the FETCH limit. -/
structure SearchSQLPlan where
  metric : String
  filter : Filter
  threshold : Option ℚ
  topK : ℤ
  projection : Projection

/-- buildSearchSQLPlan (stores/mssql/search_sql.go): resolves the
projection, requires a known metric for the distance expression and
compiles the filter (parameters 3 onward); compile failures — including the
pushdown-unsupported refusal — abort the build. -/
def buildSearchSQLPlan (metric : String) (queryVector : List ℚ) (topK : ℤ)
    (opts : SearchOptions) : Except Err SearchSQLPlan := do
  let projection := resolveProjection opts.projection
  let _ ← searchDistanceExpr (defaultMetric metric)
  let _ ← compileMSSQLFilterSQL opts.filter 3
  let _ := queryVector
  .ok ⟨defaultMetric metric, opts.filter, opts.threshold, topK, projection⟩

/-- Stable-by-arrival insertion for the modelled engine sort under
`ORDER BY distance ASC, id ASC`: the key (distance, id) is totally ordered
and duplicate keys cannot occur among rows of a primary-keyed table, so the
sorted output is unique. -/
def insertByDistanceId (x : SearchResult) :
    List SearchResult → List SearchResult
  | [] => [x]
  | y :: rest =>
    if x.distance < y.distance ∨
        (x.distance = y.distance ∧ strLt x.record.id y.record.id) then
      x :: y :: rest
    else y :: insertByDistanceId x rest

def sortByDistanceId (results : List SearchResult) : List SearchResult :=
  results.foldl (fun acc x => insertByDistanceId x acc) []

/-- The per-row body of the modelled execution of the built SQL search
plan (executeSearchSQLPlan): the engine keeps rows whose stored vector has
the expected dimension (the candidate_dim/matched_dim predicates), applies
the compiled filter fragment (rows match only on a definite TRUE), computes
the metric distance and applies the outer threshold; the whole scan (below)
then orders by distance then id and fetches topK rows. The scan order of
the table is the given row order. -/
def msSQLRowCand (dim : ℤ) (queryVector : List ℚ) (plan : SearchSQLPlan)
    (record : Record) : Except Err (Option SearchResult) := do
  if (record.vector.length : ℤ) ≠ dim then
    .ok none
  else do
    let verdict ←
      match plan.filter with
      | .fnil => pure (some true)
      | f => msEvalSQL f record
    if verdict ≠ some true then
      .ok none
    else do
      let distance ← distanceBetween plan.metric queryVector record.vector
      match plan.threshold with
      | some threshold =>
        if threshold < distance then .ok none
        else
          .ok (some ({ record := projectRecord record plan.projection
                       distance := distance
                       score := ScoreFromDistance plan.metric distance }
                     : SearchResult))
      | none =>
        .ok (some ({ record := projectRecord record plan.projection
                     distance := distance
                     score := ScoreFromDistance plan.metric distance }
                   : SearchResult))

def executeSearchSQLPlan (dim : ℤ) (rows : List Record)
    (queryVector : List ℚ) (plan : SearchSQLPlan) :
    Except Err (List SearchResult) := do
  let candidates ← collectRows (msSQLRowCand dim queryVector plan) rows
  .ok ((sortByDistanceId candidates).take plan.topK.toNat)

/-- SearchByVector (stores/mssql/filter_eval.go): topK and query-dimension
validation, then the SQL plan; only a pushdown-unsupported build failure
falls back to the streaming path, any other build failure and all execution
failures surface. -/
def SearchByVector (dim : ℤ) (metric : String) (rows : List Record)
    (queryVector : List ℚ) (topK : ℤ) (opts : SearchOptions) :
    Except Err (List SearchResult) :=
  if topK ≤ 0 then
    .error ⟨.generic, "topK must be > 0"⟩
  else if (queryVector.length : ℤ) ≠ dim then
    .error ⟨.dimensionMismatch, "query vector dimension"⟩
  else
    match buildSearchSQLPlan metric queryVector topK opts with
    | .ok plan => executeSearchSQLPlan dim rows queryVector plan
    | .error e =>
      if e.kind = .pushdownUnsupported then
        searchByVectorStreaming dim metric rows queryVector topK opts
      else .error e

/-- The filtered row loop of the streaming Count fallback. -/
def countMatching (filter : Filter) : List Record → Except Err ℤ
  | [] => .ok 0
  | record :: rest => do
    let isMatch ← matchesFilter filter record
    let count ← countMatching filter rest
    .ok (if isMatch then count + 1 else count)

/-- Count (stores/mssql/filter_eval.go): a nil filter counts every row with
a plain COUNT(*); otherwise the compiled fragment counts matching rows in
the engine (a row counts only on a definite TRUE), and exactly a
pushdown-unsupported compile failure falls back to streaming the rows
through the in-process evaluator. -/
def Count (rows : List Record) (filter : Filter) : Except Err ℤ :=
  match filter with
  | .fnil => .ok (rows.length : ℤ)
  | f =>
    match compileMSSQLFilterSQL f 1 with
    | .ok _ =>
      rows.foldrM
        (fun record acc => do
          let verdict ← msEvalSQL f record
          .ok (if verdict = some true then acc + 1 else acc))
        (0 : ℤ)
    | .error e =>
      if e.kind ≠ .pushdownUnsupported then .error e
      else countMatching f rows

def maxRowsPerStatement : ℕ := 500

/-- The validation-and-encode loop of writeBatch
(stores/mssql/filter_eval.go) inside one transaction: per record, the empty
ID check, the dimension check, the JSON encodings (total on this domain)
and the row exec; the resulting rows are persisted only if the whole chunk
commits (an error rolls the transaction back). Serialization of vectors and
metadata is value-level identity in the model. -/
def writeBatch (dim : ℤ) : List Record → Except Err (List Record)
  | [] => .ok []
  | record :: rest => do
    if goTrim record.id = "" then
      throw ⟨.generic, "record id is empty"⟩
    if (record.vector.length : ℤ) ≠ dim then
      throw ⟨.dimensionMismatch, "record vector dimension"⟩
    let rows ← writeBatch dim rest
    .ok (persistedForm record :: rows)

def chunksOfAux (n : ℕ) : ℕ → List Record → List (List Record)
  | _, [] => []
  | 0, _ :: _ => []
  | fuel + 1, x :: xs =>
    (x :: xs).take n :: chunksOfAux n fuel ((x :: xs).drop n)

/-- A list split into source-order chunks of at most n records (for n ≥ 1);
the fuel equals the input length, which bounds the recursion since every
chunk consumes at least one record. -/
def chunksOf (n : ℕ) (l : List Record) : List (List Record) :=
  chunksOfAux n l.length l

/-- The chunk loop of writeRecords: each chunk is one committed
transaction; the first failing chunk stops the loop (its own transaction
rolled back), leaving the previously committed chunks durably applied. -/
def runChunks (dim : ℤ) : List (List Record) → List Record × Option Err
  | [] => ([], none)
  | chunk :: rest =>
    match writeBatch dim chunk with
    | .error e => ([], some e)
    | .ok rows =>
      match runChunks dim rest with
      | (persisted, err) => (rows ++ persisted, err)

/-- writeRecords (stores/mssql/filter_eval.go): the batch is written in
chunks of maxRowsPerStatement records. Returns the persisted rows and the
error, if any. -/
def writeRecords (dim : ℤ) (records : List Record) :
    List Record × Option Err :=
  runChunks dim (chunksOf maxRowsPerStatement records)

end mssql

namespace postgres

open vectordata

/-- quoteIdent (postgres helpers). -/
def quoteIdent (ident : String) : String :=
  "\"" ++ strReplace ident "\"" "\"\"" ++ "\""

def idColumn : String := "id"
def contentColumn : String := "content"
def metadataColumn : String := "metadata"

/-- defaultMetric (postgres helpers). -/
def defaultMetric (metric : String) : String :=
  if metric = "" then DistanceCosine else metric

/-- resolveProjection (stores/postgres/collection.go). -/
def resolveProjection (projection : Option Projection) : Projection :=
  projection.getD DefaultProjection

/-- metricOperator (postgres helpers): the pgvector operator per metric; an
unrecognized metric is a schema-mismatch failure. -/
def metricOperator (metric : String) : Except Err String :=
  if metric = DistanceCosine then .ok "<=>"
  else if metric = DistanceL2 then .ok "<->"
  else if metric = DistanceInnerProduct then .ok "<#>"
  else .error ⟨.schemaMismatch, "unsupported distance metric " ++ metric⟩

/-- PostgresCollection.filterConfig: the column whitelist maps the two
logical columns to their quoted expressions, plus the quoted metadata
column. -/
def filterConfig : FilterSQLConfig :=
  ⟨some [(idColumn, quoteIdent idColumn),
         (contentColumn, quoteIdent contentColumn)],
   quoteIdent metadataColumn⟩

def maxRowsPerStatement : ℕ := 500

/-- The validation-and-encode loop of buildWriteBatch
(stores/postgres/collection.go): per record, the empty ID check, the
dimension check and the encodings (vectorLiteral and metadataJSON are
value-level identities in the model, with the nil metadata map normalized
to the empty document). The whole chunk is validated before any
execution. -/
def buildWriteBatch (dim : ℤ) : List Record → Except Err (List Record)
  | [] => .ok []
  | record :: rest => do
    if goTrim record.id = "" then
      throw ⟨.generic, "record id is empty"⟩
    if (record.vector.length : ℤ) ≠ dim then
      throw ⟨.dimensionMismatch, "record vector dimension"⟩
    let rows ← buildWriteBatch dim rest
    .ok (persistedForm record :: rows)

/-- The chunk loop of the Postgres writeRecords: each chunk is built
(validating all of its records) and then executed as one statement; the
first failing chunk stops the loop with the previous chunks already
executed. -/
def runChunks (dim : ℤ) : List (List Record) → List Record × Option Err
  | [] => ([], none)
  | chunk :: rest =>
    match buildWriteBatch dim chunk with
    | .error e => ([], some e)
    | .ok rows =>
      match runChunks dim rest with
      | (persisted, err) => (rows ++ persisted, err)

/-- writeRecords (stores/postgres/collection.go): chunks of
maxRowsPerStatement records. Returns the persisted rows and the error, if
any. -/
def writeRecords (dim : ℤ) (records : List Record) :
    List Record × Option Err :=
  runChunks dim (mssql.chunksOf maxRowsPerStatement records)

/-- The data of a built native search plan that determines the modelled
execution (buildSearchPlan): metric, filter, threshold, limit and
projection. The emitted ORDER BY clause is `ORDER BY distance ASC` with no
tie-break column. -/
structure SearchPlan where
  metric : String
  filter : Filter
  threshold : Option ℚ
  topK : ℤ
  projection : Projection

/-- buildSearchPlan (stores/postgres/collection.go): validates topK and the
query dimension, requires a known metric operator, and compiles the
optional filter (parameters 2 onward); any compile failure aborts the
plan. -/
def buildSearchPlan (dim : ℤ) (metric : String) (queryVector : List ℚ)
    (topK : ℤ) (opts : SearchOptions) : Except Err SearchPlan := do
  if topK ≤ 0 then
    throw ⟨.generic, "topK must be > 0"⟩
  if (queryVector.length : ℤ) ≠ dim then
    throw ⟨.dimensionMismatch, "query vector dimension"⟩
  let _ ← metricOperator (defaultMetric metric)
  let projection := resolveProjection opts.projection
  match opts.filter with
  | .fnil => .ok ⟨defaultMetric metric, .fnil, opts.threshold, topK, projection⟩
  | f => do
    let _ ← CompileFilterSQL f filterConfig 2
    .ok ⟨defaultMetric metric, f, opts.threshold, topK, projection⟩

/-- The pgvector distance of the metric's native operator; operand
dimensions always agree because the column type pins the dimension. -/
def pgOperatorDistance (metric : String) (query candidate : List ℚ) :
    Except Err ℚ :=
  if query.length ≠ candidate.length then
    .error ⟨.generic, "different vector dimensions"⟩
  else if metric = DistanceCosine then .ok (mssql.cosineDistance query candidate)
  else if metric = DistanceL2 then .ok (mssql.l2Distance query candidate)
  else if metric = DistanceInnerProduct then .ok (-(mssql.dot query candidate))
  else .error ⟨.schemaMismatch, "unsupported distance metric " ++ metric⟩

/-- Arrival-order-preserving insertion by distance alone: the engine model
for `ORDER BY distance ASC`. The emitted clause constrains nothing about
equal-distance rows, so any distance-sorted permutation is a legitimate
result; this model realizes the one that preserves the physical scan
order on ties. -/
def insertByDistance (x : SearchResult) :
    List SearchResult → List SearchResult
  | [] => [x]
  | y :: rest =>
    if x.distance < y.distance then x :: y :: rest
    else y :: insertByDistance x rest

def sortByDistance (results : List SearchResult) : List SearchResult :=
  results.foldl (fun acc x => insertByDistance x acc) []

/-- The per-row body of the modelled execution of the built plan
(executeSearchPlan + scanSearchResult): a row passes the compiled filter
fragment only on a definite TRUE, the optional threshold keeps rows with
distance ≤ threshold, and each kept row is decoded according to the
projection and scored; the whole scan (below) then orders by distance
ascending only (ties follow the physical scan order of the given row list)
and limits to topK. -/
def pgRowCand (queryVector : List ℚ) (plan : SearchPlan)
    (record : Record) : Except Err (Option SearchResult) := do
  let verdict ←
    match plan.filter with
    | .fnil => pure (some true)
    | f => pgEvalSQL f record
  if verdict ≠ some true then
    .ok none
  else do
    let distance ← pgOperatorDistance plan.metric queryVector record.vector
    match plan.threshold with
    | some threshold =>
      if threshold < distance then .ok none
      else
        .ok (some ({ record :=
                       { id := record.id
                         vector :=
                           if plan.projection.includeVector then record.vector
                           else []
                         metadata :=
                           if plan.projection.includeMetadata then
                             some (record.metadata.getD [])
                           else none
                         content :=
                           if plan.projection.includeContent then record.content
                           else none }
                     distance := distance
                     score := ScoreFromDistance plan.metric distance }
                   : SearchResult))
    | none =>
      .ok (some ({ record :=
                     { id := record.id
                       vector :=
                         if plan.projection.includeVector then record.vector
                         else []
                       metadata :=
                         if plan.projection.includeMetadata then
                           some (record.metadata.getD [])
                         else none
                       content :=
                         if plan.projection.includeContent then record.content
                         else none }
                   distance := distance
                   score := ScoreFromDistance plan.metric distance }
                 : SearchResult))

def executeSearchPlan (rows : List Record)
    (queryVector : List ℚ) (plan : SearchPlan) :
    Except Err (List SearchResult) := do
  let candidates ← collectRows (pgRowCand queryVector plan) rows
  .ok ((sortByDistance candidates).take plan.topK.toNat)

/-- SearchByVector (stores/postgres/collection.go): build the single ranked
filtered limited query, execute it once, no client-side re-sorting. -/
def SearchByVector (dim : ℤ) (metric : String) (rows : List Record)
    (queryVector : List ℚ) (topK : ℤ) (opts : SearchOptions) :
    Except Err (List SearchResult) := do
  let plan ← buildSearchPlan dim metric queryVector topK opts
  executeSearchPlan rows queryVector plan

end postgres

namespace vectordata

/-- A JSON scalar, the value domain the spec assigns to filter leaves. -/
def isScalar : JVal → Bool
  | .jnull => true
  | .jbool _ => true
  | .jnum _ => true
  | .jstr _ => true
  | _ => false

def isStr : JVal → Bool
  | .jstr _ => true
  | _ => false

/-- A canonical metadata path segment for the cross-check fragment: already
trimmed, non-empty, and not an integer literal (jsonb's `#>` would treat an
integer segment as an array index, which the in-process evaluator never
does). -/
def pgSegOK (s : String) : Bool :=
  goTrim s = s && s ≠ "" && (parseIntText s).isNone

/-- A whitelisted column name of the standard Postgres filter config. -/
def pgColOK (name : String) : Bool :=
  name = idColumn || name = contentColumn

mutual

/-- The fragment of the filter language on which the Postgres pushdown
compiler and the in-process evaluator provably agree: Eq/In/Gt/Lt on
whitelisted columns with string values, Eq/In on canonical metadata paths
with scalar values, Exists on both, and non-empty And/Or — excluding Not
(SQL UNKNOWN under negation), Gt/Lt on metadata (double-precision casts of
stored text) and integer path segments (jsonb array indexing). -/
def pgSafe : Filter → Bool
  | .feq ⟨"column", name, _⟩ value => pgColOK name && isStr value
  | .feq ⟨"metadata", _, path⟩ value =>
    !path.isEmpty && path.all pgSegOK && isScalar value
  | .fin ⟨"column", name, _⟩ values =>
    pgColOK name && !values.isEmpty && values.all isStr
  | .fin ⟨"metadata", _, path⟩ values =>
    !path.isEmpty && path.all pgSegOK && !values.isEmpty &&
      values.all isScalar
  | .fgt ⟨"column", name, _⟩ value => pgColOK name && isStr value
  | .flt ⟨"column", name, _⟩ value => pgColOK name && isStr value
  | .fex ⟨"column", name, _⟩ => pgColOK name
  | .fex ⟨"metadata", _, path⟩ => !path.isEmpty && path.all pgSegOK
  | .fand children => !children.isEmpty && pgSafeList children
  | .forl children => !children.isEmpty && pgSafeList children
  | _ => false

def pgSafeList : List Filter → Bool
  | [] => true
  | child :: rest => pgSafe child && pgSafeList rest

end

/-- A metadata path acceptable to the normalizer: non-empty with non-blank
segments. -/
def msPathOK (path : List String) : Bool :=
  !path.isEmpty && path.all fun s => goTrim s ≠ ""

/-- A column name resolving to one of the two physical MSSQL columns. -/
def msColOK (name : String) : Bool :=
  goTrim name = idColumn || goTrim name = contentColumn

mutual

/-- The fragment on which the restricted MSSQL pushdown compiler and the
in-process evaluator provably agree: Eq/In/Gt/Lt on columns with string
values, Exists on columns and metadata, and non-empty And/Or — excluding
Not (SQL UNKNOWN under negation) and all metadata comparisons (JSON_VALUE
compares the stored value's text rendering, which diverges from the
evaluator's typed comparison). -/
def msSafe : Filter → Bool
  | .feq ⟨"column", name, _⟩ value => msColOK name && isStr value
  | .fin ⟨"column", name, _⟩ values =>
    msColOK name && !values.isEmpty && values.all isStr
  | .fgt ⟨"column", name, _⟩ value => msColOK name && isStr value
  | .flt ⟨"column", name, _⟩ value => msColOK name && isStr value
  | .fex ⟨"column", name, _⟩ => msColOK name
  | .fex ⟨"metadata", _, path⟩ => msPathOK path
  | .fand children => !children.isEmpty && msSafeList children
  | .forl children => !children.isEmpty && msSafeList children
  | _ => false

def msSafeList : List Filter → Bool
  | [] => true
  | child :: rest => msSafe child && msSafeList rest

end

/-- The strict better-than ordering on search results as a relation:
distance ascending, ID ascending on an exact distance tie. -/
def resultKeyLt (a b : SearchResult) : Prop :=
  a.distance < b.distance ∨
    (a.distance = b.distance ∧ strLt a.record.id b.record.id = true)

instance (a b : SearchResult) : Decidable (resultKeyLt a b) := by
  unfold resultKeyLt; infer_instance

/-- The sort key under the better-than ordering. -/
def resultKey (a : SearchResult) : ℚ × String := (a.distance, a.record.id)

/-- Best-first sortedness under the better-than comparator: no later
element is strictly better than an earlier one. -/
def SortedB (l : List SearchResult) : Prop :=
  l.Pairwise (fun a b => mssql.isBetterResult b a = false)

def exceptDecEq {ε α : Type} [DecidableEq ε] [DecidableEq α] :
    (a b : Except ε α) → Decidable (a = b)
  | .ok a, .ok b =>
    if h : a = b then .isTrue (by rw [h]) else .isFalse (by simp [h])
  | .ok _, .error _ => .isFalse nofun
  | .error _, .ok _ => .isFalse nofun
  | .error a, .error b =>
    if h : a = b then .isTrue (by rw [h]) else .isFalse (by simp [h])

instance {ε α : Type} [DecidableEq ε] [DecidableEq α] :
    DecidableEq (Except ε α) := exceptDecEq

end vectordata

/-! Theorems. -/

open vectordata

theorem metadataWalk_total (path : List String) (start : JVal)
    (hs : ∀ s ∈ path, goTrim s ≠ "") :
    ∃ o, mssql.metadataWalk start path = .ok o := by
  induction path generalizing start with
  | nil => exact ⟨some start, rfl⟩
  | cons segment rest ih =>
    have hseg : goTrim segment ≠ "" := hs segment (by simp)
    have hrest : ∀ s ∈ rest, goTrim s ≠ "" := fun s hmem => hs s (by simp [hmem])
    cases start with
    | jobj fields =>
      have heq : mssql.metadataWalk (.jobj fields) (segment :: rest) =
          match fields.lookup (goTrim segment) with
          | some next => mssql.metadataWalk next rest
          | none => .ok none := by
        simp only [mssql.metadataWalk, if_neg hseg]
      rw [heq]
      cases hl : fields.lookup (goTrim segment) with
      | none => exact ⟨none, rfl⟩
      | some next => exact ih next hrest
    | jnull => exact ⟨none, by simp only [mssql.metadataWalk, if_neg hseg]⟩
    | jbool b => exact ⟨none, by simp only [mssql.metadataWalk, if_neg hseg]⟩
    | jnum q => exact ⟨none, by simp only [mssql.metadataWalk, if_neg hseg]⟩
    | jstr s => exact ⟨none, by simp only [mssql.metadataWalk, if_neg hseg]⟩
    | jarr items =>
      exact ⟨none, by simp only [mssql.metadataWalk, if_neg hseg]⟩

/-- C10: a nil filter is treated as matching everything: the in-process
evaluator accepts every record without error, CompileFilterSQL compiles nil
to the empty fragment with no arguments and an unchanged next parameter
index for every configuration and start offset ≥ 1, and Count with a nil
filter counts every row of the collection. -/
theorem nil_filter_matches_everything :
    (∀ record : Record, mssql.matchesFilter .fnil record = .ok true) ∧
    (∀ (cfg : FilterSQLConfig) (k : ℤ), 1 ≤ k →
      CompileFilterSQL .fnil cfg k = .ok ("", [], k)) ∧
    (∀ rows : List Record, mssql.Count rows .fnil = .ok (rows.length : ℤ)) := by
  refine ⟨fun _ => rfl, fun cfg k hk => ?_, fun _ => rfl⟩
  simp only [CompileFilterSQL, if_neg (not_lt.mpr hk)]

theorem nil_filter_matches_everything_witness :
    CompileFilterSQL .fnil ⟨none, ""⟩ 3 = .ok ("", [], 3) ∧
    mssql.Count [⟨"a", [], none, none⟩] .fnil = .ok 1 :=
  ⟨nil_filter_matches_everything.2.1 ⟨none, ""⟩ 3 (by norm_num),
   nil_filter_matches_everything.2.2 [⟨"a", [], none, none⟩]⟩

/-- C6 counterexample: ScoreFromDistance applied to an unrecognized metric
is not a schema-mismatch failure — it silently computes the inner-product
normalization −distance (its return type has no failure channel at all). -/
theorem scoreFromDistance_unknown_metric_is_silent :
    ScoreFromDistance "bogus" 2 = -2 ∧
    ScoreFromDistance "bogus" 2 =
      ScoreFromDistance DistanceInnerProduct 2 := by
  exact ⟨by decide, by decide⟩

/-- C6 (amended): at the fallible points of use — the in-process distance
computation, the MSSQL SQL distance expression, and the pgvector operator
selection — an unrecognized metric is a schema-mismatch failure; but
ScoreFromDistance cannot fail and silently applies the inner-product
normalization −distance to every unrecognized metric. -/
theorem unknown_metric_fails_at_fallible_points :
    ∀ metric : String,
      metric ≠ DistanceCosine → metric ≠ DistanceL2 →
      metric ≠ DistanceInnerProduct →
      (∀ query candidate : List ℚ, query.length = candidate.length →
        mssql.distanceBetween metric query candidate =
          .error ⟨.schemaMismatch, "unsupported distance metric " ++ metric⟩) ∧
      (mssql.searchDistanceExpr metric =
        .error ⟨.schemaMismatch, "unsupported distance metric " ++ metric⟩) ∧
      (postgres.metricOperator metric =
        .error ⟨.schemaMismatch, "unsupported distance metric " ++ metric⟩) ∧
      (∀ distance : ℚ, ScoreFromDistance metric distance = -distance) := by
  intro metric h1 h2 h3
  refine ⟨fun query candidate hlen => ?_, ?_, ?_, fun distance => ?_⟩
  · simp only [mssql.distanceBetween, hlen, ne_eq, not_true_eq_false,
      if_false, if_neg h1, if_neg h2, if_neg h3]
  · simp only [mssql.searchDistanceExpr, if_neg h1, if_neg h2, if_neg h3]
  · simp only [postgres.metricOperator, if_neg h1, if_neg h2, if_neg h3]
  · simp only [ScoreFromDistance, if_neg h1, if_neg h2, if_neg h3]

theorem unknown_metric_fails_at_fallible_points_witness :
    mssql.distanceBetween "bogus" [1] [2] =
      .error ⟨.schemaMismatch, "unsupported distance metric bogus"⟩ ∧
    ScoreFromDistance "bogus" 7 = -7 :=
  ⟨(unknown_metric_fails_at_fallible_points "bogus" (by decide) (by decide)
      (by decide)).1 [1] [2] rfl,
   (unknown_metric_fails_at_fallible_points "bogus" (by decide) (by decide)
      (by decide)).2.2.2 7⟩

/-- C2: evaluation of the three strategies at the failing input
Eq(Column("  id "), "x"): the Postgres compiler rejects the untrimmed
column with an invalid-filter error (its resolveField never invokes
NormalizeFieldRef) although the trimmed Column("id") compiles, while the
restricted MSSQL compiler and the in-process evaluator both treat the
untrimmed reference exactly like the trimmed one. -/
theorem untrimmed_column_diverges_on_postgres :
    CompileFilterSQL (.feq (Column "  id ") (.jstr "x"))
        postgres.filterConfig 1 =
      .error ⟨.invalidFilter, "unknown column   id "⟩ ∧
    CompileFilterSQL (.feq (Column "id") (.jstr "x"))
        postgres.filterConfig 1 =
      .ok ("(\"id\" = $1)", [.v (.jstr "x")], 2) ∧
    mssql.compileMSSQLFilterSQL (.feq (Column "  id ") (.jstr "x")) 1 =
      mssql.compileMSSQLFilterSQL (.feq (Column "id") (.jstr "x")) 1 ∧
    (mssql.compileMSSQLFilterSQL (.feq (Column "id") (.jstr "x")) 1).isOk =
      true ∧
    ∀ record : Record,
      mssql.matchesFilter (.feq (Column "  id ") (.jstr "x")) record =
        mssql.matchesFilter (.feq (Column "id") (.jstr "x")) record := by
  refine ⟨by decide, by decide, by decide, by decide, fun record => rfl⟩

/-- C9: in the in-process evaluator, Exists on a metadata path reports
resolution success without error: it is true exactly when the path
resolves, a final explicit JSON null counts as present, and a missing key
or a missing intermediate mapping yields false rather than an error. -/
theorem exists_presence_not_value :
    (∀ (path : List String) (record : Record),
      path ≠ [] → (∀ s ∈ path, goTrim s ≠ "") →
      ∃ b, mssql.matchesFilter (.fex (Metadata path)) record = .ok b ∧
        (b = true ↔
          ∃ v, mssql.resolveFieldValue (Metadata path) record =
            .ok (some v))) ∧
    (∀ (m : List (String × JVal)) (key : String) (record : Record),
      goTrim key ≠ "" → record.metadata = some m →
      m.lookup (goTrim key) = some .jnull →
      mssql.matchesFilter (.fex (Metadata [key])) record = .ok true) ∧
    (∀ (m : List (String × JVal)) (key : String) (record : Record),
      goTrim key ≠ "" → record.metadata = some m →
      m.lookup (goTrim key) = none →
      mssql.matchesFilter (.fex (Metadata [key])) record = .ok false) ∧
    (∀ (m : List (String × JVal)) (k1 k2 : String) (record : Record)
        (v : JVal),
      goTrim k1 ≠ "" → goTrim k2 ≠ "" → record.metadata = some m →
      m.lookup (goTrim k1) = some v → (∀ fields, v ≠ .jobj fields) →
      mssql.matchesFilter (.fex (Metadata [k1, k2])) record = .ok false) := by
  have hresolveSome : ∀ (a : String) (t : List String)
      (m : List (String × JVal)) (i : String) (vec : List ℚ)
      (ct : Option String),
      mssql.resolveFieldValue (Metadata (a :: t)) ⟨i, vec, some m, ct⟩ =
        mssql.metadataWalk (.jobj m) (a :: t) := fun _ _ _ _ _ _ => rfl
  have hresolveNone : ∀ (a : String) (t : List String) (i : String)
      (vec : List ℚ) (ct : Option String),
      mssql.resolveFieldValue (Metadata (a :: t)) ⟨i, vec, none, ct⟩ =
        .ok none := fun _ _ _ _ _ => rfl
  have hfex : ∀ (f : FieldRef) (record : Record),
      mssql.matchesFilter (.fex f) record =
        (mssql.resolveFieldValue f record).map Option.isSome := by
    intro f record
    show (do
      let resolved ← mssql.resolveFieldValue f record
      Except.ok resolved.isSome) = _
    cases mssql.resolveFieldValue f record <;> rfl
  have hwalk1 : ∀ (m : List (String × JVal)) (key : String),
      goTrim key ≠ "" →
      mssql.metadataWalk (.jobj m) [key] =
        match m.lookup (goTrim key) with
        | some v => .ok (some v)
        | none => .ok none := by
    intro m key hk
    simp only [mssql.metadataWalk, if_neg hk]
  refine ⟨fun path record hne hs => ?_, fun m key record hk hm hl => ?_,
    fun m key record hk hm hl => ?_,
    fun m k1 k2 record v h1 h2 hm hl hv => ?_⟩
  · obtain ⟨a, t, rfl⟩ : ∃ a t, path = a :: t := by
      cases path with
      | nil => exact absurd rfl hne
      | cons a t => exact ⟨a, t, rfl⟩
    obtain ⟨i, vec, md, ct⟩ := record
    cases md with
    | none =>
      refine ⟨false, ?_, ?_⟩
      · rw [hfex, hresolveNone]; rfl
      · simp [hresolveNone]
    | some m =>
      obtain ⟨o, ho⟩ := metadataWalk_total (a :: t) (.jobj m) hs
      refine ⟨o.isSome, ?_, ?_⟩
      · rw [hfex, hresolveSome, ho]; rfl
      · cases o with
        | none => simp [hresolveSome, ho]
        | some v =>
          simp only [Option.isSome_some, true_iff]
          exact ⟨v, by rw [hresolveSome, ho]⟩
  · obtain ⟨i, vec, md, ct⟩ := record
    cases hm
    rw [hfex, hresolveSome, hwalk1 m key hk, hl]
    rfl
  · obtain ⟨i, vec, md, ct⟩ := record
    cases hm
    rw [hfex, hresolveSome, hwalk1 m key hk, hl]
    rfl
  · obtain ⟨i, vec, md, ct⟩ := record
    cases hm
    rw [hfex, hresolveSome]
    have heq : mssql.metadataWalk (.jobj m) [k1, k2] =
        mssql.metadataWalk v [k2] := by
      simp only [mssql.metadataWalk, if_neg h1, hl]
    rw [heq]
    have heq2 : mssql.metadataWalk v [k2] = .ok none := by
      cases v with
      | jobj fields => exact absurd rfl (hv fields)
      | jnull => simp only [mssql.metadataWalk, if_neg h2]
      | jbool b => simp only [mssql.metadataWalk, if_neg h2]
      | jnum q => simp only [mssql.metadataWalk, if_neg h2]
      | jstr str => simp only [mssql.metadataWalk, if_neg h2]
      | jarr items => simp only [mssql.metadataWalk, if_neg h2]
    rw [heq2]
    rfl

theorem exists_presence_not_value_witness :
    mssql.matchesFilter (.fex (Metadata ["k"]))
      ⟨"a", [], some [("k", .jnull)], none⟩ = .ok true ∧
    mssql.matchesFilter (.fex (Metadata ["missing"]))
      ⟨"a", [], some [("k", .jnull)], none⟩ = .ok false :=
  ⟨exists_presence_not_value.2.1 [("k", .jnull)] "k"
      ⟨"a", [], some [("k", .jnull)], none⟩ (by decide) rfl (by decide),
   exists_presence_not_value.2.2.1 [("k", .jnull)] "missing"
      ⟨"a", [], some [("k", .jnull)], none⟩ (by decide) rfl (by decide)⟩

theorem persistedForm_vector (record : Record) :
    (persistedForm record).vector = record.vector := rfl

theorem pg_buildWriteBatch_eq (dim : ℤ) (records : List Record) :
    postgres.buildWriteBatch dim records = mssql.writeBatch dim records := by
  induction records with
  | nil => rfl
  | cons record rest ih =>
    simp only [postgres.buildWriteBatch, mssql.writeBatch, ih]

theorem writeBatch_ok (dim : ℤ) (chunk : List Record)
    (hids : ∀ r ∈ chunk, goTrim r.id ≠ "")
    (hdims : ∀ r ∈ chunk, (r.vector.length : ℤ) = dim) :
    mssql.writeBatch dim chunk = .ok (chunk.map persistedForm) := by
  induction chunk with
  | nil => rfl
  | cons record rest ih =>
    have hid : goTrim record.id ≠ "" := hids record (by simp)
    have hdim : (record.vector.length : ℤ) = dim := hdims record (by simp)
    simp only [mssql.writeBatch, if_neg hid, hdim]
    simp only [ne_eq, not_true_eq_false, if_false, reduceIte,
      ih (fun r hr => hids r (by simp [hr])) (fun r hr => hdims r (by simp [hr]))]
    rfl

theorem writeBatch_err_dim (dim : ℤ) (chunk : List Record)
    (hids : ∀ r ∈ chunk, goTrim r.id ≠ "")
    (hbad : ∃ r ∈ chunk, (r.vector.length : ℤ) ≠ dim) :
    mssql.writeBatch dim chunk =
      .error ⟨.dimensionMismatch, "record vector dimension"⟩ := by
  induction chunk with
  | nil => simp at hbad
  | cons record rest ih =>
    have hid : goTrim record.id ≠ "" := hids record (by simp)
    by_cases hh : (record.vector.length : ℤ) = dim
    · have hrest : ∃ r ∈ rest, (r.vector.length : ℤ) ≠ dim := by
        rcases hbad with ⟨r, hr, hbadr⟩
        rcases List.mem_cons.mp hr with rfl | hmem
        · exact absurd hh hbadr
        · exact ⟨r, hmem, hbadr⟩
      simp only [mssql.writeBatch, if_neg hid, hh]
      simp only [ne_eq, not_true_eq_false, if_false, reduceIte,
        ih (fun r hr => hids r (by simp [hr])) hrest]
      rfl
    · simp only [mssql.writeBatch, if_neg hid, ne_eq, hh, not_false_eq_true,
        if_true, reduceIte]
      rfl

theorem chunksOfAux_join (n fuel : ℕ) (l : List Record)
    (hn : 1 ≤ n) (hfuel : l.length ≤ fuel) :
    (mssql.chunksOfAux n fuel l).flatten = l := by
  induction fuel generalizing l with
  | zero =>
    cases l with
    | nil => rfl
    | cons x xs => simp at hfuel
  | succ fuel ih =>
    cases l with
    | nil => rfl
    | cons x xs =>
      have hdrop : ((x :: xs).drop n).length ≤ fuel := by
        simp only [List.length_drop, List.length_cons]
        simp only [List.length_cons] at hfuel
        omega
      simp only [mssql.chunksOfAux, List.flatten_cons, ih _ hdrop,
        List.take_append_drop]

theorem chunksOf_join (n : ℕ) (l : List Record) (hn : 1 ≤ n) :
    (mssql.chunksOf n l).flatten = l :=
  chunksOfAux_join n l.length l hn le_rfl

theorem ms_runChunks_ok (dim : ℤ) (chunks : List (List Record))
    (hok : ∀ chunk ∈ chunks,
      mssql.writeBatch dim chunk = .ok (chunk.map persistedForm)) :
    mssql.runChunks dim chunks = (chunks.flatten.map persistedForm, none) := by
  induction chunks with
  | nil => rfl
  | cons chunk rest ih =>
    simp only [mssql.runChunks, hok chunk (by simp),
      ih (fun c hc => hok c (by simp [hc])), List.flatten_cons, List.map_append]

theorem ms_runChunks_err (dim : ℤ) (chunks : List (List Record))
    (hids : ∀ chunk ∈ chunks, ∀ r ∈ chunk, goTrim r.id ≠ "")
    (hbad : ∃ chunk ∈ chunks, ∃ r ∈ chunk, (r.vector.length : ℤ) ≠ dim) :
    (mssql.runChunks dim chunks).2 =
      some ⟨.dimensionMismatch, "record vector dimension"⟩ := by
  induction chunks with
  | nil => simp at hbad
  | cons chunk rest ih =>
    by_cases hh : ∃ r ∈ chunk, (r.vector.length : ℤ) ≠ dim
    · simp only [mssql.runChunks,
        writeBatch_err_dim dim chunk (hids chunk (by simp)) hh]
    · have hchunk : ∀ r ∈ chunk, (r.vector.length : ℤ) = dim := by
        intro r hr
        by_contra hcon
        exact hh ⟨r, hr, hcon⟩
      have hrest : ∃ c ∈ rest, ∃ r ∈ c, (r.vector.length : ℤ) ≠ dim := by
        rcases hbad with ⟨c, hc, hr⟩
        rcases List.mem_cons.mp hc with rfl | hmem
        · exact absurd hr hh
        · exact ⟨c, hmem, hr⟩
      simp only [mssql.runChunks,
        writeBatch_ok dim chunk (hids chunk (by simp)) hchunk]
      have := ih (fun c hc => hids c (by simp [hc])) hrest
      cases hrc : mssql.runChunks dim rest with
      | mk persisted err => rw [hrc] at this; simpa using this

theorem pg_runChunks_eq (dim : ℤ) (chunks : List (List Record)) :
    postgres.runChunks dim chunks = mssql.runChunks dim chunks := by
  induction chunks with
  | nil => rfl
  | cons chunk rest ih =>
    simp only [postgres.runChunks, mssql.runChunks,
      pg_buildWriteBatch_eq, ih]

theorem ms_writeRecords_spec (dim : ℤ) (records : List Record)
    (hids : ∀ r ∈ records, goTrim r.id ≠ "") :
    (( ∀ r ∈ records, (r.vector.length : ℤ) = dim) →
      mssql.writeRecords dim records = (records.map persistedForm, none)) ∧
    ((∃ r ∈ records, (r.vector.length : ℤ) ≠ dim) →
      (mssql.writeRecords dim records).2 =
        some ⟨.dimensionMismatch, "record vector dimension"⟩) := by
  have hjoin := chunksOf_join mssql.maxRowsPerStatement records (by norm_num [mssql.maxRowsPerStatement])
  constructor
  · intro hdims
    unfold mssql.writeRecords
    rw [ms_runChunks_ok dim _ (fun chunk hc =>
      writeBatch_ok dim chunk
        (fun r hr => hids r (hjoin ▸ List.mem_flatten.mpr ⟨chunk, hc, hr⟩))
        (fun r hr => hdims r (hjoin ▸ List.mem_flatten.mpr ⟨chunk, hc, hr⟩))),
      hjoin]
  · intro hbad
    unfold mssql.writeRecords
    refine ms_runChunks_err dim _
      (fun chunk hc r hr => hids r (hjoin ▸ List.mem_flatten.mpr ⟨chunk, hc, hr⟩))
      ?_
    rcases hbad with ⟨r, hr, hbadr⟩
    rcases List.mem_flatten.mp (hjoin ▸ hr) with ⟨chunk, hc, hrc⟩
    exact ⟨chunk, hc, r, hrc, hbadr⟩

/-- C5: for a collection of dimension d, Insert/Upsert on a batch of
records with non-empty IDs succeeds exactly when every record's vector has
length d and fails with a DimensionMismatch error whenever some vector's
length differs, on both backends; SearchByVector (for a positive topK)
fails with DimensionMismatch whenever the query vector's length differs
from d; and on success the persisted vectors equal the submitted vectors
verbatim — never truncated or padded. -/
theorem dimension_invariant :
    (∀ (dim : ℤ) (records : List Record),
      (∀ r ∈ records, goTrim r.id ≠ "") →
      ((mssql.writeRecords dim records).2 = none ↔
          ∀ r ∈ records, (r.vector.length : ℤ) = dim) ∧
        ((postgres.writeRecords dim records).2 = none ↔
          ∀ r ∈ records, (r.vector.length : ℤ) = dim) ∧
        ((∃ r ∈ records, (r.vector.length : ℤ) ≠ dim) →
          (mssql.writeRecords dim records).2 =
              some ⟨.dimensionMismatch, "record vector dimension"⟩ ∧
            (postgres.writeRecords dim records).2 =
              some ⟨.dimensionMismatch, "record vector dimension"⟩) ∧
        ((mssql.writeRecords dim records).2 = none →
          (mssql.writeRecords dim records).1.map Record.vector =
              records.map Record.vector ∧
            (postgres.writeRecords dim records).1.map Record.vector =
              records.map Record.vector)) ∧
    (∀ (dim : ℤ) (metric : String) (rows : List Record)
        (queryVector : List ℚ) (topK : ℤ) (opts : SearchOptions),
      0 < topK → (queryVector.length : ℤ) ≠ dim →
      mssql.SearchByVector dim metric rows queryVector topK opts =
          .error ⟨.dimensionMismatch, "query vector dimension"⟩ ∧
        postgres.SearchByVector dim metric rows queryVector topK opts =
          .error ⟨.dimensionMismatch, "query vector dimension"⟩) := by
  have hpg_eq : ∀ (dim : ℤ) (records : List Record),
      postgres.writeRecords dim records = mssql.writeRecords dim records := by
    intro dim records
    unfold postgres.writeRecords mssql.writeRecords
    rw [pg_runChunks_eq]
    rfl
  constructor
  · intro dim records hids
    obtain ⟨hok, herr⟩ := ms_writeRecords_spec dim records hids
    have hiff : (mssql.writeRecords dim records).2 = none ↔
        ∀ r ∈ records, (r.vector.length : ℤ) = dim := by
      constructor
      · intro hnone
        by_contra hcon
        push_neg at hcon
        rcases hcon with ⟨r, hr, hbad⟩
        rw [herr ⟨r, hr, hbad⟩] at hnone
        exact Option.noConfusion hnone
      · intro hdims
        rw [hok hdims]
    refine ⟨hiff, by rw [hpg_eq]; exact hiff, fun hbad => ?_, fun hnone => ?_⟩
    · exact ⟨herr hbad, by rw [hpg_eq]; exact herr hbad⟩
    · have hdims := hiff.mp hnone
      have h1 : (mssql.writeRecords dim records).1.map Record.vector =
          records.map Record.vector := by
        rw [hok hdims]
        simp [persistedForm_vector]
      exact ⟨h1, by rw [hpg_eq]; exact h1⟩
  · intro dim metric rows queryVector topK opts htopK hdim
    constructor
    · simp only [mssql.SearchByVector, if_neg (not_le.mpr htopK), hdim,
        if_pos, ne_eq, not_false_eq_true, if_true, reduceIte]
    · show (do
        let plan ← postgres.buildSearchPlan dim metric queryVector topK opts
        postgres.executeSearchPlan rows queryVector plan) = _
      have hplan : postgres.buildSearchPlan dim metric queryVector topK opts =
          .error ⟨.dimensionMismatch, "query vector dimension"⟩ := by
        simp only [postgres.buildSearchPlan, if_neg (not_le.mpr htopK), hdim,
          ne_eq, not_false_eq_true, if_true, reduceIte]
        rfl
      rw [hplan]
      rfl

theorem dimension_invariant_witness :
    (mssql.writeRecords 2 [⟨"a", [1], none, none⟩]).2 =
      some ⟨.dimensionMismatch, "record vector dimension"⟩ ∧
    (mssql.writeRecords 1 [⟨"a", [1], none, none⟩]).2 = none ∧
    mssql.SearchByVector 2 "cosine" [] [1] 3 ⟨.fnil, none, none⟩ =
      .error ⟨.dimensionMismatch, "query vector dimension"⟩ :=
  ⟨((dimension_invariant.1 2 [⟨"a", [1], none, none⟩] (by decide)).2.2.1
      ⟨⟨"a", [1], none, none⟩, by simp, by decide⟩).1,
   ((dimension_invariant.1 1 [⟨"a", [1], none, none⟩] (by decide)).1).mpr
      (by decide),
   ((dimension_invariant.2 2 "cosine" [] [1] 3 ⟨.fnil, none, none⟩
      (by norm_num) (by decide))).1⟩

theorem pg_writeRecords_eq (dim : ℤ) (records : List Record) :
    postgres.writeRecords dim records = mssql.writeRecords dim records := by
  unfold postgres.writeRecords mssql.writeRecords
  rw [pg_runChunks_eq]
  rfl

set_option maxRecDepth 100000

/-- C7 counterexample: a 501-record batch whose last record has the wrong
vector dimension. Validation is per-chunk, so both backends durably persist
the first chunk of 500 records before detecting the invalid record in the
second chunk: the batch fails, yet 500 records of the failing batch are
persisted — the whole-batch atomicity the claim states does not hold
beyond a single chunk. -/
theorem chunked_write_not_atomic :
    ((mssql.writeRecords 1 (List.replicate 500 ⟨"r", [1], none, none⟩ ++
        [⟨"bad", [], none, none⟩])).1.length = 500 ∧
      (mssql.writeRecords 1 (List.replicate 500 ⟨"r", [1], none, none⟩ ++
        [⟨"bad", [], none, none⟩])).2 =
        some ⟨.dimensionMismatch, "record vector dimension"⟩) ∧
    ((postgres.writeRecords 1 (List.replicate 500 ⟨"r", [1], none, none⟩ ++
        [⟨"bad", [], none, none⟩])).1.length = 500 ∧
      (postgres.writeRecords 1 (List.replicate 500 ⟨"r", [1], none, none⟩ ++
        [⟨"bad", [], none, none⟩])).2 =
        some ⟨.dimensionMismatch, "record vector dimension"⟩) := by
  have h1 : (mssql.writeRecords 1
      (List.replicate 500 ⟨"r", [1], none, none⟩ ++
        [⟨"bad", [], none, none⟩])).1.length = 500 := by decide
  have h2 : (mssql.writeRecords 1
      (List.replicate 500 ⟨"r", [1], none, none⟩ ++
        [⟨"bad", [], none, none⟩])).2 =
      some ⟨.dimensionMismatch, "record vector dimension"⟩ := by decide
  exact ⟨⟨h1, h2⟩, by rw [pg_writeRecords_eq]; exact h1,
    by rw [pg_writeRecords_eq]; exact h2⟩

theorem chunksOf_small (n : ℕ) (l : List Record)
    (hne : l ≠ []) (hlen : l.length ≤ n) :
    mssql.chunksOf n l = [l] := by
  cases l with
  | nil => exact absurd rfl hne
  | cons x xs =>
    show mssql.chunksOfAux n (xs.length + 1) (x :: xs) = [x :: xs]
    have htake : (x :: xs).take n = x :: xs :=
      List.take_of_length_le hlen
    have hdrop : (x :: xs).drop n = [] :=
      List.drop_eq_nil_of_le hlen
    simp only [mssql.chunksOfAux, htake, hdrop]

theorem writeBatch_err_any (dim : ℤ) (records : List Record)
    (hbad : ∃ r ∈ records, goTrim r.id = "" ∨ (r.vector.length : ℤ) ≠ dim) :
    ∃ e, mssql.writeBatch dim records = .error e := by
  induction records with
  | nil => simp at hbad
  | cons record rest ih =>
    by_cases hid : goTrim record.id = ""
    · exact ⟨⟨.generic, "record id is empty"⟩, by
        simp only [mssql.writeBatch, if_pos hid]; rfl⟩
    · by_cases hdim : (record.vector.length : ℤ) = dim
      · have hrest : ∃ r ∈ rest,
            goTrim r.id = "" ∨ (r.vector.length : ℤ) ≠ dim := by
          rcases hbad with ⟨r, hr, hcase⟩
          rcases List.mem_cons.mp hr with rfl | hmem
          · rcases hcase with h | h
            · exact absurd h hid
            · exact absurd hdim h
          · exact ⟨r, hmem, hcase⟩
        obtain ⟨e, he⟩ := ih hrest
        refine ⟨e, ?_⟩
        simp only [mssql.writeBatch, if_neg hid, hdim, ne_eq,
          not_true_eq_false, if_false, reduceIte, he]
        rfl
      · exact ⟨⟨.dimensionMismatch, "record vector dimension"⟩, by
          simp only [mssql.writeBatch, if_neg hid, ne_eq, hdim,
            not_false_eq_true, if_true, reduceIte]
          rfl⟩

/-- C7 (amended): for batches of at most maxRowsPerStatement records (one
chunk), a validation failure — an empty ID or a wrong vector dimension
anywhere in the batch — fails the batch with nothing persisted, on both
backends. For larger batches validation is per-chunk: chunks preceding the
chunk containing the invalid record are already durably persisted when the
failure is detected (see the counterexample). -/
theorem single_chunk_write_atomic :
    ∀ (dim : ℤ) (records : List Record),
      records.length ≤ mssql.maxRowsPerStatement →
      (∃ r ∈ records, goTrim r.id = "" ∨ (r.vector.length : ℤ) ≠ dim) →
      (∃ e, mssql.writeRecords dim records = ([], some e)) ∧
      (∃ e, postgres.writeRecords dim records = ([], some e)) := by
  intro dim records hlen hbad
  have hne : records ≠ [] := by
    rcases hbad with ⟨r, hr, _⟩
    intro hcon
    rw [hcon] at hr
    simp at hr
  obtain ⟨e, he⟩ := writeBatch_err_any dim records hbad
  have hms : mssql.writeRecords dim records = ([], some e) := by
    unfold mssql.writeRecords
    rw [chunksOf_small mssql.maxRowsPerStatement records hne hlen]
    simp only [mssql.runChunks, he]
  exact ⟨⟨e, hms⟩, ⟨e, by rw [pg_writeRecords_eq]; exact hms⟩⟩

theorem single_chunk_write_atomic_witness :
    (∃ e, mssql.writeRecords 1 [⟨"a", [1], none, none⟩,
      ⟨"bad", [], none, none⟩] = ([], some e)) ∧
    (∃ e, postgres.writeRecords 1 [⟨"a", [1], none, none⟩,
      ⟨"bad", [], none, none⟩] = ([], some e)) :=
  single_chunk_write_atomic 1
    [⟨"a", [1], none, none⟩, ⟨"bad", [], none, none⟩]
    (by norm_num [mssql.maxRowsPerStatement])
    ⟨⟨"bad", [], none, none⟩, by simp, Or.inr (by decide)⟩

theorem metadataWalk_err_invalid (path : List String) (v : JVal) (e : Err)
    (h : mssql.metadataWalk v path = .error e) : e.kind = .invalidFilter := by
  induction path generalizing v with
  | nil => exact absurd h (by simp [mssql.metadataWalk])
  | cons segment rest ih =>
    by_cases hseg : goTrim segment = ""
    · simp only [mssql.metadataWalk, if_pos hseg] at h
      cases h
      rfl
    · simp only [mssql.metadataWalk, if_neg hseg] at h
      cases v with
      | jobj fields =>
        cases hl : fields.lookup (goTrim segment) with
        | none =>
          simp only [hl] at h
          cases h
        | some next =>
          simp only [hl] at h
          exact ih next h
      | jnull => cases h
      | jbool b => cases h
      | jnum q => cases h
      | jstr s => cases h
      | jarr items => cases h

theorem resolveFieldValue_err_invalid (field : FieldRef) (r : Record)
    (e : Err) (h : mssql.resolveFieldValue field r = .error e) :
    e.kind = .invalidFilter := by
  simp only [mssql.resolveFieldValue] at h
  by_cases h1 : field.kind = "column"
  · rw [if_pos h1] at h
    by_cases h2 : goTrim field.name = ""
    · rw [if_pos h2] at h; cases h; rfl
    · rw [if_neg h2] at h
      by_cases h3 : goTrim field.name = idColumn
      · rw [if_pos h3] at h; cases h
      · rw [if_neg h3] at h
        by_cases h4 : goTrim field.name = contentColumn
        · rw [if_pos h4] at h
          cases hc : r.content with
          | none => rw [hc] at h; cases h
          | some c => rw [hc] at h; cases h
        · rw [if_neg h4] at h; cases h; rfl
  · rw [if_neg h1] at h
    by_cases h5 : field.kind = "metadata"
    · rw [if_pos h5] at h
      by_cases h6 : field.path.isEmpty = true
      · rw [if_pos h6] at h; cases h; rfl
      · rw [if_neg h6] at h
        cases hm : r.metadata with
        | none => rw [hm] at h; cases h
        | some m =>
          rw [hm] at h
          exact metadataWalk_err_invalid _ _ _ h
    · rw [if_neg h5] at h; cases h; rfl

theorem bindE_ok {ε α β : Type} (a : α) (f : α → Except ε β) :
    (Except.ok a : Except ε α) >>= f = f a := rfl

theorem bindE_err {ε α β : Type} (e : ε) (f : α → Except ε β) :
    (Except.error e : Except ε α) >>= f = Except.error e := rfl

mutual

theorem matchesFilter_err_invalid (f : Filter) (r : Record) (e : Err)
    (h : mssql.matchesFilter f r = .error e) : e.kind = .invalidFilter := by
  cases f with
  | fnil => cases h
  | feq field value =>
    simp only [mssql.matchesFilter] at h
    cases hres : mssql.resolveFieldValue field r with
    | error e2 =>
      rw [hres, bindE_err] at h
      cases h
      exact resolveFieldValue_err_invalid field r _ hres
    | ok o =>
      rw [hres, bindE_ok] at h
      cases o <;> cases h
  | fin field values =>
    simp only [mssql.matchesFilter] at h
    by_cases hv : values.isEmpty = true
    · rw [if_pos hv] at h; cases h; rfl
    · rw [if_neg hv] at h
      cases hres : mssql.resolveFieldValue field r with
      | error e2 =>
        rw [hres, bindE_err] at h
        cases h
        exact resolveFieldValue_err_invalid field r _ hres
      | ok o =>
        rw [hres, bindE_ok] at h
        cases o <;> cases h
  | fgt field value =>
    simp only [mssql.matchesFilter] at h
    cases hres : mssql.resolveFieldValue field r with
    | error e2 =>
      rw [hres, bindE_err] at h
      cases h
      exact resolveFieldValue_err_invalid field r _ hres
    | ok o =>
      rw [hres, bindE_ok] at h
      cases o <;> cases h
  | flt field value =>
    simp only [mssql.matchesFilter] at h
    cases hres : mssql.resolveFieldValue field r with
    | error e2 =>
      rw [hres, bindE_err] at h
      cases h
      exact resolveFieldValue_err_invalid field r _ hres
    | ok o =>
      rw [hres, bindE_ok] at h
      cases o <;> cases h
  | fex field =>
    simp only [mssql.matchesFilter] at h
    cases hres : mssql.resolveFieldValue field r with
    | error e2 =>
      rw [hres, bindE_err] at h
      cases h
      exact resolveFieldValue_err_invalid field r _ hres
    | ok o =>
      rw [hres, bindE_ok] at h
      cases h
  | fand children =>
    simp only [mssql.matchesFilter] at h
    by_cases hc : children.isEmpty = true
    · rw [if_pos hc] at h; cases h; rfl
    · rw [if_neg hc] at h
      exact matchesAll_err_invalid children r e h
  | forl children =>
    simp only [mssql.matchesFilter] at h
    by_cases hc : children.isEmpty = true
    · rw [if_pos hc] at h; cases h; rfl
    · rw [if_neg hc] at h
      exact matchesAny_err_invalid children r e h
  | fnot child =>
    have hsplit : child = .fnil ∨
        mssql.matchesFilter (.fnot child) r = (do
          let ok ← mssql.matchesFilter child r
          Except.ok (!ok)) := by
      cases child <;> simp [mssql.matchesFilter]
    rcases hsplit with rfl | heq
    · cases h; rfl
    · rw [heq] at h
      cases hc : mssql.matchesFilter child r with
      | error e2 =>
        rw [hc, bindE_err] at h
        cases h
        exact matchesFilter_err_invalid child r _ hc
      | ok b =>
        rw [hc, bindE_ok] at h
        cases h

theorem matchesAll_err_invalid (children : List Filter) (r : Record)
    (e : Err) (h : mssql.matchesAll children r = .error e) :
    e.kind = .invalidFilter := by
  cases children with
  | nil => cases h
  | cons child rest =>
    have hsplit : child = .fnil ∨
        mssql.matchesAll (child :: rest) r = (do
          let ok ← mssql.matchesFilter child r
          if ok then mssql.matchesAll rest r else Except.ok false) := by
      cases child <;> simp [mssql.matchesAll]
    rcases hsplit with rfl | heq
    · cases h; rfl
    · rw [heq] at h
      cases hc : mssql.matchesFilter child r with
      | error e2 =>
        rw [hc, bindE_err] at h
        cases h
        exact matchesFilter_err_invalid child r _ hc
      | ok b =>
        rw [hc, bindE_ok] at h
        cases b with
        | true =>
          simp only [if_pos rfl] at h
          exact matchesAll_err_invalid rest r e h
        | false =>
          simp only [Bool.false_eq_true, if_false, reduceIte] at h
          cases h

theorem matchesAny_err_invalid (children : List Filter) (r : Record)
    (e : Err) (h : mssql.matchesAny children r = .error e) :
    e.kind = .invalidFilter := by
  cases children with
  | nil => cases h
  | cons child rest =>
    have hsplit : child = .fnil ∨
        mssql.matchesAny (child :: rest) r = (do
          let ok ← mssql.matchesFilter child r
          if ok then Except.ok true else mssql.matchesAny rest r) := by
      cases child <;> simp [mssql.matchesAny]
    rcases hsplit with rfl | heq
    · cases h; rfl
    · rw [heq] at h
      cases hc : mssql.matchesFilter child r with
      | error e2 =>
        rw [hc, bindE_err] at h
        cases h
        exact matchesFilter_err_invalid child r _ hc
      | ok b =>
        rw [hc, bindE_ok] at h
        cases b with
        | true =>
          simp only [if_pos rfl] at h
          cases h
        | false =>
          simp only [Bool.false_eq_true, if_false, reduceIte] at h
          exact matchesAny_err_invalid rest r e h

end

theorem distanceBetween_not_pushdown (metric : String) (q c : List ℚ)
    (e : Err) (h : mssql.distanceBetween metric q c = .error e) :
    e.kind ≠ .pushdownUnsupported := by
  unfold mssql.distanceBetween at h
  split_ifs at h <;> cases h <;> simp

theorem streamCandidate_not_pushdown (dim : ℤ) (metric : String)
    (qv : List ℚ) (opts : SearchOptions) (projection : Projection)
    (record : Record) (e : Err)
    (h : mssql.streamCandidate dim metric qv opts projection record =
      .error e) : e.kind ≠ .pushdownUnsupported := by
  unfold mssql.streamCandidate at h
  by_cases hdim : (record.vector.length : ℤ) ≠ dim
  · rw [if_pos hdim] at h
    cases h
    simp
  · rw [if_neg hdim] at h
    simp only [pure_bind] at h
    cases hm : mssql.matchesFilter opts.filter record with
    | error e2 =>
      rw [hm, bindE_err] at h
      cases h
      have := matchesFilter_err_invalid opts.filter record _ hm
      simp [this]
    | ok b =>
      rw [hm, bindE_ok] at h
      cases b with
      | false => cases h
      | true =>
        simp only [Bool.not_true, Bool.false_eq_true, if_false,
          reduceIte] at h
        cases hd : mssql.distanceBetween metric qv record.vector with
        | error e2 =>
          rw [hd, bindE_err] at h
          cases h
          exact distanceBetween_not_pushdown metric qv record.vector _ hd
        | ok d =>
          rw [hd, bindE_ok] at h
          cases ht : opts.threshold with
          | none => simp only [ht] at h; cases h
          | some threshold =>
            simp only [ht] at h
            by_cases hcmp : threshold < d
            · rw [if_pos hcmp] at h; cases h
            · rw [if_neg hcmp] at h; cases h

theorem streamFold_not_pushdown (dim : ℤ) (metric : String) (qv : List ℚ)
    (opts : SearchOptions) (projection : Projection) (topK : ℤ)
    (rows : List Record) (heap : List SearchResult) (e : Err)
    (h : mssql.streamFold dim metric qv opts projection topK rows heap =
      .error e) : e.kind ≠ .pushdownUnsupported := by
  induction rows generalizing heap with
  | nil => cases h
  | cons record rest ih =>
    simp only [mssql.streamFold] at h
    cases hc : mssql.streamCandidate dim metric qv opts projection record with
    | error e2 =>
      rw [hc, bindE_err] at h
      cases h
      exact streamCandidate_not_pushdown dim metric qv opts projection
        record _ hc
    | ok o =>
      rw [hc, bindE_ok] at h
      cases o with
      | none => exact ih _ h
      | some candidate => exact ih _ h

theorem streaming_not_pushdown (dim : ℤ) (metric : String)
    (rows : List Record) (qv : List ℚ) (topK : ℤ) (opts : SearchOptions)
    (e : Err)
    (h : mssql.searchByVectorStreaming dim metric rows qv topK opts =
      .error e) : e.kind ≠ .pushdownUnsupported := by
  unfold mssql.searchByVectorStreaming at h
  simp only [] at h
  cases hf : mssql.streamFold dim (mssql.defaultMetric metric) qv opts
      (mssql.resolveProjection opts.projection) topK rows [] with
  | error e2 =>
    simp only [hf, bindE_err] at h
    cases h
    exact streamFold_not_pushdown _ _ _ _ _ _ _ _ _ hf
  | ok heap =>
    simp only [hf, bindE_ok] at h
    cases h

theorem countMatching_not_pushdown (f : Filter) (rows : List Record)
    (e : Err) (h : mssql.countMatching f rows = .error e) :
    e.kind ≠ .pushdownUnsupported := by
  induction rows with
  | nil => cases h
  | cons record rest ih =>
    simp only [mssql.countMatching] at h
    cases hm : mssql.matchesFilter f record with
    | error e2 =>
      rw [hm, bindE_err] at h
      cases h
      have := matchesFilter_err_invalid f record _ hm
      simp [this]
    | ok b =>
      rw [hm, bindE_ok] at h
      cases hr : mssql.countMatching f rest with
      | error e2 =>
        rw [hr, bindE_err] at h
        cases h
        exact ih hr
      | ok n => rw [hr, bindE_ok] at h; cases h

/-- C8: the restricted MSSQL compiler refuses shapes it cannot push down
with the distinguishable pushdown-unsupported error kind (shown for column
equality with a non-string value and for metadata equality with null) — not
the generic invalid-filter kind; exactly that error kind makes
SearchByVector fall back to the in-process streaming path and Count fall
back to the in-process counting loop; and neither fallback path can itself
produce the pushdown-unsupported kind, so it is not returned to the caller
in the fallback scenario. -/
theorem pushdown_refusal_falls_back :
    (∀ v : JVal, (∀ s, v ≠ .jstr s) →
      mssql.compileMSSQLFilterSQL (.feq (Column "id") v) 1 =
        .error ⟨.pushdownUnsupported,
          "column equality only supports string values"⟩) ∧
    (mssql.compileMSSQLFilterSQL (.feq (Metadata ["k"]) .jnull) 1 =
      .error ⟨.pushdownUnsupported,
        "metadata equality with nil is not supported by SQL pushdown"⟩) ∧
    (∀ (dim : ℤ) (metric : String) (rows : List Record) (qv : List ℚ)
        (topK : ℤ) (opts : SearchOptions) (e : Err),
      ¬topK ≤ 0 → ¬((qv.length : ℤ) ≠ dim) →
      mssql.buildSearchSQLPlan metric qv topK opts = .error e →
      e.kind = .pushdownUnsupported →
      mssql.SearchByVector dim metric rows qv topK opts =
        mssql.searchByVectorStreaming dim metric rows qv topK opts) ∧
    (∀ (rows : List Record) (f : Filter) (e : Err), f ≠ .fnil →
      mssql.compileMSSQLFilterSQL f 1 = .error e →
      e.kind = .pushdownUnsupported →
      mssql.Count rows f = mssql.countMatching f rows) ∧
    (∀ (dim : ℤ) (metric : String) (rows : List Record) (qv : List ℚ)
        (topK : ℤ) (opts : SearchOptions) (e : Err),
      mssql.searchByVectorStreaming dim metric rows qv topK opts =
        .error e → e.kind ≠ .pushdownUnsupported) ∧
    (∀ (f : Filter) (rows : List Record) (e : Err),
      mssql.countMatching f rows = .error e →
      e.kind ≠ .pushdownUnsupported) := by
  refine ⟨fun v hv => ?_, by decide,
    fun dim metric rows qv topK opts e h1 h2 hbuild hkind => ?_,
    fun rows f e hf hcomp hkind => ?_,
    fun dim metric rows qv topK opts e h =>
      streaming_not_pushdown dim metric rows qv topK opts e h,
    fun f rows e h => countMatching_not_pushdown f rows e h⟩
  · cases v with
    | jstr s => exact absurd rfl (hv s)
    | jnull => rfl
    | jbool b => rfl
    | jnum q => rfl
    | jarr items => rfl
    | jobj fields => rfl
  · simp only [mssql.SearchByVector, if_neg h1, if_neg h2, hbuild, hkind,
      if_pos rfl, if_true]
  · have hsplit : f = .fnil ∨
        mssql.Count rows f =
          match mssql.compileMSSQLFilterSQL f 1 with
          | .ok _ =>
            rows.foldrM
              (fun record acc => do
                let verdict ← mssql.msEvalSQL f record
                .ok (if verdict = some true then acc + 1 else acc))
              (0 : ℤ)
          | .error e =>
            if e.kind ≠ .pushdownUnsupported then .error e
            else mssql.countMatching f rows := by
      cases f <;> simp [mssql.Count]
    rcases hsplit with rfl | heq
    · exact absurd rfl hf
    · rw [heq, hcomp]
      simp [hkind]

theorem pushdown_refusal_falls_back_witness :
    mssql.compileMSSQLFilterSQL (.feq (Column "id") (.jnum 5)) 1 =
      .error ⟨.pushdownUnsupported,
        "column equality only supports string values"⟩ ∧
    mssql.Count [⟨"a", [], some [], none⟩] (.feq (Column "id") (.jnum 5)) =
      mssql.countMatching (.feq (Column "id") (.jnum 5))
        [⟨"a", [], some [], none⟩] :=
  ⟨pushdown_refusal_falls_back.1 (.jnum 5) (fun s => by simp),
   pushdown_refusal_falls_back.2.2.2.1 [⟨"a", [], some [], none⟩]
     (.feq (Column "id") (.jnum 5)) _ (by simp)
     (pushdown_refusal_falls_back.1 (.jnum 5) (fun s => by simp)) rfl⟩

theorem charListLt_irrefl : ∀ l : List Char, charListLt l l = false
  | [] => rfl
  | c :: rest => by
    simp only [charListLt, lt_irrefl, if_false, reduceIte]
    exact charListLt_irrefl rest

theorem charListLt_asymm : ∀ a b : List Char,
    charListLt a b = true → charListLt b a = false
  | [], [], _ => rfl
  | [], _ :: _, _ => rfl
  | _ :: _, [], h => by cases h
  | a :: as, b :: bs, h => by
    simp only [charListLt] at h ⊢
    by_cases hab : a < b
    · rw [if_neg (lt_asymm hab), if_pos hab]
    · rw [if_neg hab] at h
      by_cases hba : b < a
      · rw [if_pos hba] at h; cases h
      · rw [if_neg hba] at h
        rw [if_neg hba, if_neg hab]
        exact charListLt_asymm as bs h

theorem charListLt_trans : ∀ a b c : List Char,
    charListLt a b = true → charListLt b c = true → charListLt a c = true
  | [], [], _, _, h2 => h2
  | [], _ :: _, [], _, h2 => by cases h2
  | [], _ :: _, _ :: _, _, _ => rfl
  | _ :: _, [], _, h1, _ => by cases h1
  | _ :: _, _ :: _, [], _, h2 => by cases h2
  | a :: as, b :: bs, c :: cs, h1, h2 => by
    simp only [charListLt] at h1 h2 ⊢
    by_cases hab : a < b
    · by_cases hbc : b < c
      · rw [if_pos (lt_trans hab hbc)]
      · rw [if_neg hbc] at h2
        by_cases hcb : c < b
        · rw [if_pos hcb] at h2; cases h2
        · have : b = c := le_antisymm (not_lt.mp hcb) (not_lt.mp hbc)
          rw [if_pos (this ▸ hab)]
    · rw [if_neg hab] at h1
      by_cases hba : b < a
      · rw [if_pos hba] at h1; cases h1
      · have hab2 : a = b := le_antisymm (not_lt.mp hba) (not_lt.mp hab)
        rw [if_neg hba] at h1
        subst hab2
        by_cases hbc : a < c
        · rw [if_pos hbc]
        · rw [if_neg hbc] at h2 ⊢
          by_cases hcb : c < a
          · rw [if_pos hcb] at h2; cases h2
          · rw [if_neg hcb] at h2 ⊢
            exact charListLt_trans as bs cs h1 h2

theorem charListLt_eq_of_not : ∀ a b : List Char,
    charListLt a b = false → charListLt b a = false → a = b
  | [], [], _, _ => rfl
  | [], _ :: _, h1, _ => by cases h1
  | _ :: _, [], _, h2 => by cases h2
  | a :: as, b :: bs, h1, h2 => by
    simp only [charListLt] at h1 h2
    by_cases hab : a < b
    · rw [if_pos hab] at h1; cases h1
    · by_cases hba : b < a
      · rw [if_pos hba] at h2; cases h2
      · have heq : a = b := le_antisymm (not_lt.mp hba) (not_lt.mp hab)
        rw [if_neg hab, if_neg hba] at h1
        rw [if_neg hba, if_neg hab] at h2
        rw [heq, charListLt_eq_of_not as bs h1 h2]

theorem strLt_irrefl (s : String) : strLt s s = false :=
  charListLt_irrefl s.data

theorem strLt_asymm (a b : String) (h : strLt a b = true) :
    strLt b a = false :=
  charListLt_asymm a.data b.data h

theorem strLt_trans (a b c : String) (h1 : strLt a b = true)
    (h2 : strLt b c = true) : strLt a c = true :=
  charListLt_trans a.data b.data c.data h1 h2

theorem strLt_eq_of_not (a b : String) (h1 : strLt a b = false)
    (h2 : strLt b a = false) : a = b := by
  cases a with
  | mk da =>
    cases b with
    | mk db =>
      rw [charListLt_eq_of_not da db h1 h2]

theorem isWorse_eq_isBetter_swap (a b : SearchResult) :
    mssql.isWorseResult a b = mssql.isBetterResult b a := by
  unfold mssql.isWorseResult mssql.isBetterResult
  by_cases h : a.distance = b.distance
  · rw [if_pos h, if_pos h.symm]
  · rw [if_neg h, if_neg (fun hc => h hc.symm)]

theorem better_irrefl (a : SearchResult) :
    mssql.isBetterResult a a = false := by
  unfold mssql.isBetterResult
  rw [if_pos rfl]
  exact strLt_irrefl a.record.id

theorem better_asymm (a b : SearchResult)
    (h : mssql.isBetterResult a b = true) :
    mssql.isBetterResult b a = false := by
  unfold mssql.isBetterResult at h ⊢
  by_cases hd : a.distance = b.distance
  · rw [if_pos hd] at h
    rw [if_pos hd.symm]
    exact strLt_asymm _ _ h
  · rw [if_neg hd] at h
    rw [if_neg (fun hc => hd hc.symm), decide_eq_false_iff_not]
    exact not_lt.mpr (le_of_lt (of_decide_eq_true h))

theorem better_trans (a b c : SearchResult)
    (h1 : mssql.isBetterResult a b = true)
    (h2 : mssql.isBetterResult b c = true) :
    mssql.isBetterResult a c = true := by
  unfold mssql.isBetterResult at h1 h2 ⊢
  by_cases hab : a.distance = b.distance
  · rw [if_pos hab] at h1
    by_cases hbc : b.distance = c.distance
    · rw [if_pos hbc] at h2
      rw [if_pos (hab.trans hbc)]
      exact strLt_trans _ _ _ h1 h2
    · rw [if_neg hbc] at h2
      rw [if_neg (fun hc => hbc (hab ▸ hc)), hab]
      exact h2
  · rw [if_neg hab] at h1
    by_cases hbc : b.distance = c.distance
    · rw [if_neg (fun hc => hab (hc.trans hbc.symm)), ← hbc]
      exact h1
    · rw [if_neg hbc] at h2
      have := lt_trans (of_decide_eq_true h1) (of_decide_eq_true h2)
      rw [if_neg (ne_of_lt this)]
      exact decide_eq_true this

theorem better_total (a b : SearchResult)
    (hkey : resultKey a ≠ resultKey b)
    (h : mssql.isBetterResult a b = false) :
    mssql.isBetterResult b a = true := by
  unfold mssql.isBetterResult at h ⊢
  by_cases hd : a.distance = b.distance
  · rw [if_pos hd] at h
    rw [if_pos hd.symm]
    by_cases hb : strLt b.record.id a.record.id = true
    · exact hb
    · exfalso
      apply hkey
      unfold resultKey
      rw [hd, strLt_eq_of_not _ _ h (Bool.not_eq_true _ ▸ hb)]
  · rw [if_neg hd] at h
    rw [if_neg (fun hc => hd hc.symm)]
    have hle := not_lt.mp (of_decide_eq_false h)
    exact decide_eq_true (lt_of_le_of_ne hle (fun hc => hd hc.symm))

theorem insertBetter_perm (x : SearchResult) (l : List SearchResult) :
    List.Perm (mssql.insertBetter x l) (x :: l) := by
  induction l with
  | nil => exact List.Perm.refl _
  | cons y rest ih =>
    unfold mssql.insertBetter
    by_cases h : mssql.isBetterResult x y = true
    · rw [if_pos h]
    · rw [if_neg h]
      exact ((ih.cons y).trans (List.Perm.swap x y rest)).symm.symm

theorem insertBetter_mem (z x : SearchResult) (l : List SearchResult)
    (hz : z ∈ mssql.insertBetter x l) : z = x ∨ z ∈ l :=
  List.mem_cons.mp ((insertBetter_perm x l).mem_iff.mp hz)

theorem insertBetter_sorted (x : SearchResult) (l : List SearchResult)
    (hs : SortedB l) : SortedB (mssql.insertBetter x l) := by
  induction l with
  | nil => exact List.pairwise_singleton _ _
  | cons y rest ih =>
    unfold SortedB at hs
    rw [List.pairwise_cons] at hs
    unfold mssql.insertBetter
    by_cases h : mssql.isBetterResult x y = true
    · rw [if_pos h]
      refine List.Pairwise.cons ?_ (List.Pairwise.cons hs.1 hs.2)
      intro z hz
      rcases List.mem_cons.mp hz with rfl | hmem
      · exact better_asymm x z h
      · by_cases hzx : mssql.isBetterResult z x = true
        · have := better_trans z x y hzx h
          rw [hs.1 z hmem] at this
          cases this
        · exact Bool.not_eq_true _ ▸ hzx
    · rw [if_neg h]
      refine List.Pairwise.cons ?_ (ih hs.2)
      intro z hz
      rcases insertBetter_mem z x rest hz with rfl | hmem
      · exact Bool.not_eq_true _ ▸ h
      · exact hs.1 z hmem

theorem sortByBetter_perm_aux (l acc : List SearchResult) :
    List.Perm (l.foldl (fun acc x => mssql.insertBetter x acc) acc)
      (acc ++ l) := by
  induction l generalizing acc with
  | nil => simp
  | cons x rest ih =>
    refine ((ih (mssql.insertBetter x acc)).trans ?_)
    refine ((insertBetter_perm x acc).append_right rest).trans ?_
    simp only [List.cons_append]
    exact List.perm_middle.symm

theorem sortByBetter_perm (l : List SearchResult) :
    List.Perm (mssql.sortByBetter l) l :=
  sortByBetter_perm_aux l []

theorem sortByBetter_sorted_aux (l acc : List SearchResult)
    (hacc : SortedB acc) :
    SortedB (l.foldl (fun acc x => mssql.insertBetter x acc) acc) := by
  induction l generalizing acc with
  | nil => exact hacc
  | cons x rest ih => exact ih _ (insertBetter_sorted x acc hacc)

theorem sortByBetter_sorted (l : List SearchResult) :
    SortedB (mssql.sortByBetter l) :=
  sortByBetter_sorted_aux l [] List.Pairwise.nil

theorem sorted_unique (l m : List SearchResult) (hperm : List.Perm l m)
    (hl : SortedB l) (hm : SortedB m)
    (hkeys : (l.map resultKey).Nodup) : l = m := by
  induction l generalizing m with
  | nil => exact (List.Perm.nil_eq hperm).symm ▸ rfl
  | cons x xs ih =>
    cases m with
    | nil => exact absurd hperm.symm (by simp)
    | cons y ys =>
      have hxy : x = y := by
        by_contra hne
        have hy_in : y ∈ x :: xs := hperm.symm.subset (by simp)
        have hx_in : x ∈ y :: ys := hperm.subset (by simp)
        have hy_xs : y ∈ xs := by
          rcases List.mem_cons.mp hy_in with h | h
          · exact absurd h.symm hne
          · exact h
        have hx_ys : x ∈ ys := by
          rcases List.mem_cons.mp hx_in with h | h
          · exact absurd h hne
          · exact h
        have hkxy : resultKey x ≠ resultKey y := by
          intro hk
          rw [List.map_cons, List.nodup_cons] at hkeys
          exact hkeys.1 (hk ▸ List.mem_map_of_mem resultKey hy_xs)
        have h1 : mssql.isBetterResult y x = false :=
          (List.pairwise_cons.mp hl).1 y hy_xs
        have h2 : mssql.isBetterResult x y = false :=
          (List.pairwise_cons.mp hm).1 x hx_ys
        rw [better_total x y hkxy h2] at h1
        cases h1
      subst hxy
      have hperm2 : List.Perm xs ys := hperm.cons_inv
      rw [ih ys hperm2 (List.pairwise_cons.mp hl).2
        (List.pairwise_cons.mp hm).2
        ((List.nodup_cons.mp (List.map_cons resultKey x xs ▸ hkeys)).2)]

theorem charListNLt_trans : ∀ a b c : List Char,
    charListLt a b = false → charListLt b c = false → charListLt a c = false
  | [], b, [], _, _ => rfl
  | [], [], _ :: _, _, h2 => h2
  | [], b :: bs, _ :: _, h1, _ => by cases h1
  | _ :: _, _, [], _, _ => rfl
  | a :: as, [], c :: cs, _, h2 => by cases h2
  | a :: as, b :: bs, c :: cs, h1, h2 => by
    simp only [charListLt] at h1 h2 ⊢
    by_cases hab : a < b
    · rw [if_pos hab] at h1; cases h1
    · by_cases hbc : b < c
      · rw [if_pos hbc] at h2; cases h2
      · rw [if_neg hab] at h1
        rw [if_neg hbc] at h2
        by_cases hac : a < c
        · exfalso
          by_cases hba : b < a
          · exact hbc (lt_trans hba hac)
          · have : a = b := le_antisymm (not_lt.mp hba) (not_lt.mp hab)
            exact hbc (this ▸ hac)
        · rw [if_neg hac]
          by_cases hca : c < a
          · rw [if_pos hca]
          · rw [if_neg hca]
            have hba : ¬b < a := by
              intro hba
              by_cases hcb : c < b
              · exact hca (lt_trans hcb hba)
              · have : b = c := le_antisymm (not_lt.mp hcb) (not_lt.mp hbc)
                exact hca (this ▸ hba)
            have hcb : ¬c < b := by
              intro hcb
              have : a = b := le_antisymm (not_lt.mp hba) (not_lt.mp hab)
              exact hca (this ▸ hcb)
            rw [if_neg hba] at h1
            rw [if_neg hcb] at h2
            exact charListNLt_trans as bs cs h1 h2

theorem nstrLt_trans (a b c : String) (h1 : strLt a b = false)
    (h2 : strLt b c = false) : strLt a c = false :=
  charListNLt_trans a.data b.data c.data h1 h2

theorem nbetter_trans (a b c : SearchResult)
    (h1 : mssql.isBetterResult a b = false)
    (h2 : mssql.isBetterResult b c = false) :
    mssql.isBetterResult a c = false := by
  unfold mssql.isBetterResult at h1 h2 ⊢
  have hba : b.distance ≤ a.distance := by
    by_cases hd : a.distance = b.distance
    · exact le_of_eq hd.symm
    · rw [if_neg hd] at h1
      exact le_of_not_lt (of_decide_eq_false h1)
  have hcb : c.distance ≤ b.distance := by
    by_cases hd : b.distance = c.distance
    · exact le_of_eq hd.symm
    · rw [if_neg hd] at h2
      exact le_of_not_lt (of_decide_eq_false h2)
  by_cases hac : a.distance = c.distance
  · rw [if_pos hac]
    have hab : a.distance = b.distance :=
      le_antisymm (le_trans (le_of_eq hac) hcb) hba
    have hbc : b.distance = c.distance := hab.symm.trans hac
    rw [if_pos hab] at h1
    rw [if_pos hbc] at h2
    exact nstrLt_trans _ _ _ h1 h2
  · rw [if_neg hac]
    exact decide_eq_false (not_lt.mpr (hcb.trans hba))

theorem heapPush_all_not_worse (x : SearchResult) (l : List SearchResult)
    (h : ∀ z ∈ l, mssql.isWorseResult x z = false) :
    mssql.heapPush x l = l ++ [x] := by
  induction l with
  | nil => rfl
  | cons y t ih =>
    have hy := h y (List.mem_cons_self y t)
    unfold mssql.heapPush
    rw [if_neg (by rw [hy]; exact Bool.false_ne_true)]
    rw [ih (fun z hz => h z (List.mem_cons_of_mem y hz))]
    rfl

theorem heapPush_append_worse (x a : SearchResult) (l : List SearchResult)
    (ha : mssql.isWorseResult x a = true) :
    mssql.heapPush x (l ++ [a]) = mssql.heapPush x l ++ [a] := by
  induction l with
  | nil =>
    simp only [List.nil_append]
    unfold mssql.heapPush
    rw [if_pos ha]
    rfl
  | cons y t ih =>
    simp only [List.cons_append]
    unfold mssql.heapPush
    by_cases hxy : mssql.isWorseResult x y = true
    · rw [if_pos hxy, if_pos hxy]
      rfl
    · rw [if_neg hxy, if_neg hxy, ih]
      rfl

theorem heapPush_reverse (x : SearchResult) (s : List SearchResult)
    (hs : SortedB s)
    (hkey : ∀ y ∈ s, resultKey y ≠ resultKey x) :
    mssql.heapPush x s.reverse = (mssql.insertBetter x s).reverse := by
  induction s with
  | nil => rfl
  | cons y t ih =>
    unfold SortedB at hs
    rw [List.pairwise_cons] at hs
    simp only [List.reverse_cons]
    unfold mssql.insertBetter
    by_cases hxy : mssql.isBetterResult x y = true
    · rw [if_pos hxy]
      have hall : ∀ z ∈ t.reverse ++ [y], mssql.isWorseResult x z = false := by
        intro z hz
        rw [isWorse_eq_isBetter_swap]
        rcases List.mem_append.mp hz with hz | hz
        · have hzt := List.mem_reverse.mp hz
          have h1 : mssql.isBetterResult z y = false := hs.1 z hzt
          cases hzx : mssql.isBetterResult z x
          · rfl
          · exact absurd (better_trans z x y hzx hxy) (by rw [h1]; exact Bool.false_ne_true)
        · have hzy : z = y := by simpa using hz
          subst hzy
          exact better_asymm x z hxy
      rw [heapPush_all_not_worse x _ hall]
      simp
    · rw [if_neg hxy]
      have hxyf : mssql.isBetterResult x y = false := by
        cases h : mssql.isBetterResult x y
        · rfl
        · exact absurd h hxy
      have hyx := better_total x y
        (fun he => (hkey y (List.mem_cons_self y t)) he.symm) hxyf
      have hw : mssql.isWorseResult x y = true := by
        rw [isWorse_eq_isBetter_swap]; exact hyx
      rw [heapPush_append_worse x y t.reverse hw]
      rw [ih hs.2 (fun z hz => hkey z (List.mem_cons_of_mem y hz))]
      simp

theorem dropLast_take_succ {α : Type} (n : ℕ) (l : List α)
    (h : n + 1 ≤ l.length) : (l.take (n + 1)).dropLast = l.take n := by
  induction n generalizing l with
  | zero =>
    cases l with
    | nil => simp at h
    | cons x xs => simp
  | succ m ih =>
    cases l with
    | nil => simp at h
    | cons x xs =>
      have hx : m + 1 ≤ xs.length := by
        simp only [List.length_cons] at h; omega
      rw [List.take_succ_cons, List.take_succ_cons,
        List.dropLast_cons_of_ne_nil, ih xs hx]
      intro hc
      have hlen := congrArg List.length hc
      simp only [List.length_take, List.length_nil] at hlen
      omega

theorem sortedB_getLast_not_better (t : List SearchResult) (ht : t ≠ [])
    (hs : SortedB t) :
    ∀ y ∈ t, mssql.isBetterResult (t.getLast ht) y = false := by
  induction t with
  | nil => exact absurd rfl ht
  | cons a t ih =>
    unfold SortedB at hs
    rw [List.pairwise_cons] at hs
    intro y hy
    cases t with
    | nil =>
      have hya : y = a := by simpa using hy
      subst hya
      exact better_irrefl y
    | cons b r =>
      rw [List.getLast_cons (by exact List.cons_ne_nil b r)]
      rcases List.mem_cons.mp hy with rfl | hy'
      · exact hs.1 _ (List.getLast_mem (List.cons_ne_nil b r))
      · exact ih (List.cons_ne_nil b r) hs.2 y hy'

theorem take_insertBetter_late (x : SearchResult) :
    ∀ (s : List SearchResult) (k : ℕ), k ≤ s.length →
      (∀ y ∈ s.take k, mssql.isBetterResult x y = false) →
      (mssql.insertBetter x s).take k = s.take k
  | _, 0, _, _ => by simp
  | [], _ + 1, hk, _ => by simp at hk
  | y :: t, k + 1, hk, hall => by
    have hy : mssql.isBetterResult x y = false :=
      hall y (by rw [List.take_succ_cons]; exact List.mem_cons_self y _)
    unfold mssql.insertBetter
    rw [if_neg (by rw [hy]; exact Bool.false_ne_true)]
    rw [List.take_succ_cons, List.take_succ_cons]
    rw [take_insertBetter_late x t k (by simpa using hk)
      (fun z hz => hall z (by rw [List.take_succ_cons]; exact List.mem_cons_of_mem y hz))]

theorem take_insertBetter_early (x : SearchResult) :
    ∀ (s : List SearchResult) (k : ℕ), k + 1 ≤ s.length →
      (∃ y ∈ s.take (k + 1), mssql.isBetterResult x y = true) →
      (mssql.insertBetter x s).take (k + 1)
        = mssql.insertBetter x ((s.take (k + 1)).dropLast)
  | [], k, hk, _ => by simp at hk
  | y :: t, k, hk, hex => by
    by_cases hxy : mssql.isBetterResult x y = true
    · cases k with
      | zero =>
        unfold mssql.insertBetter
        rw [if_pos hxy]
        simp
      | succ m =>
        have ht : m + 1 ≤ t.length := by
          simp only [List.length_cons] at hk; omega
        have h1 : ((y :: t).take (m + 2)).dropLast = y :: t.take m := by
          rw [List.take_succ_cons, List.dropLast_cons_of_ne_nil,
            dropLast_take_succ m t ht]
          intro hc
          have hlen := congrArg List.length hc
          simp only [List.length_take, List.length_nil] at hlen
          omega
        rw [h1]
        conv_lhs => unfold mssql.insertBetter
        rw [if_pos hxy]
        conv_rhs => unfold mssql.insertBetter
        rw [if_pos hxy]
        rw [List.take_succ_cons, List.take_succ_cons]
    · obtain ⟨z, hz, hbz⟩ := hex
      rw [List.take_succ_cons] at hz
      rcases List.mem_cons.mp hz with rfl | hz'
      · exact absurd hbz hxy
      · cases k with
        | zero => simp at hz'
        | succ m =>
          have ht : m + 1 ≤ t.length := by
            simp only [List.length_cons] at hk; omega
          have h1 : ((y :: t).take (m + 2)).dropLast
              = y :: (t.take (m + 1)).dropLast := by
            rw [List.take_succ_cons, List.dropLast_cons_of_ne_nil]
            intro hc
            have hlen := congrArg List.length hc
            simp only [List.length_take, List.length_nil] at hlen
            omega
          rw [h1]
          conv_lhs => unfold mssql.insertBetter
          rw [if_neg hxy]
          rw [List.take_succ_cons]
          rw [take_insertBetter_early x t m ht ⟨z, hz', hbz⟩]
          conv_rhs => unfold mssql.insertBetter
          rw [if_neg hxy]

theorem streamStep_snapshot (k : ℤ) (hk : 0 < k) (s : List SearchResult)
    (x : SearchResult) (hs : SortedB s)
    (hkey : ∀ y ∈ s, resultKey y ≠ resultKey x) :
    mssql.streamStep k ((s.take k.toNat).reverse) x
      = ((mssql.insertBetter x s).take k.toNat).reverse := by
  by_cases hlen : s.length < k.toNat
  · rw [List.take_of_length_le (le_of_lt hlen)]
    unfold mssql.streamStep
    rw [if_pos (by simp only [List.length_reverse]; omega)]
    rw [heapPush_reverse x s hs hkey]
    rw [List.take_of_length_le]
    rw [(insertBetter_perm x s).length_eq]
    simp only [List.length_cons]
    omega
  · push_neg at hlen
    obtain ⟨m, hm⟩ : ∃ m, k.toNat = m + 1 := ⟨k.toNat - 1, by omega⟩
    rw [hm] at hlen ⊢
    have htne : s.take (m + 1) ≠ [] := by
      intro hc
      have hlen2 := congrArg List.length hc
      simp only [List.length_take, List.length_nil] at hlen2
      omega
    have hts : SortedB (s.take (m + 1)) := by
      unfold SortedB at hs ⊢
      exact hs.sublist (List.take_sublist _ _)
    have hrev : (s.take (m + 1)).reverse
        = (s.take (m + 1)).getLast htne :: ((s.take (m + 1)).dropLast).reverse := by
      conv_lhs => rw [← List.dropLast_append_getLast htne]
      rw [List.reverse_append]
      rfl
    rw [hrev]
    unfold mssql.streamStep
    rw [if_neg (by
      simp only [List.length_cons, List.length_reverse, List.length_dropLast,
        List.length_take]
      omega)]
    show (if mssql.isBetterResult x ((s.take (m + 1)).getLast htne) = true
          then mssql.heapPush x ((s.take (m + 1)).dropLast).reverse
          else (s.take (m + 1)).getLast htne
            :: ((s.take (m + 1)).dropLast).reverse)
        = ((mssql.insertBetter x s).take (m + 1)).reverse
    by_cases hbw : mssql.isBetterResult x ((s.take (m + 1)).getLast htne) = true
    · rw [if_pos hbw]
      rw [take_insertBetter_early x s m hlen ⟨_, List.getLast_mem htne, hbw⟩]
      rw [heapPush_reverse x ((s.take (m + 1)).dropLast)
        (by unfold SortedB at hts ⊢; exact hts.sublist (List.dropLast_sublist _))
        (fun y hy => hkey y
          (((List.dropLast_sublist _).trans (List.take_sublist _ _)).subset hy))]
    · rw [if_neg hbw]
      have hbwf : mssql.isBetterResult x ((s.take (m + 1)).getLast htne)
          = false := by
        cases h : mssql.isBetterResult x ((s.take (m + 1)).getLast htne)
        · rfl
        · exact absurd h hbw
      have hall : ∀ y ∈ s.take (m + 1), mssql.isBetterResult x y = false :=
        fun y hy => nbetter_trans x _ y hbwf
          (sortedB_getLast_not_better _ htne hts y hy)
      rw [take_insertBetter_late x s (m + 1) hlen hall]
      exact hrev.symm

theorem sortByBetter_append_singleton (l : List SearchResult)
    (x : SearchResult) :
    mssql.sortByBetter (l ++ [x]) = mssql.insertBetter x (mssql.sortByBetter l) := by
  unfold mssql.sortByBetter
  rw [List.foldl_append]
  simp only [List.foldl_cons, List.foldl_nil]

theorem foldl_streamStep_sorted (k : ℤ) (hk : 0 < k) :
    ∀ cands : List SearchResult, (cands.map resultKey).Nodup →
      List.foldl (mssql.streamStep k) [] cands
        = ((mssql.sortByBetter cands).take k.toNat).reverse := by
  intro cands
  induction cands using List.reverseRecOn with
  | nil => intro _; simp [mssql.sortByBetter]
  | append_singleton l x ih =>
    intro hkeys
    rw [List.map_append] at hkeys
    have hnd := List.nodup_append.mp hkeys
    rw [List.foldl_append]
    simp only [List.foldl_cons, List.foldl_nil]
    rw [ih hnd.1]
    have hkey : ∀ y ∈ mssql.sortByBetter l, resultKey y ≠ resultKey x := by
      intro y hy he
      have hyl : y ∈ l := (sortByBetter_perm l).mem_iff.mp hy
      exact hnd.2.2 (List.mem_map_of_mem resultKey hyl)
        (by rw [he]; exact List.mem_singleton_self _)
    rw [sortByBetter_append_singleton]
    rw [streamStep_snapshot k hk (mssql.sortByBetter l) x
      (sortByBetter_sorted l) hkey]

theorem streamFold_eq_collect (dim : ℤ) (metric : String) (qv : List ℚ)
    (opts : SearchOptions) (proj : Projection) (topK : ℤ) :
    ∀ (rows : List Record) (heap : List SearchResult),
      mssql.streamFold dim metric qv opts proj topK rows heap
        = match mssql.naiveCollect dim metric qv opts proj rows with
          | .error e => .error e
          | .ok cands => .ok (cands.foldl (mssql.streamStep topK) heap)
  | [], _ => rfl
  | record :: rest, heap => by
    cases hc : mssql.streamCandidate dim metric qv opts proj record with
    | error e =>
      unfold mssql.streamFold mssql.naiveCollect
      rw [hc, bindE_err, bindE_err]
    | ok o =>
      unfold mssql.streamFold mssql.naiveCollect
      rw [hc, bindE_ok, bindE_ok]
      cases o with
      | none =>
        exact streamFold_eq_collect dim metric qv opts proj topK rest heap
      | some cand =>
        have hrec := streamFold_eq_collect dim metric qv opts proj topK rest
          (mssql.streamStep topK heap cand)
        cases hr : mssql.naiveCollect dim metric qv opts proj rest with
        | error e => rw [hr] at hrec; exact hrec
        | ok results => rw [hr] at hrec; exact hrec

theorem streamCandidate_id (dim : ℤ) (metric : String) (qv : List ℚ)
    (opts : SearchOptions) (projection : Projection) (record : Record)
    (c : SearchResult)
    (h : mssql.streamCandidate dim metric qv opts projection record
      = .ok (some c)) : c.record.id = record.id := by
  unfold mssql.streamCandidate at h
  by_cases hdim : (record.vector.length : ℤ) ≠ dim
  · rw [if_pos hdim] at h
    cases h
  · rw [if_neg hdim] at h
    simp only [pure_bind] at h
    cases hm : mssql.matchesFilter opts.filter record with
    | error e2 => rw [hm, bindE_err] at h; cases h
    | ok b =>
      rw [hm, bindE_ok] at h
      cases b with
      | false => cases h
      | true =>
        simp only [Bool.not_true, Bool.false_eq_true, if_false,
          reduceIte] at h
        cases hd : mssql.distanceBetween metric qv record.vector with
        | error e2 => rw [hd, bindE_err] at h; cases h
        | ok d =>
          rw [hd, bindE_ok] at h
          cases ht : opts.threshold with
          | none =>
            simp only [ht] at h
            cases h
            rfl
          | some threshold =>
            simp only [ht] at h
            by_cases hcmp : threshold < d
            · rw [if_pos hcmp] at h; cases h
            · rw [if_neg hcmp] at h; cases h; rfl

theorem naiveCollect_ids_sublist (dim : ℤ) (metric : String) (qv : List ℚ)
    (opts : SearchOptions) (proj : Projection) :
    ∀ (rows : List Record) (cands : List SearchResult),
      mssql.naiveCollect dim metric qv opts proj rows = .ok cands →
      (cands.map (fun c => c.record.id)).Sublist (rows.map Record.id)
  | [], cands, h => by
    cases h
    exact List.nil_sublist _
  | record :: rest, cands, h => by
    unfold mssql.naiveCollect at h
    cases hc : mssql.streamCandidate dim metric qv opts proj record with
    | error e => rw [hc, bindE_err] at h; cases h
    | ok o =>
      rw [hc, bindE_ok] at h
      cases o with
      | none =>
        have hsub := naiveCollect_ids_sublist dim metric qv opts proj rest cands h
        exact List.Sublist.cons _ hsub
      | some cand =>
        cases hr : mssql.naiveCollect dim metric qv opts proj rest with
        | error e =>
          rw [hr] at h
          cases h
        | ok results =>
          rw [hr] at h
          have h2 : cand :: results = cands := Except.ok.inj h
          subst h2
          have hid := streamCandidate_id dim metric qv opts proj record cand hc
          have hsub := naiveCollect_ids_sublist dim metric qv opts proj rest results hr
          simp only [List.map_cons]
          rw [hid]
          exact List.Sublist.cons₂ _ hsub

theorem nodup_keys_of_ids (cands : List SearchResult)
    (h : (cands.map (fun c => c.record.id)).Nodup) :
    (cands.map resultKey).Nodup := by
  induction cands with
  | nil => simp
  | cons c t ih =>
    simp only [List.map_cons, List.nodup_cons] at h ⊢
    constructor
    · intro hmem
      obtain ⟨y, hy, hkey⟩ := List.mem_map.mp hmem
      have hid : y.record.id = c.record.id := congrArg Prod.snd hkey
      exact h.1 (hid ▸ List.mem_map_of_mem _ hy)
    · exact ih h.2

theorem sortByBetter_reverse_take (cands : List SearchResult) (n : ℕ)
    (hkeys : (cands.map resultKey).Nodup) :
    mssql.sortByBetter (((mssql.sortByBetter cands).take n).reverse)
      = (mssql.sortByBetter cands).take n := by
  have hsortperm := (sortByBetter_perm cands).map resultKey
  have hnodupsorted : ((mssql.sortByBetter cands).map resultKey).Nodup :=
    hsortperm.nodup_iff.mpr hkeys
  have hnodup_t : (((mssql.sortByBetter cands).take n).map resultKey).Nodup := by
    have hsub := (List.take_sublist n (mssql.sortByBetter cands)).map resultKey
    exact List.Nodup.sublist hsub hnodupsorted
  have hperm : List.Perm
      (mssql.sortByBetter (((mssql.sortByBetter cands).take n).reverse))
      ((mssql.sortByBetter cands).take n) :=
    (sortByBetter_perm _).trans (List.reverse_perm _)
  apply sorted_unique _ _ hperm (sortByBetter_sorted _)
  · have hs := sortByBetter_sorted cands
    unfold SortedB at hs ⊢
    exact hs.sublist (List.take_sublist _ _)
  · exact (hperm.map resultKey).nodup_iff.mpr hnodup_t

/-- C4: for every finite stream of candidate rows, every filter, optional
threshold and topK > 0, with the query vector of the collection dimension
and distinct row IDs (the table's primary key), the streaming fallback
search with its bounded size-topK worst-first heap returns exactly the topK
best candidates (all matching candidates when fewer than topK) sorted by
the better-than ordering — distance ascending, ID ascending on an exact
distance tie — which is precisely the output of the naive reference that
filters, scores, sorts every match with that comparator and truncates to
topK. -/
theorem streaming_search_refines_naive (dim : ℤ) (metric : String)
    (rows : List Record) (qv : List ℚ) (topK : ℤ) (opts : SearchOptions)
    (hk : 0 < topK) (hdim : (qv.length : ℤ) = dim)
    (hids : (rows.map Record.id).Nodup) :
    mssql.searchByVectorStreaming dim metric rows qv topK opts
      = mssql.searchByVectorNaive dim metric rows qv topK opts := by
  unfold mssql.searchByVectorStreaming mssql.searchByVectorNaive
  rw [if_neg (by omega : ¬ topK ≤ 0)]
  simp only [pure_bind]
  rw [if_neg (by omega : ¬ (qv.length : ℤ) ≠ dim)]
  show (mssql.streamFold dim (mssql.defaultMetric metric) qv opts
        (mssql.resolveProjection opts.projection) topK rows []
      >>= fun heap => Except.ok (mssql.sortByBetter heap))
    = (mssql.naiveCollect dim (mssql.defaultMetric metric) qv opts
        (mssql.resolveProjection opts.projection) rows
      >>= fun results => Except.ok
        (if ((mssql.sortByBetter results).length : ℤ) > topK
         then List.take topK.toNat (mssql.sortByBetter results)
         else mssql.sortByBetter results))
  rw [streamFold_eq_collect dim (mssql.defaultMetric metric) qv opts
    (mssql.resolveProjection opts.projection) topK rows []]
  cases hr : mssql.naiveCollect dim (mssql.defaultMetric metric) qv opts
      (mssql.resolveProjection opts.projection) rows with
  | error e => rfl
  | ok cands =>
    have hkeys : (cands.map resultKey).Nodup :=
      nodup_keys_of_ids cands
        (List.Nodup.sublist
          (naiveCollect_ids_sublist dim _ qv opts _ rows cands hr) hids)
    have key : mssql.sortByBetter (List.foldl (mssql.streamStep topK) [] cands)
        = if ((mssql.sortByBetter cands).length : ℤ) > topK
          then (mssql.sortByBetter cands).take topK.toNat
          else mssql.sortByBetter cands := by
      rw [foldl_streamStep_sorted topK hk cands hkeys]
      rw [sortByBetter_reverse_take cands topK.toNat hkeys]
      by_cases hlen : ((mssql.sortByBetter cands).length : ℤ) > topK
      · rw [if_pos hlen]
      · rw [if_neg hlen]
        exact List.take_of_length_le (by omega)
    show Except.ok
        (mssql.sortByBetter (List.foldl (mssql.streamStep topK) [] cands))
      = Except.ok (if ((mssql.sortByBetter cands).length : ℤ) > topK
          then (mssql.sortByBetter cands).take topK.toNat
          else mssql.sortByBetter cands)
    exact congrArg Except.ok key

theorem streaming_search_refines_naive_witness :
    (0 : ℤ) < 1 ∧ (([(0 : ℚ)].length : ℤ) = 1) ∧
      (([(⟨"a", [(2 : ℚ)], none, none⟩ : Record),
         ⟨"b", [(1 : ℚ)], none, none⟩].map Record.id).Nodup) ∧
      mssql.searchByVectorStreaming 1 "l2"
          [⟨"a", [(2 : ℚ)], none, none⟩, ⟨"b", [(1 : ℚ)], none, none⟩]
          [(0 : ℚ)] 1 ⟨.fnil, none, none⟩
        = mssql.searchByVectorNaive 1 "l2"
          [⟨"a", [(2 : ℚ)], none, none⟩, ⟨"b", [(1 : ℚ)], none, none⟩]
          [(0 : ℚ)] 1 ⟨.fnil, none, none⟩ :=
  ⟨by decide, by decide, by decide,
    streaming_search_refines_naive 1 "l2"
      [⟨"a", [(2 : ℚ)], none, none⟩, ⟨"b", [(1 : ℚ)], none, none⟩]
      [(0 : ℚ)] 1 ⟨.fnil, none, none⟩ (by decide) (by decide) (by decide)⟩

theorem bind_ok_inv {ε α β : Type} (x : Except ε α) (f : α → Except ε β)
    (b : β) (h : x >>= f = .ok b) : ∃ a, x = .ok a ∧ f a = .ok b := by
  cases x with
  | error e => rw [bindE_err] at h; cases h
  | ok a => rw [bindE_ok] at h; exact ⟨a, rfl, h⟩

theorem collectRows_filterMap {α : Type} (g : Record → Except Err (Option α)) :
    ∀ (rows : List Record) (c : List α), collectRows g rows = .ok c →
      c = rows.filterMap (fun r => exOpt (g r)) ∧ ∀ r ∈ rows, ∃ o, g r = .ok o
  | [], c, h => by
    cases h
    exact ⟨rfl, by simp⟩
  | record :: rest, c, h => by
    unfold collectRows at h
    cases hg : g record with
    | error e => rw [hg, bindE_err] at h; cases h
    | ok o =>
      rw [hg, bindE_ok] at h
      cases o with
      | none =>
        obtain ⟨hc, hall⟩ := collectRows_filterMap g rest c h
        refine ⟨?_, ?_⟩
        · rw [List.filterMap_cons, hg]
          exact hc
        · intro r hr
          rcases List.mem_cons.mp hr with rfl | hr'
          · exact ⟨none, hg⟩
          · exact hall r hr'
      | some x =>
        cases hrest : collectRows g rest with
        | error e => rw [hrest] at h; cases h
        | ok xs =>
          rw [hrest] at h
          have h2 : x :: xs = c := Except.ok.inj h
          subst h2
          obtain ⟨hc, hall⟩ := collectRows_filterMap g rest xs hrest
          refine ⟨?_, ?_⟩
          · rw [List.filterMap_cons, hg]
            exact congrArg (List.cons x) hc
          · intro r hr
            rcases List.mem_cons.mp hr with rfl | hr'
            · exact ⟨some x, hg⟩
            · exact hall r hr'

theorem collectRows_of_all_ok {α : Type} (g : Record → Except Err (Option α)) :
    ∀ rows : List Record, (∀ r ∈ rows, ∃ o, g r = .ok o) →
      collectRows g rows = .ok (rows.filterMap (fun r => exOpt (g r)))
  | [], _ => rfl
  | record :: rest, hall => by
    obtain ⟨o, hg⟩ := hall record (List.mem_cons_self _ _)
    have ih := collectRows_of_all_ok g rest
      (fun r hr => hall r (List.mem_cons_of_mem _ hr))
    unfold collectRows
    rw [hg, bindE_ok]
    cases o with
    | none =>
      rw [List.filterMap_cons, hg]
      exact ih
    | some x =>
      rw [ih, List.filterMap_cons, hg]
      rfl

theorem collectRows_perm {α : Type} (g : Record → Except Err (Option α))
    (l₁ l₂ : List Record) (hp : List.Perm l₁ l₂) (c₁ : List α)
    (h₁ : collectRows g l₁ = .ok c₁) :
    ∃ c₂, collectRows g l₂ = .ok c₂ ∧ List.Perm c₁ c₂ := by
  obtain ⟨hc₁, hall₁⟩ := collectRows_filterMap g l₁ c₁ h₁
  have hall₂ : ∀ r ∈ l₂, ∃ o, g r = .ok o := fun r hr =>
    hall₁ r (hp.symm.subset hr)
  refine ⟨l₂.filterMap (fun r => exOpt (g r)),
    collectRows_of_all_ok g l₂ hall₂, ?_⟩
  rw [hc₁]
  exact hp.filterMap _

theorem collectRows_ids_sublist {α : Type}
    (g : Record → Except Err (Option α)) (idOf : α → String)
    (hid : ∀ r x, g r = .ok (some x) → idOf x = r.id) :
    ∀ (rows : List Record) (c : List α), collectRows g rows = .ok c →
      (c.map idOf).Sublist (rows.map Record.id)
  | [], c, h => by
    cases h
    exact List.nil_sublist _
  | record :: rest, c, h => by
    unfold collectRows at h
    cases hg : g record with
    | error e => rw [hg, bindE_err] at h; cases h
    | ok o =>
      rw [hg, bindE_ok] at h
      cases o with
      | none =>
        exact List.Sublist.cons _
          (collectRows_ids_sublist g idOf hid rest c h)
      | some x =>
        cases hrest : collectRows g rest with
        | error e => rw [hrest] at h; cases h
        | ok xs =>
          rw [hrest] at h
          have h2 : x :: xs = c := Except.ok.inj h
          subst h2
          simp only [List.map_cons]
          rw [hid record x hg]
          exact List.Sublist.cons₂ _
            (collectRows_ids_sublist g idOf hid rest xs hrest)

theorem naiveCollect_eq_collectRows (dim : ℤ) (metric : String) (qv : List ℚ)
    (opts : SearchOptions) (proj : Projection) :
    ∀ rows : List Record,
      mssql.naiveCollect dim metric qv opts proj rows
        = collectRows (mssql.streamCandidate dim metric qv opts proj) rows
  | [] => rfl
  | record :: rest => by
    have ih := naiveCollect_eq_collectRows dim metric qv opts proj rest
    unfold mssql.naiveCollect collectRows
    cases hc : mssql.streamCandidate dim metric qv opts proj record with
    | error e => rw [bindE_err, bindE_err]
    | ok o =>
      rw [bindE_ok, bindE_ok]
      cases o with
      | none => exact ih
      | some c =>
        rw [ih]

theorem betterB_iff (x y : SearchResult) :
    mssql.isBetterResult x y = true ↔
      (x.distance < y.distance ∨
        (x.distance = y.distance ∧ strLt x.record.id y.record.id = true)) := by
  unfold mssql.isBetterResult
  by_cases hd : x.distance = y.distance
  · rw [if_pos hd]
    constructor
    · intro h; exact Or.inr ⟨hd, h⟩
    · rintro (h | ⟨_, h⟩)
      · exact absurd h (by rw [hd]; exact lt_irrefl _)
      · exact h
  · rw [if_neg hd]
    constructor
    · intro h; exact Or.inl (of_decide_eq_true h)
    · rintro (h | ⟨heq, _⟩)
      · exact decide_eq_true h
      · exact absurd heq hd

theorem insertByDistanceId_eq_insertBetter (x : SearchResult) :
    ∀ l : List SearchResult,
      mssql.insertByDistanceId x l = mssql.insertBetter x l
  | [] => rfl
  | y :: rest => by
    have ih := insertByDistanceId_eq_insertBetter x rest
    unfold mssql.insertByDistanceId mssql.insertBetter
    by_cases hc : x.distance < y.distance ∨
        (x.distance = y.distance ∧ strLt x.record.id y.record.id = true)
    · rw [if_pos hc, if_pos ((betterB_iff x y).mpr hc)]
    · rw [if_neg hc, if_neg (fun hb => hc ((betterB_iff x y).mp hb)), ih]

theorem sortByDistanceId_eq_sortByBetter (l : List SearchResult) :
    mssql.sortByDistanceId l = mssql.sortByBetter l := by
  unfold mssql.sortByDistanceId mssql.sortByBetter
  have hf : (fun acc x => mssql.insertByDistanceId x acc)
      = (fun acc x => mssql.insertBetter x acc) :=
    funext fun acc => funext fun x => insertByDistanceId_eq_insertBetter x acc
  rw [hf]

theorem msRowCand_tail_id (plan : mssql.SearchSQLPlan) (qv : List ℚ)
    (record : Record) (x : SearchResult) (verdict : Option Bool)
    (h : (if verdict ≠ some true then
            (Except.ok none : Except Err (Option SearchResult))
          else do
            let distance ← mssql.distanceBetween plan.metric qv record.vector
            match plan.threshold with
            | some threshold =>
              if threshold < distance then .ok none
              else
                .ok (some ({ record := mssql.projectRecord record plan.projection
                             distance := distance
                             score := ScoreFromDistance plan.metric distance }
                           : SearchResult))
            | none =>
              .ok (some ({ record := mssql.projectRecord record plan.projection
                           distance := distance
                           score := ScoreFromDistance plan.metric distance }
                         : SearchResult))) = .ok (some x)) :
    x.record.id = record.id := by
  by_cases hverdict : verdict ≠ some true
  · rw [if_pos hverdict] at h; cases h
  · rw [if_neg hverdict] at h
    obtain ⟨distance, hd, h⟩ := bind_ok_inv _ _ _ h
    cases ht : plan.threshold with
    | some threshold =>
      rw [ht] at h
      have h2 : (if threshold < distance then
            (Except.ok none : Except Err (Option SearchResult))
          else
            .ok (some ({ record := mssql.projectRecord record plan.projection
                         distance := distance
                         score := ScoreFromDistance plan.metric distance }
                       : SearchResult))) = .ok (some x) := h
      by_cases hcmp : threshold < distance
      · rw [if_pos hcmp] at h2; cases h2
      · rw [if_neg hcmp] at h2; cases h2; rfl
    | none => rw [ht] at h; cases h; rfl

theorem msSQLRowCand_id (dim : ℤ) (qv : List ℚ) (plan : mssql.SearchSQLPlan)
    (record : Record) (x : SearchResult)
    (h : mssql.msSQLRowCand dim qv plan record = .ok (some x)) :
    x.record.id = record.id := by
  unfold mssql.msSQLRowCand at h
  by_cases hdim : (record.vector.length : ℤ) ≠ dim
  · rw [if_pos hdim] at h
    cases h
  · rw [if_neg hdim] at h
    cases hfil : plan.filter <;> rw [hfil] at h <;>
      (obtain ⟨verdict, hv, htail⟩ := bind_ok_inv _ _ _ h;
       exact msRowCand_tail_id plan qv record x verdict htail)

theorem executeSearchSQLPlan_spec (dim : ℤ) (rows : List Record)
    (qv : List ℚ) (plan : mssql.SearchSQLPlan) (out : List SearchResult)
    (h : mssql.executeSearchSQLPlan dim rows qv plan = .ok out) :
    ∃ cands, collectRows (mssql.msSQLRowCand dim qv plan) rows = .ok cands ∧
      out = (mssql.sortByBetter cands).take plan.topK.toNat := by
  unfold mssql.executeSearchSQLPlan at h
  obtain ⟨cands, hc, hout⟩ := bind_ok_inv _ _ _ h
  refine ⟨cands, hc, ?_⟩
  have h2 : (mssql.sortByDistanceId cands).take plan.topK.toNat = out :=
    Except.ok.inj hout
  rw [← h2, sortByDistanceId_eq_sortByBetter]

theorem streaming_ok_spec (dim : ℤ) (metric : String) (rows : List Record)
    (qv : List ℚ) (topK : ℤ) (opts : SearchOptions) (out : List SearchResult)
    (hk : 0 < topK) (hids : (rows.map Record.id).Nodup)
    (h : mssql.searchByVectorStreaming dim metric rows qv topK opts
      = .ok out) :
    ∃ cands,
      collectRows (mssql.streamCandidate dim (mssql.defaultMetric metric) qv
        opts (mssql.resolveProjection opts.projection)) rows = .ok cands ∧
      out = (mssql.sortByBetter cands).take topK.toNat := by
  have h' : (mssql.streamFold dim (mssql.defaultMetric metric) qv opts
        (mssql.resolveProjection opts.projection) topK rows []
      >>= fun heap => Except.ok (mssql.sortByBetter heap)) = .ok out := h
  obtain ⟨heap, hfold, hout⟩ := bind_ok_inv _ _ _ h'
  rw [streamFold_eq_collect] at hfold
  cases hr : mssql.naiveCollect dim (mssql.defaultMetric metric) qv opts
      (mssql.resolveProjection opts.projection) rows with
  | error e => rw [hr] at hfold; cases hfold
  | ok cands =>
    rw [hr] at hfold
    have hheap : List.foldl (mssql.streamStep topK) [] cands = heap :=
      Except.ok.inj hfold
    have hkeys : (cands.map resultKey).Nodup :=
      nodup_keys_of_ids cands
        (List.Nodup.sublist
          (naiveCollect_ids_sublist dim _ qv opts _ rows cands hr) hids)
    refine ⟨cands, ?_, ?_⟩
    · rw [← naiveCollect_eq_collectRows]
      exact hr
    · have hsort : mssql.sortByBetter heap = out := Except.ok.inj hout
      rw [← hsort, ← hheap, foldl_streamStep_sorted topK hk cands hkeys,
        sortByBetter_reverse_take cands topK.toNat hkeys]

theorem ms_search_ok_sorted (dim : ℤ) (metric : String) (rows : List Record)
    (qv : List ℚ) (topK : ℤ) (opts : SearchOptions) (out : List SearchResult)
    (h : mssql.SearchByVector dim metric rows qv topK opts = .ok out) :
    SortedB out := by
  unfold mssql.SearchByVector at h
  by_cases htk : topK ≤ 0
  · rw [if_pos htk] at h; cases h
  · rw [if_neg htk] at h
    by_cases hq : (qv.length : ℤ) ≠ dim
    · rw [if_pos hq] at h; cases h
    · rw [if_neg hq] at h
      cases hb : mssql.buildSearchSQLPlan metric qv topK opts with
      | ok plan =>
        rw [hb] at h
        obtain ⟨cands, _, hout⟩ :=
          executeSearchSQLPlan_spec dim rows qv plan out h
        rw [hout]
        have hs := sortByBetter_sorted cands
        unfold SortedB at hs ⊢
        exact hs.sublist (List.take_sublist _ _)
      | error e =>
        rw [hb] at h
        have h' : (if e.kind = ErrKind.pushdownUnsupported
            then mssql.searchByVectorStreaming dim metric rows qv topK opts
            else Except.error e) = .ok out := h
        by_cases hkind : e.kind = ErrKind.pushdownUnsupported
        · rw [if_pos hkind] at h'
          have h'' : (mssql.streamFold dim (mssql.defaultMetric metric) qv
                opts (mssql.resolveProjection opts.projection) topK rows []
              >>= fun heap => Except.ok (mssql.sortByBetter heap))
              = .ok out := h'
          obtain ⟨heap, _, hout⟩ := bind_ok_inv _ _ _ h''
          have hsort : mssql.sortByBetter heap = out := Except.ok.inj hout
          rw [← hsort]
          exact sortByBetter_sorted heap
        · rw [if_neg hkind] at h'; cases h'

theorem ms_search_perm_indep (dim : ℤ) (metric : String)
    (rows₁ rows₂ : List Record) (qv : List ℚ) (topK : ℤ)
    (opts : SearchOptions) (out₁ out₂ : List SearchResult)
    (hperm : List.Perm rows₁ rows₂)
    (hids : (rows₁.map Record.id).Nodup)
    (h₁ : mssql.SearchByVector dim metric rows₁ qv topK opts = .ok out₁)
    (h₂ : mssql.SearchByVector dim metric rows₂ qv topK opts = .ok out₂) :
    out₁ = out₂ := by
  have hids₂ : (rows₂.map Record.id).Nodup :=
    ((hperm.map Record.id).nodup_iff).mp hids
  unfold mssql.SearchByVector at h₁ h₂
  by_cases htk : topK ≤ 0
  · rw [if_pos htk] at h₁; cases h₁
  · rw [if_neg htk] at h₁ h₂
    by_cases hq : (qv.length : ℤ) ≠ dim
    · rw [if_pos hq] at h₁; cases h₁
    · rw [if_neg hq] at h₁ h₂
      cases hb : mssql.buildSearchSQLPlan metric qv topK opts with
      | ok plan =>
        rw [hb] at h₁ h₂
        obtain ⟨c₁, hc₁, ho₁⟩ :=
          executeSearchSQLPlan_spec dim rows₁ qv plan out₁ h₁
        obtain ⟨c₂, hc₂, ho₂⟩ :=
          executeSearchSQLPlan_spec dim rows₂ qv plan out₂ h₂
        obtain ⟨c₂', hc₂', hpc⟩ := collectRows_perm _ rows₁ rows₂ hperm c₁ hc₁
        have hcc : c₂' = c₂ := Except.ok.inj (hc₂'.symm.trans hc₂)
        subst hcc
        have hkeys₁ : (c₁.map resultKey).Nodup :=
          nodup_keys_of_ids c₁
            (List.Nodup.sublist
              (collectRows_ids_sublist _ (fun c => c.record.id)
                (msSQLRowCand_id dim qv plan) rows₁ c₁ hc₁) hids)
        have hsorteq : mssql.sortByBetter c₁ = mssql.sortByBetter c₂' := by
          apply sorted_unique _ _
            ((sortByBetter_perm c₁).trans
              (hpc.trans (sortByBetter_perm c₂').symm))
            (sortByBetter_sorted _) (sortByBetter_sorted _)
          exact (((sortByBetter_perm c₁).map resultKey).nodup_iff).mpr hkeys₁
        rw [ho₁, ho₂, hsorteq]
      | error e =>
        rw [hb] at h₁ h₂
        have h₁' : (if e.kind = ErrKind.pushdownUnsupported
            then mssql.searchByVectorStreaming dim metric rows₁ qv topK opts
            else Except.error e) = .ok out₁ := h₁
        have h₂' : (if e.kind = ErrKind.pushdownUnsupported
            then mssql.searchByVectorStreaming dim metric rows₂ qv topK opts
            else Except.error e) = .ok out₂ := h₂
        by_cases hkind : e.kind = ErrKind.pushdownUnsupported
        · rw [if_pos hkind] at h₁' h₂'
          obtain ⟨c₁, hc₁, ho₁⟩ := streaming_ok_spec dim metric rows₁ qv topK
            opts out₁ (by omega) hids h₁'
          obtain ⟨c₂, hc₂, ho₂⟩ := streaming_ok_spec dim metric rows₂ qv topK
            opts out₂ (by omega) hids₂ h₂'
          obtain ⟨c₂', hc₂', hpc⟩ :=
            collectRows_perm _ rows₁ rows₂ hperm c₁ hc₁
          have hcc : c₂' = c₂ := Except.ok.inj (hc₂'.symm.trans hc₂)
          subst hcc
          have hkeys₁ : (c₁.map resultKey).Nodup :=
            nodup_keys_of_ids c₁
              (List.Nodup.sublist
                (collectRows_ids_sublist _ (fun c => c.record.id)
                  (fun r y hy => streamCandidate_id dim
                    (mssql.defaultMetric metric) qv opts
                    (mssql.resolveProjection opts.projection) r y hy)
                  rows₁ c₁ hc₁) hids)
          have hsorteq : mssql.sortByBetter c₁ = mssql.sortByBetter c₂' := by
            apply sorted_unique _ _
              ((sortByBetter_perm c₁).trans
                (hpc.trans (sortByBetter_perm c₂').symm))
              (sortByBetter_sorted _) (sortByBetter_sorted _)
            exact (((sortByBetter_perm c₁).map resultKey).nodup_iff).mpr hkeys₁
          rw [ho₁, ho₂, hsorteq]
        · rw [if_neg hkind] at h₁'; cases h₁'

/-- C3 (amended): on the MSSQL backend the ordering guarantee holds on both
execution paths: every successful SearchByVector output is sorted by the
better-than ordering (distance ascending, ascending ID on an exact distance
tie — no later result is better than an earlier one), and under distinct
row IDs the output does not depend on the physical row order: two runs over
permuted row lists that both succeed return the same list. On the Postgres
backend the guarantee fails (see the counterexample): the emitted ORDER BY
has no ID tie-break, so equal-distance results follow the physical row
order. -/
theorem mssql_tie_break_deterministic :
    (∀ (dim : ℤ) (metric : String) (rows : List Record) (qv : List ℚ)
        (topK : ℤ) (opts : SearchOptions) (out : List SearchResult),
        mssql.SearchByVector dim metric rows qv topK opts = .ok out →
        SortedB out)
    ∧ (∀ (dim : ℤ) (metric : String) (rows₁ rows₂ : List Record)
        (qv : List ℚ) (topK : ℤ) (opts : SearchOptions)
        (out₁ out₂ : List SearchResult),
        List.Perm rows₁ rows₂ → (rows₁.map Record.id).Nodup →
        mssql.SearchByVector dim metric rows₁ qv topK opts = .ok out₁ →
        mssql.SearchByVector dim metric rows₂ qv topK opts = .ok out₂ →
        out₁ = out₂) :=
  ⟨fun dim metric rows qv topK opts out h =>
      ms_search_ok_sorted dim metric rows qv topK opts out h,
   fun dim metric rows₁ rows₂ qv topK opts out₁ out₂ hperm hids h₁ h₂ =>
      ms_search_perm_indep dim metric rows₁ rows₂ qv topK opts out₁ out₂
        hperm hids h₁ h₂⟩

/-- C3 counterexample: on the Postgres backend the built plan orders by
distance only (buildSearchPlan emits `ORDER BY distance ASC` with no ID
tie-break), so two records at exactly equal distance from the query vector
are returned in physical row order, not in ascending ID order: with records
"a" and "b" both at distance 0, storage order [b, a] yields [b, a] while
storage order [a, b] yields [a, b] — the same collection contents give two
different result orders depending on row order. -/
theorem pg_equal_distance_follows_row_order :
    Except.map (fun out => out.map (fun r => r.record.id))
        (postgres.SearchByVector 2 "inner_product"
          [⟨"b", [(0 : ℚ), 1], none, none⟩, ⟨"a", [(0 : ℚ), 1], none, none⟩]
          [(1 : ℚ), 0] 2 ⟨.fnil, none, none⟩) = .ok ["b", "a"]
    ∧ Except.map (fun out => out.map (fun r => r.record.id))
        (postgres.SearchByVector 2 "inner_product"
          [⟨"a", [(0 : ℚ), 1], none, none⟩, ⟨"b", [(0 : ℚ), 1], none, none⟩]
          [(1 : ℚ), 0] 2 ⟨.fnil, none, none⟩) = .ok ["a", "b"] := by
  constructor
  · with_unfolding_all rfl
  · with_unfolding_all rfl

theorem mssql_tie_break_deterministic_witness :
    mssql.SearchByVector 1 "inner_product"
        [⟨"a", [(1 : ℚ)], none, none⟩, ⟨"b", [(2 : ℚ)], none, none⟩]
        [(1 : ℚ)] 2 ⟨.fnil, none, none⟩
      = .ok [⟨⟨"b", [], some [], none⟩, -2, 2⟩, ⟨⟨"a", [], some [], none⟩, -1, 1⟩]
    ∧ SortedB [⟨⟨"b", [], some [], none⟩, -2, 2⟩,
        ⟨⟨"a", [], some [], none⟩, -1, 1⟩]
    ∧ ([⟨⟨"b", [], some [], none⟩, -2, 2⟩, ⟨⟨"a", [], some [], none⟩, -1, 1⟩]
        : List SearchResult)
      = [⟨⟨"b", [], some [], none⟩, -2, 2⟩, ⟨⟨"a", [], some [], none⟩, -1, 1⟩] :=
  ⟨by with_unfolding_all rfl,
   mssql_tie_break_deterministic.1 1 "inner_product"
     [⟨"a", [(1 : ℚ)], none, none⟩, ⟨"b", [(2 : ℚ)], none, none⟩]
     [(1 : ℚ)] 2 ⟨.fnil, none, none⟩
     [⟨⟨"b", [], some [], none⟩, -2, 2⟩, ⟨⟨"a", [], some [], none⟩, -1, 1⟩]
     (by with_unfolding_all rfl),
   mssql_tie_break_deterministic.2 1 "inner_product"
     [⟨"a", [(1 : ℚ)], none, none⟩, ⟨"b", [(2 : ℚ)], none, none⟩]
     [⟨"b", [(2 : ℚ)], none, none⟩, ⟨"a", [(1 : ℚ)], none, none⟩]
     [(1 : ℚ)] 2 ⟨.fnil, none, none⟩
     [⟨⟨"b", [], some [], none⟩, -2, 2⟩, ⟨⟨"a", [], some [], none⟩, -1, 1⟩]
     [⟨⟨"b", [], some [], none⟩, -2, 2⟩, ⟨⟨"a", [], some [], none⟩, -1, 1⟩]
     (List.Perm.swap _ _ _) (by decide)
     (by with_unfolding_all rfl) (by with_unfolding_all rfl)⟩

theorem valuesEqual_eq (a b : JVal) :
    mssql.valuesEqual a b = decide (a = b) := by
  unfold mssql.valuesEqual
  by_cases h : a = .jnull ∨ b = .jnull
  · rw [if_pos h]
  · rw [if_neg h]
    cases a <;> cases b <;> simp [toFloat64]

theorem triAnd_some_true (v w : Option Bool) :
    triAnd v w = some true ↔ v = some true ∧ w = some true := by
  cases v with
  | none => cases w with
    | none => simp [triAnd]
    | some b => cases b <;> simp [triAnd]
  | some a => cases a <;> cases w with
    | none => simp [triAnd]
    | some b => cases b <;> simp [triAnd]

theorem triOr_some_true (v w : Option Bool) :
    triOr v w = some true ↔ v = some true ∨ w = some true := by
  cases v with
  | none => cases w with
    | none => simp [triOr]
    | some b => cases b <;> simp [triOr]
  | some a => cases a <;> cases w with
    | none => simp [triOr]
    | some b => cases b <;> simp [triOr]

theorem cmp_str_gt (s t : String) :
    decide (mssql.compareValues (.jstr s) (.jstr t) > 0) = strLt t s := by
  unfold mssql.compareValues
  show decide ((if strLt (goSprint (.jstr s)) (goSprint (.jstr t)) then (-1 : ℤ)
      else if strLt (goSprint (.jstr t)) (goSprint (.jstr s)) then 1 else 0)
      > 0) = strLt t s
  show decide ((if strLt s t then (-1 : ℤ)
      else if strLt t s then 1 else 0) > 0) = strLt t s
  by_cases h1 : strLt s t = true
  · rw [if_pos h1]
    rw [strLt_asymm s t h1]
    decide
  · rw [if_neg h1]
    by_cases h2 : strLt t s = true
    · rw [if_pos h2, h2]; decide
    · rw [if_neg h2]
      rw [Bool.eq_false_iff.mpr h2]
      decide

theorem cmp_str_lt (s t : String) :
    decide (mssql.compareValues (.jstr s) (.jstr t) < 0) = strLt s t := by
  unfold mssql.compareValues
  show decide ((if strLt s t then (-1 : ℤ)
      else if strLt t s then 1 else 0) < 0) = strLt s t
  by_cases h1 : strLt s t = true
  · rw [if_pos h1, h1]; decide
  · rw [if_neg h1]
    rw [Bool.eq_false_iff.mpr h1]
    by_cases h2 : strLt t s = true
    · rw [if_pos h2]; decide
    · rw [if_neg h2]; decide

theorem metadataWalk_pgNav : ∀ (path : List String) (v : JVal),
    path.all pgSegOK = true →
    mssql.metadataWalk v path = .ok (pgNav v path)
  | [], v, _ => by cases v <;> rfl
  | seg :: rest, v, hall => by
    rw [List.all_cons, Bool.and_eq_true] at hall
    obtain ⟨hseg, hrest⟩ := hall
    unfold pgSegOK at hseg
    rw [Bool.and_eq_true, Bool.and_eq_true] at hseg
    obtain ⟨⟨htrim, hne⟩, hint⟩ := hseg
    rw [decide_eq_true_eq] at htrim
    have hne' : ¬(seg = "") := by simpa using hne
    cases v with
    | jobj fields =>
      simp only [mssql.metadataWalk, pgNav, htrim]
      rw [if_neg hne']
      cases hl : fields.lookup seg with
      | some next => exact metadataWalk_pgNav rest next hrest
      | none => rfl
    | jarr items =>
      simp only [mssql.metadataWalk, pgNav, htrim]
      rw [if_neg hne']
      rw [Option.isNone_iff_eq_none.mp hint]
    | jnull =>
      simp only [mssql.metadataWalk, pgNav, htrim]
      rw [if_neg hne']
    | jbool b =>
      simp only [mssql.metadataWalk, pgNav, htrim]
      rw [if_neg hne']
    | jnum q =>
      simp only [mssql.metadataWalk, pgNav, htrim]
      rw [if_neg hne']
    | jstr s =>
      simp only [mssql.metadataWalk, pgNav, htrim]
      rw [if_neg hne']

theorem metadataWalk_msNav : ∀ (path : List String) (v : JVal),
    (path.all fun s => goTrim s ≠ "") = true →
    mssql.metadataWalk v path = .ok (mssql.msNav v (path.map goTrim))
  | [], v, _ => by cases v <;> rfl
  | seg :: rest, v, hall => by
    rw [List.all_cons, Bool.and_eq_true] at hall
    obtain ⟨hseg, hrest⟩ := hall
    rw [decide_eq_true_eq] at hseg
    rw [List.map_cons]
    cases v with
    | jobj fields =>
      simp only [mssql.metadataWalk, mssql.msNav]
      rw [if_neg hseg]
      cases hl : fields.lookup (goTrim seg) with
      | some next => exact metadataWalk_msNav rest next hrest
      | none => rfl
    | jarr items =>
      simp only [mssql.metadataWalk, mssql.msNav]
      rw [if_neg hseg]
    | jnull =>
      simp only [mssql.metadataWalk, mssql.msNav]
      rw [if_neg hseg]
    | jbool b =>
      simp only [mssql.metadataWalk, mssql.msNav]
      rw [if_neg hseg]
    | jnum q =>
      simp only [mssql.metadataWalk, mssql.msNav]
      rw [if_neg hseg]
    | jstr s =>
      simp only [mssql.metadataWalk, mssql.msNav]
      rw [if_neg hseg]

theorem norm_column (name : String) (path : List String)
    (h : ¬(goTrim name = "")) :
    NormalizeFieldRef ⟨"column", name, path⟩ = .ok ⟨"column", goTrim name, []⟩ := by
  simp only [NormalizeFieldRef, reduceIte]
  rw [if_neg h]

theorem norm_mapM (path : List String)
    (h : (path.all fun s => goTrim s ≠ "") = true) :
    (path.mapM fun segment =>
      if goTrim segment = "" then
        Except.error (invalidFilterErr "metadata path segment is empty")
      else Except.ok (goTrim segment)) = .ok (path.map goTrim) := by
  induction path with
  | nil => rfl
  | cons s rest ih =>
    rw [List.all_cons, Bool.and_eq_true] at h
    have hs : ¬(goTrim s = "") := by simpa using h.1
    rw [List.mapM_cons, if_neg hs, bindE_ok, ih h.2, bindE_ok]
    rfl

theorem norm_metadata (name : String) (path : List String)
    (hall : (path.all fun s => goTrim s ≠ "") = true) (hne : path ≠ []) :
    NormalizeFieldRef ⟨"metadata", name, path⟩
      = .ok ⟨"metadata", "", path.map goTrim⟩ := by
  cases path with
  | nil => exact absurd rfl hne
  | cons s rest =>
    simp only [NormalizeFieldRef, reduceIte, List.isEmpty_cons]
    rw [norm_mapM (s :: rest) hall, bindE_ok]
    rw [if_neg (show ¬(("metadata" : String) = "column") by decide)]
    rw [if_neg (show ¬(false = true) by decide)]

theorem msResolveSem_id (name : String) (path : List String)
    (h : goTrim name = idColumn) :
    mssql.msResolveFieldSem ⟨"column", name, path⟩ = .ok (.inl idColumn) := by
  unfold mssql.msResolveFieldSem
  rw [norm_column name path (by rw [h]; decide), bindE_ok, h]
  simp only [reduceIte]

theorem msResolveSem_content (name : String) (path : List String)
    (h : goTrim name = contentColumn) :
    mssql.msResolveFieldSem ⟨"column", name, path⟩ = .ok (.inl contentColumn) := by
  unfold mssql.msResolveFieldSem
  rw [norm_column name path (by rw [h]; decide), bindE_ok, h]
  simp only [reduceIte]
  rw [if_neg (by decide)]

theorem msResolveSem_meta (name : String) (path : List String)
    (hall : (path.all fun s => goTrim s ≠ "") = true) (hne : path ≠ []) :
    mssql.msResolveFieldSem ⟨"metadata", name, path⟩
      = .ok (.inr (path.map goTrim)) := by
  unfold mssql.msResolveFieldSem
  rw [norm_metadata name path hall hne, bindE_ok]
  simp only [reduceIte]
  rw [if_neg (by decide)]

theorem msResolveField_id (name : String) (path : List String)
    (h : goTrim name = idColumn) :
    mssql.msResolveField ⟨"column", name, path⟩
      = .ok (mssql.quoteIdent idColumn, "", false) := by
  unfold mssql.msResolveField
  rw [norm_column name path (by rw [h]; decide), bindE_ok, h]
  simp only [reduceIte]

theorem msResolveField_content (name : String) (path : List String)
    (h : goTrim name = contentColumn) :
    mssql.msResolveField ⟨"column", name, path⟩
      = .ok (mssql.quoteIdent contentColumn, "", false) := by
  unfold mssql.msResolveField
  rw [norm_column name path (by rw [h]; decide), bindE_ok, h]
  simp only [reduceIte]
  rw [if_neg (by decide)]

theorem msResolveField_meta (name : String) (path : List String)
    (hall : (path.all fun s => goTrim s ≠ "") = true) (hne : path ≠ []) :
    mssql.msResolveField ⟨"metadata", name, path⟩
      = .ok ("", mssql.metadataPathLiteral (path.map goTrim), true) := by
  unfold mssql.msResolveField
  rw [norm_metadata name path hall hne, bindE_ok]
  simp only [reduceIte]
  rw [if_neg (by decide)]

theorem rfv_id (name : String) (path : List String) (r : Record)
    (h : goTrim name = idColumn) :
    mssql.resolveFieldValue ⟨"column", name, path⟩ r
      = .ok (some (.jstr r.id)) := by
  simp only [mssql.resolveFieldValue, h, reduceIte]
  rw [if_neg (show ¬(idColumn = "") by decide)]

theorem rfv_content (name : String) (path : List String) (r : Record)
    (h : goTrim name = contentColumn) :
    mssql.resolveFieldValue ⟨"column", name, path⟩ r
      = .ok (r.content.map JVal.jstr) := by
  simp only [mssql.resolveFieldValue, h, reduceIte]
  rw [if_neg (show ¬(contentColumn = "") by decide)]
  rw [if_neg (show ¬(contentColumn = idColumn) by decide)]
  cases r.content <;> rfl

theorem rfv_meta (name : String) (path : List String) (r : Record)
    (hne : path ≠ []) :
    mssql.resolveFieldValue ⟨"metadata", name, path⟩ r =
      match r.metadata with
      | none => .ok none
      | some m => mssql.metadataWalk (.jobj m) path := by
  cases path with
  | nil => exact absurd rfl hne
  | cons s rest =>
    simp only [mssql.resolveFieldValue, reduceIte, List.isEmpty_cons]
    rw [if_neg (show ¬(("metadata" : String) = "column") by decide)]
    rw [if_neg (show ¬(false = true) by decide)]

theorem csv_id (r : Record) :
    columnSQLValue idColumn r = .ok (some r.id) := by
  unfold columnSQLValue
  rw [if_pos rfl]

theorem csv_content (r : Record) :
    columnSQLValue contentColumn r = .ok r.content := by
  unfold columnSQLValue
  rw [if_neg (by decide), if_pos rfl]

theorem pgColOK_cases (name : String) (h : pgColOK name = true) :
    name = idColumn ∨ name = contentColumn := by
  unfold pgColOK at h
  rw [Bool.or_eq_true, decide_eq_true_eq, decide_eq_true_eq] at h
  exact h

theorem msColOK_cases (name : String) (h : msColOK name = true) :
    goTrim name = idColumn ∨ goTrim name = contentColumn := by
  unfold msColOK at h
  rw [Bool.or_eq_true, decide_eq_true_eq, decide_eq_true_eq] at h
  exact h

theorem isStr_cases (v : JVal) (h : isStr v = true) : ∃ s, v = .jstr s := by
  cases v <;> simp [isStr] at h ⊢

theorem any_str_eq (s : String) : ∀ (values : List JVal),
    values.all isStr = true →
    (values.any fun v => match v with | .jstr t => decide (s = t) | _ => false)
      = values.any fun v => mssql.valuesEqual (.jstr s) v
  | [], _ => rfl
  | v :: rest, h => by
    rw [List.all_cons, Bool.and_eq_true] at h
    obtain ⟨t, rfl⟩ := isStr_cases v h.1
    rw [List.any_cons, List.any_cons]
    rw [any_str_eq s rest h.2]
    congr 1
    rw [valuesEqual_eq]
    simp

theorem any_valuesEqual (stored : JVal) (values : List JVal) :
    (values.any fun v => mssql.valuesEqual stored v)
      = values.any fun v => decide (stored = v) := by
  have hf : (fun v => mssql.valuesEqual stored v)
      = fun v => decide (stored = v) :=
    funext fun v => valuesEqual_eq stored v
  rw [hf]

theorem pg_agree_feq_col (name : String) (path : List String) (t : String)
    (r : Record) (hcol : pgColOK name = true) :
    (∀ st : PGState, ∃ out,
      pgCompileFilter postgres.filterConfig
        (.feq ⟨"column", name, path⟩ (.jstr t)) st = .ok out)
    ∧ ∃ v b, pgEvalSQL (.feq ⟨"column", name, path⟩ (.jstr t)) r = .ok v ∧
        mssql.matchesFilter (.feq ⟨"column", name, path⟩ (.jstr t)) r = .ok b ∧
        (v = some true ↔ b = true) := by
  rcases pgColOK_cases name hcol with rfl | rfl
  · constructor
    · intro st
      exact ⟨_, rfl⟩
    · refine ⟨some (decide (r.id = t)), decide (JVal.jstr r.id = JVal.jstr t),
        rfl, ?_, by simp⟩
      show mssql.matchesFilter _ r = .ok (decide (JVal.jstr r.id = JVal.jstr t))
      rw [← valuesEqual_eq]
      rfl
  · constructor
    · intro st
      exact ⟨_, rfl⟩
    · cases hc : r.content with
      | none =>
        refine ⟨none, false, ?_, ?_, by simp⟩
        · have h1 : pgEvalSQL (.feq ⟨"column", contentColumn, path⟩ (.jstr t)) r
              = .ok (r.content.map fun s => decide (s = t)) := rfl
          rw [h1, hc]
          rfl
        · simp only [mssql.matchesFilter]
          rw [rfv_content contentColumn path r (by decide), bindE_ok, hc]
          rfl
      | some c =>
        refine ⟨some (decide (c = t)), decide (JVal.jstr c = JVal.jstr t),
          ?_, ?_, by simp⟩
        · have h1 : pgEvalSQL (.feq ⟨"column", contentColumn, path⟩ (.jstr t)) r
              = .ok (r.content.map fun s => decide (s = t)) := rfl
          rw [h1, hc]
          rfl
        · simp only [mssql.matchesFilter]
          rw [rfv_content contentColumn path r (by decide), bindE_ok, hc]
          rw [← valuesEqual_eq]
          rfl

theorem rfv_meta_none (name : String) (path : List String) (r : Record)
    (hne : path ≠ []) (hm : r.metadata = none) :
    mssql.resolveFieldValue ⟨"metadata", name, path⟩ r = .ok none := by
  rw [rfv_meta name path r hne, hm]

theorem rfv_meta_some (name : String) (path : List String) (r : Record)
    (m : List (String × JVal)) (hne : path ≠ []) (hm : r.metadata = some m) :
    mssql.resolveFieldValue ⟨"metadata", name, path⟩ r
      = mssql.metadataWalk (.jobj m) path := by
  rw [rfv_meta name path r hne, hm]

theorem storedMetadata_none (r : Record) (hm : r.metadata = none) :
    storedMetadata r = .jobj [] := by
  unfold storedMetadata
  rw [hm]
  rfl

theorem storedMetadata_some (r : Record) (m : List (String × JVal))
    (hm : r.metadata = some m) : storedMetadata r = .jobj m := by
  unfold storedMetadata
  rw [hm]
  rfl

theorem pg_agree_feq_meta (name : String) (path : List String) (value : JVal)
    (r : Record) (hne : path ≠ []) (hsegs : path.all pgSegOK = true) :
    (∀ st : PGState, ∃ out,
      pgCompileFilter postgres.filterConfig
        (.feq ⟨"metadata", name, path⟩ value) st = .ok out)
    ∧ ∃ v b, pgEvalSQL (.feq ⟨"metadata", name, path⟩ value) r = .ok v ∧
        mssql.matchesFilter (.feq ⟨"metadata", name, path⟩ value) r = .ok b ∧
        (v = some true ↔ b = true) := by
  cases path with
  | nil => exact absurd rfl hne
  | cons s rest =>
    constructor
    · intro st
      exact ⟨_, rfl⟩
    · have h1 : pgEvalSQL (.feq ⟨"metadata", name, s :: rest⟩ value) r
          = (match pgNav (storedMetadata r) (s :: rest) with
             | none => Except.ok none
             | some stored => Except.ok (some (decide (stored = value)))) := rfl
      cases hm : r.metadata with
      | none =>
        refine ⟨none, false, ?_, ?_, by simp⟩
        · rw [h1, storedMetadata_none r hm]
          rfl
        · simp only [mssql.matchesFilter]
          rw [rfv_meta_none name (s :: rest) r (List.cons_ne_nil s rest) hm,
            bindE_ok]
      | some m =>
        rw [h1, storedMetadata_some r m hm]
        cases hnav : pgNav (.jobj m) (s :: rest) with
        | none =>
          refine ⟨none, false, rfl, ?_, by simp⟩
          simp only [mssql.matchesFilter]
          rw [rfv_meta_some name (s :: rest) r m (List.cons_ne_nil s rest) hm,
            metadataWalk_pgNav (s :: rest) (.jobj m) hsegs, hnav, bindE_ok]
        | some stored =>
          refine ⟨some (decide (stored = value)), decide (stored = value),
            rfl, ?_, by simp⟩
          simp only [mssql.matchesFilter]
          rw [rfv_meta_some name (s :: rest) r m (List.cons_ne_nil s rest) hm,
            metadataWalk_pgNav (s :: rest) (.jobj m) hsegs, hnav, bindE_ok,
            ← valuesEqual_eq]

theorem isStr_fn_eq :
    (fun v => match v with | JVal.jstr _ => true | _ => false) = isStr :=
  funext fun v => by cases v <;> rfl

theorem pg_agree_fin_col (name : String) (path : List String)
    (v0 : JVal) (vs : List JVal) (r : Record) (hcol : pgColOK name = true)
    (hstr : (v0 :: vs).all isStr = true) :
    (∀ st : PGState, ∃ out,
      pgCompileFilter postgres.filterConfig
        (.fin ⟨"column", name, path⟩ (v0 :: vs)) st = .ok out)
    ∧ ∃ v b, pgEvalSQL (.fin ⟨"column", name, path⟩ (v0 :: vs)) r = .ok v ∧
        mssql.matchesFilter (.fin ⟨"column", name, path⟩ (v0 :: vs)) r = .ok b ∧
        (v = some true ↔ b = true) := by
  have hni : ¬((v0 :: vs).isEmpty = true) := by simp
  rcases pgColOK_cases name hcol with rfl | rfl
  · refine ⟨fun st => ⟨_, rfl⟩, ?_⟩
    refine ⟨some ((v0 :: vs).any fun v => match v with
        | JVal.jstr t => decide (r.id = t) | _ => false),
      (v0 :: vs).any fun value => mssql.valuesEqual (.jstr r.id) value,
      ?_, ?_, ?_⟩
    · simp only [pgEvalSQL]
      rw [if_neg hni, if_true, if_neg (show ¬((idColumn : String) = "") by decide),
        csv_id r, bindE_ok, isStr_fn_eq, if_pos hstr]
      rfl
    · simp only [mssql.matchesFilter]
      rw [if_neg hni, rfv_id idColumn path r (by decide), bindE_ok]
    · rw [any_str_eq r.id (v0 :: vs) hstr]
      simp
  · refine ⟨fun st => ⟨_, rfl⟩, ?_⟩
    cases hc : r.content with
    | none =>
      refine ⟨none, false, ?_, ?_, by simp⟩
      · simp only [pgEvalSQL]
        rw [if_neg hni, if_true,
          if_neg (show ¬((contentColumn : String) = "") by decide),
          csv_content r, bindE_ok, isStr_fn_eq, if_pos hstr, hc]
        rfl
      · simp only [mssql.matchesFilter]
        rw [if_neg hni, rfv_content contentColumn path r (by decide),
          bindE_ok, hc]
        rfl
    | some c =>
      refine ⟨some ((v0 :: vs).any fun v => match v with
          | JVal.jstr t => decide (c = t) | _ => false),
        (v0 :: vs).any fun value => mssql.valuesEqual (.jstr c) value,
        ?_, ?_, ?_⟩
      · simp only [pgEvalSQL]
        rw [if_neg hni, if_true,
          if_neg (show ¬((contentColumn : String) = "") by decide),
          csv_content r, bindE_ok, isStr_fn_eq, if_pos hstr, hc]
        rfl
      · simp only [mssql.matchesFilter]
        rw [if_neg hni, rfv_content contentColumn path r (by decide),
          bindE_ok, hc]
        rfl
      · rw [any_str_eq c (v0 :: vs) hstr]
        simp

theorem pg_agree_fin_meta (name : String) (path : List String)
    (v0 : JVal) (vs : List JVal) (r : Record) (hne : path ≠ []) (hsegs : path.all pgSegOK = true) :
    (∀ st : PGState, ∃ out,
      pgCompileFilter postgres.filterConfig
        (.fin ⟨"metadata", name, path⟩ (v0 :: vs)) st = .ok out)
    ∧ ∃ v b, pgEvalSQL (.fin ⟨"metadata", name, path⟩ (v0 :: vs)) r = .ok v ∧
        mssql.matchesFilter (.fin ⟨"metadata", name, path⟩ (v0 :: vs)) r = .ok b ∧
        (v = some true ↔ b = true) := by
  have hni : ¬((v0 :: vs).isEmpty = true) := by simp
  cases path with
  | nil => exact absurd rfl hne
  | cons s rest =>
    refine ⟨fun st => ⟨_, rfl⟩, ?_⟩
    have h1 : pgEvalSQL (.fin ⟨"metadata", name, s :: rest⟩ (v0 :: vs)) r
        = (match pgNav (storedMetadata r) (s :: rest) with
           | none => Except.ok none
           | some stored =>
             Except.ok (some ((v0 :: vs).any fun v => decide (stored = v)))) := rfl
    cases hm : r.metadata with
    | none =>
      refine ⟨none, false, ?_, ?_, by simp⟩
      · rw [h1, storedMetadata_none r hm]
        rfl
      · simp only [mssql.matchesFilter]
        rw [if_neg hni,
          rfv_meta_none name (s :: rest) r (List.cons_ne_nil s rest) hm,
          bindE_ok]
    | some m =>
      rw [h1, storedMetadata_some r m hm]
      cases hnav : pgNav (.jobj m) (s :: rest) with
      | none =>
        refine ⟨none, false, rfl, ?_, by simp⟩
        simp only [mssql.matchesFilter]
        rw [if_neg hni,
          rfv_meta_some name (s :: rest) r m (List.cons_ne_nil s rest) hm,
          metadataWalk_pgNav (s :: rest) (.jobj m) hsegs, hnav, bindE_ok]
      | some stored =>
        refine ⟨some ((v0 :: vs).any fun v => decide (stored = v)),
          (v0 :: vs).any fun value => mssql.valuesEqual stored value,
          rfl, ?_, ?_⟩
        · simp only [mssql.matchesFilter]
          rw [if_neg hni,
            rfv_meta_some name (s :: rest) r m (List.cons_ne_nil s rest) hm,
            metadataWalk_pgNav (s :: rest) (.jobj m) hsegs, hnav, bindE_ok]
        · rw [any_valuesEqual stored (v0 :: vs)]
          simp

theorem pg_agree_fgt_col (name : String) (path : List String) (t : String)
    (r : Record) (hcol : pgColOK name = true) :
    (∀ st : PGState, ∃ out,
      pgCompileFilter postgres.filterConfig
        (.fgt ⟨"column", name, path⟩ (.jstr t)) st = .ok out)
    ∧ ∃ v b, pgEvalSQL (.fgt ⟨"column", name, path⟩ (.jstr t)) r = .ok v ∧
        mssql.matchesFilter (.fgt ⟨"column", name, path⟩ (.jstr t)) r = .ok b ∧
        (v = some true ↔ b = true) := by
  rcases pgColOK_cases name hcol with rfl | rfl
  · refine ⟨fun st => ⟨_, rfl⟩,
      some (strLt t r.id),
      decide (mssql.compareValues (.jstr r.id) (.jstr t) > 0), rfl, rfl, ?_⟩
    rw [cmp_str_gt]
    simp
  · refine ⟨fun st => ⟨_, rfl⟩, ?_⟩
    cases hc : r.content with
    | none =>
      refine ⟨none, false, ?_, ?_, by simp⟩
      · have h1 : pgEvalSQL (.fgt ⟨"column", contentColumn, path⟩ (.jstr t)) r
            = .ok (r.content.map fun s => strLt t s) := rfl
        rw [h1, hc]
        rfl
      · simp only [mssql.matchesFilter]
        rw [rfv_content contentColumn path r (by decide), bindE_ok, hc]
        rfl
    | some c =>
      refine ⟨some (strLt t c),
        decide (mssql.compareValues (.jstr c) (.jstr t) > 0), ?_, ?_, ?_⟩
      · have h1 : pgEvalSQL (.fgt ⟨"column", contentColumn, path⟩ (.jstr t)) r
            = .ok (r.content.map fun s => strLt t s) := rfl
        rw [h1, hc]
        rfl
      · simp only [mssql.matchesFilter]
        rw [rfv_content contentColumn path r (by decide), bindE_ok, hc]
        rfl
      · rw [cmp_str_gt]
        simp

theorem pg_agree_flt_col (name : String) (path : List String) (t : String)
    (r : Record) (hcol : pgColOK name = true) :
    (∀ st : PGState, ∃ out,
      pgCompileFilter postgres.filterConfig
        (.flt ⟨"column", name, path⟩ (.jstr t)) st = .ok out)
    ∧ ∃ v b, pgEvalSQL (.flt ⟨"column", name, path⟩ (.jstr t)) r = .ok v ∧
        mssql.matchesFilter (.flt ⟨"column", name, path⟩ (.jstr t)) r = .ok b ∧
        (v = some true ↔ b = true) := by
  rcases pgColOK_cases name hcol with rfl | rfl
  · refine ⟨fun st => ⟨_, rfl⟩,
      some (strLt r.id t),
      decide (mssql.compareValues (.jstr r.id) (.jstr t) < 0), rfl, rfl, ?_⟩
    rw [cmp_str_lt]
    simp
  · refine ⟨fun st => ⟨_, rfl⟩, ?_⟩
    cases hc : r.content with
    | none =>
      refine ⟨none, false, ?_, ?_, by simp⟩
      · have h1 : pgEvalSQL (.flt ⟨"column", contentColumn, path⟩ (.jstr t)) r
            = .ok (r.content.map fun s => strLt s t) := rfl
        rw [h1, hc]
        rfl
      · simp only [mssql.matchesFilter]
        rw [rfv_content contentColumn path r (by decide), bindE_ok, hc]
        rfl
    | some c =>
      refine ⟨some (strLt c t),
        decide (mssql.compareValues (.jstr c) (.jstr t) < 0), ?_, ?_, ?_⟩
      · have h1 : pgEvalSQL (.flt ⟨"column", contentColumn, path⟩ (.jstr t)) r
            = .ok (r.content.map fun s => strLt s t) := rfl
        rw [h1, hc]
        rfl
      · simp only [mssql.matchesFilter]
        rw [rfv_content contentColumn path r (by decide), bindE_ok, hc]
        rfl
      · rw [cmp_str_lt]
        simp

theorem pg_agree_fex_col (name : String) (path : List String)
    (r : Record) (hcol : pgColOK name = true) :
    (∀ st : PGState, ∃ out,
      pgCompileFilter postgres.filterConfig
        (.fex ⟨"column", name, path⟩) st = .ok out)
    ∧ ∃ v b, pgEvalSQL (.fex ⟨"column", name, path⟩) r = .ok v ∧
        mssql.matchesFilter (.fex ⟨"column", name, path⟩) r = .ok b ∧
        (v = some true ↔ b = true) := by
  rcases pgColOK_cases name hcol with rfl | rfl
  · exact ⟨fun st => ⟨_, rfl⟩, some true, true, rfl, rfl, by simp⟩
  · refine ⟨fun st => ⟨_, rfl⟩, ?_⟩
    cases hc : r.content with
    | none =>
      refine ⟨some false, false, ?_, ?_, by simp⟩
      · have h1 : pgEvalSQL (.fex ⟨"column", contentColumn, path⟩) r
            = .ok (some r.content.isSome) := rfl
        rw [h1, hc]
        rfl
      · simp only [mssql.matchesFilter]
        rw [rfv_content contentColumn path r (by decide), bindE_ok, hc]
        rfl
    | some c =>
      refine ⟨some true, true, ?_, ?_, by simp⟩
      · have h1 : pgEvalSQL (.fex ⟨"column", contentColumn, path⟩) r
            = .ok (some r.content.isSome) := rfl
        rw [h1, hc]
        rfl
      · simp only [mssql.matchesFilter]
        rw [rfv_content contentColumn path r (by decide), bindE_ok, hc]
        rfl

theorem pg_agree_fex_meta (name : String) (path : List String)
    (r : Record) (hne : path ≠ []) (hsegs : path.all pgSegOK = true) :
    (∀ st : PGState, ∃ out,
      pgCompileFilter postgres.filterConfig
        (.fex ⟨"metadata", name, path⟩) st = .ok out)
    ∧ ∃ v b, pgEvalSQL (.fex ⟨"metadata", name, path⟩) r = .ok v ∧
        mssql.matchesFilter (.fex ⟨"metadata", name, path⟩) r = .ok b ∧
        (v = some true ↔ b = true) := by
  cases path with
  | nil => exact absurd rfl hne
  | cons s rest =>
    refine ⟨fun st => ⟨_, rfl⟩, ?_⟩
    have h1 : pgEvalSQL (.fex ⟨"metadata", name, s :: rest⟩) r
        = .ok (some (pgNav (storedMetadata r) (s :: rest)).isSome) := rfl
    cases hm : r.metadata with
    | none =>
      refine ⟨some false, false, ?_, ?_, by simp⟩
      · rw [h1, storedMetadata_none r hm]
        rfl
      · simp only [mssql.matchesFilter]
        rw [rfv_meta_none name (s :: rest) r (List.cons_ne_nil s rest) hm,
          bindE_ok]
        rfl
    | some m =>
      refine ⟨some (pgNav (.jobj m) (s :: rest)).isSome,
        (pgNav (.jobj m) (s :: rest)).isSome, ?_, ?_, by simp⟩
      · rw [h1, storedMetadata_some r m hm]
      · simp only [mssql.matchesFilter]
        rw [rfv_meta_some name (s :: rest) r m (List.cons_ne_nil s rest) hm,
          metadataWalk_pgNav (s :: rest) (.jobj m) hsegs, bindE_ok]

theorem not_isEmpty_ne {α : Type} (l : List α) (h : (!l.isEmpty) = true) :
    l ≠ [] := by
  cases l
  · simp at h
  · exact List.cons_ne_nil _ _

theorem pgSafe_cases (f : Filter) (h : pgSafe f = true) :
    (∃ name path t, f = .feq ⟨"column", name, path⟩ (.jstr t) ∧
      pgColOK name = true) ∨
    (∃ name path value, f = .feq ⟨"metadata", name, path⟩ value ∧
      path ≠ [] ∧ path.all pgSegOK = true) ∨
    (∃ name path v0 vs, f = .fin ⟨"column", name, path⟩ (v0 :: vs) ∧
      pgColOK name = true ∧ (v0 :: vs).all isStr = true) ∨
    (∃ name path v0 vs, f = .fin ⟨"metadata", name, path⟩ (v0 :: vs) ∧
      path ≠ [] ∧ path.all pgSegOK = true) ∨
    (∃ name path t, f = .fgt ⟨"column", name, path⟩ (.jstr t) ∧
      pgColOK name = true) ∨
    (∃ name path t, f = .flt ⟨"column", name, path⟩ (.jstr t) ∧
      pgColOK name = true) ∨
    (∃ name path, f = .fex ⟨"column", name, path⟩ ∧ pgColOK name = true) ∨
    (∃ name path, f = .fex ⟨"metadata", name, path⟩ ∧
      path ≠ [] ∧ path.all pgSegOK = true) ∨
    (∃ children, f = .fand children ∧ children ≠ [] ∧
      pgSafeList children = true) ∨
    (∃ children, f = .forl children ∧ children ≠ [] ∧
      pgSafeList children = true) := by
  rw [pgSafe.eq_def] at h
  split at h
  · rw [Bool.and_eq_true] at h
    obtain ⟨t, rfl⟩ := isStr_cases _ h.2
    exact Or.inl ⟨_, _, t, rfl, h.1⟩
  · rw [Bool.and_eq_true, Bool.and_eq_true] at h
    exact Or.inr (Or.inl ⟨_, _, _, rfl, not_isEmpty_ne _ h.1.1, h.1.2⟩)
  · rw [Bool.and_eq_true, Bool.and_eq_true] at h
    obtain ⟨v0, vs, rfl⟩ := List.exists_cons_of_ne_nil (not_isEmpty_ne _ h.1.2)
    exact Or.inr (Or.inr (Or.inl ⟨_, _, v0, vs, rfl, h.1.1, h.2⟩))
  · rw [Bool.and_eq_true, Bool.and_eq_true, Bool.and_eq_true] at h
    obtain ⟨v0, vs, rfl⟩ :=
      List.exists_cons_of_ne_nil (not_isEmpty_ne _ h.1.2)
    exact Or.inr (Or.inr (Or.inr (Or.inl ⟨_, _, v0, vs, rfl,
      not_isEmpty_ne _ h.1.1.1, h.1.1.2⟩)))
  · rw [Bool.and_eq_true] at h
    obtain ⟨t, rfl⟩ := isStr_cases _ h.2
    exact Or.inr (Or.inr (Or.inr (Or.inr (Or.inl ⟨_, _, t, rfl, h.1⟩))))
  · rw [Bool.and_eq_true] at h
    obtain ⟨t, rfl⟩ := isStr_cases _ h.2
    exact Or.inr (Or.inr (Or.inr (Or.inr (Or.inr (Or.inl
      ⟨_, _, t, rfl, h.1⟩)))))
  · exact Or.inr (Or.inr (Or.inr (Or.inr (Or.inr (Or.inr (Or.inl
      ⟨_, _, rfl, h⟩))))))
  · rw [Bool.and_eq_true] at h
    exact Or.inr (Or.inr (Or.inr (Or.inr (Or.inr (Or.inr (Or.inr (Or.inl
      ⟨_, _, rfl, not_isEmpty_ne _ h.1, h.2⟩)))))))
  · rw [Bool.and_eq_true] at h
    exact Or.inr (Or.inr (Or.inr (Or.inr (Or.inr (Or.inr (Or.inr (Or.inr
      (Or.inl ⟨_, rfl, not_isEmpty_ne _ h.1, h.2⟩))))))))
  · rw [Bool.and_eq_true] at h
    exact Or.inr (Or.inr (Or.inr (Or.inr (Or.inr (Or.inr (Or.inr (Or.inr
      (Or.inr ⟨_, rfl, not_isEmpty_ne _ h.1, h.2⟩))))))))
  · exact absurd h (by simp)

theorem pg_agree_fin_col_any (name : String) (path : List String)
    (values : List JVal) (r : Record)
    (hsafe : (pgColOK name && !values.isEmpty && values.all isStr) = true) :
    (∀ st : PGState, ∃ out,
      pgCompileFilter postgres.filterConfig
        (.fin ⟨"column", name, path⟩ values) st = .ok out)
    ∧ ∃ v b, pgEvalSQL (.fin ⟨"column", name, path⟩ values) r = .ok v ∧
        mssql.matchesFilter (.fin ⟨"column", name, path⟩ values) r = .ok b ∧
        (v = some true ↔ b = true) := by
  rw [Bool.and_eq_true, Bool.and_eq_true] at hsafe
  obtain ⟨v0, vs, rfl⟩ :=
    List.exists_cons_of_ne_nil (not_isEmpty_ne _ hsafe.1.2)
  exact pg_agree_fin_col name path v0 vs r hsafe.1.1 hsafe.2

theorem pg_agree_fin_meta_any (name : String) (path : List String)
    (values : List JVal) (r : Record)
    (hsafe : (!path.isEmpty && path.all pgSegOK && !values.isEmpty &&
      values.all isScalar) = true) :
    (∀ st : PGState, ∃ out,
      pgCompileFilter postgres.filterConfig
        (.fin ⟨"metadata", name, path⟩ values) st = .ok out)
    ∧ ∃ v b, pgEvalSQL (.fin ⟨"metadata", name, path⟩ values) r = .ok v ∧
        mssql.matchesFilter (.fin ⟨"metadata", name, path⟩ values) r = .ok b ∧
        (v = some true ↔ b = true) := by
  rw [Bool.and_eq_true, Bool.and_eq_true, Bool.and_eq_true] at hsafe
  obtain ⟨v0, vs, rfl⟩ :=
    List.exists_cons_of_ne_nil (not_isEmpty_ne _ hsafe.1.2)
  exact pg_agree_fin_meta name path v0 vs r
    (not_isEmpty_ne _ hsafe.1.1.1) hsafe.1.1.2

mutual

theorem pg_agree (f : Filter) (r : Record) (hsafe : pgSafe f = true) :
    (∀ st : PGState, ∃ out,
      pgCompileFilter postgres.filterConfig f st = .ok out)
    ∧ ∃ v b, pgEvalSQL f r = .ok v ∧ mssql.matchesFilter f r = .ok b ∧
        (v = some true ↔ b = true) := by
  rcases pgSafe_cases f hsafe with
    ⟨name, path, t, rfl, hcol⟩ | ⟨name, path, value, rfl, hne, hsegs⟩ |
    ⟨name, path, v0, vs, rfl, hcol, hstr⟩ |
    ⟨name, path, v0, vs, rfl, hne, hsegs⟩ |
    ⟨name, path, t, rfl, hcol⟩ | ⟨name, path, t, rfl, hcol⟩ |
    ⟨name, path, rfl, hcol⟩ | ⟨name, path, rfl, hne, hsegs⟩ |
    ⟨children, rfl, hne, hlist⟩ | ⟨children, rfl, hne, hlist⟩
  · exact pg_agree_feq_col name path t r hcol
  · exact pg_agree_feq_meta name path value r hne hsegs
  · exact pg_agree_fin_col name path v0 vs r hcol hstr
  · exact pg_agree_fin_meta name path v0 vs r hne hsegs
  · exact pg_agree_fgt_col name path t r hcol
  · exact pg_agree_flt_col name path t r hcol
  · exact pg_agree_fex_col name path r hcol
  · exact pg_agree_fex_meta name path r hne hsegs
  · have hne' : ¬(children.isEmpty = true) := by
      cases children
      · exact absurd rfl hne
      · simp
    obtain ⟨hcomp, v, b, hev, hmf, hiff⟩ :=
      pg_agree_list_and children r hlist
    constructor
    · intro st
      obtain ⟨⟨parts, st2⟩, hc⟩ := hcomp st "AND"
      refine ⟨("(" ++ String.intercalate " AND " parts ++ ")", st2), ?_⟩
      simp only [pgCompileFilter]
      rw [if_neg hne', hc, bindE_ok]
    · refine ⟨v, b, ?_, ?_, hiff⟩
      · simp only [pgEvalSQL]
        rw [if_neg hne']
        exact hev
      · simp only [mssql.matchesFilter]
        rw [if_neg hne']
        exact hmf
  · have hne' : ¬(children.isEmpty = true) := by
      cases children
      · exact absurd rfl hne
      · simp
    obtain ⟨hcomp, v, b, hev, hmf, hiff⟩ :=
      pg_agree_list_or children r hlist
    constructor
    · intro st
      obtain ⟨⟨parts, st2⟩, hc⟩ := hcomp st "OR"
      refine ⟨("(" ++ String.intercalate " OR " parts ++ ")", st2), ?_⟩
      simp only [pgCompileFilter]
      rw [if_neg hne', hc, bindE_ok]
    · refine ⟨v, b, ?_, ?_, hiff⟩
      · simp only [pgEvalSQL]
        rw [if_neg hne']
        exact hev
      · simp only [mssql.matchesFilter]
        rw [if_neg hne']
        exact hmf

theorem pg_agree_list_and (children : List Filter) (r : Record)
    (hsafe : pgSafeList children = true) :
    (∀ (st : PGState) (op : String), ∃ out,
        pgCompileList postgres.filterConfig op children st = .ok out)
    ∧ ∃ v b, pgEvalList true children r = .ok v ∧
        mssql.matchesAll children r = .ok b ∧ (v = some true ↔ b = true) := by
  cases children with
  | nil => exact ⟨fun st op => ⟨_, rfl⟩, some true, true, rfl, rfl, by simp⟩
  | cons child rest =>
    rw [show pgSafeList (child :: rest)
        = (pgSafe child && pgSafeList rest) from rfl] at hsafe
    rw [Bool.and_eq_true] at hsafe
    have hnn : child ≠ .fnil := fun hcontra => by
      rw [hcontra, show pgSafe .fnil = false from rfl] at hsafe
      exact Bool.false_ne_true hsafe.1
    obtain ⟨hcomp₁, v₁, b₁, hev₁, hmf₁, hiff₁⟩ := pg_agree child r hsafe.1
    obtain ⟨hcomp₂, v₂, b₂, hev₂, hall₂, hiff₂⟩ :=
      pg_agree_list_and rest r hsafe.2
    refine ⟨?_, triAnd v₁ v₂, b₁ && b₂, ?_, ?_, ?_⟩
    · intro st op
      obtain ⟨⟨s1, st2⟩, hc1⟩ := hcomp₁ st
      obtain ⟨⟨parts, st3⟩, hc2⟩ := hcomp₂ st2 op
      have heq : pgCompileList postgres.filterConfig op (child :: rest) st
          = (do
              let (childSQL, st2') ←
                pgCompileFilter postgres.filterConfig child st
              let (parts', st3') ←
                pgCompileList postgres.filterConfig op rest st2'
              Except.ok (childSQL :: parts', st3')) := by
        cases child
        · exact absurd rfl hnn
        all_goals rfl
      refine ⟨(s1 :: parts, st3), ?_⟩
      rw [heq, hc1, bindE_ok]
      show (do
          let (parts', st3') ← pgCompileList postgres.filterConfig op rest st2
          Except.ok (s1 :: parts', st3')) = Except.ok (s1 :: parts, st3)
      rw [hc2, bindE_ok]
    · have heq : pgEvalList true (child :: rest) r
          = (do
              let v ← pgEvalSQL child r
              let w ← pgEvalList true rest r
              Except.ok (triAnd v w)) := by
        cases child
        · exact absurd rfl hnn
        all_goals rfl
      rw [heq, hev₁, bindE_ok, hev₂, bindE_ok]
    · have heq : mssql.matchesAll (child :: rest) r
          = (do
              let ok ← mssql.matchesFilter child r
              if ok then mssql.matchesAll rest r else Except.ok false) := by
        cases child
        · exact absurd rfl hnn
        all_goals rfl
      rw [heq, hmf₁, bindE_ok]
      cases b₁ with
      | true => rw [if_pos rfl, hall₂, Bool.true_and]
      | false => rw [if_neg (by decide), Bool.false_and]
    · rw [triAnd_some_true, hiff₁, hiff₂, Bool.and_eq_true]

theorem pg_agree_list_or (children : List Filter) (r : Record)
    (hsafe : pgSafeList children = true) :
    (∀ (st : PGState) (op : String), ∃ out,
        pgCompileList postgres.filterConfig op children st = .ok out)
    ∧ ∃ v b, pgEvalList false children r = .ok v ∧
        mssql.matchesAny children r = .ok b ∧ (v = some true ↔ b = true) := by
  cases children with
  | nil => exact ⟨fun st op => ⟨_, rfl⟩, some false, false, rfl, rfl, by simp⟩
  | cons child rest =>
    rw [show pgSafeList (child :: rest)
        = (pgSafe child && pgSafeList rest) from rfl] at hsafe
    rw [Bool.and_eq_true] at hsafe
    have hnn : child ≠ .fnil := fun hcontra => by
      rw [hcontra, show pgSafe .fnil = false from rfl] at hsafe
      exact Bool.false_ne_true hsafe.1
    obtain ⟨hcomp₁, v₁, b₁, hev₁, hmf₁, hiff₁⟩ := pg_agree child r hsafe.1
    obtain ⟨hcomp₂, v₂, b₂, hev₂, hany₂, hiff₂⟩ :=
      pg_agree_list_or rest r hsafe.2
    refine ⟨?_, triOr v₁ v₂, b₁ || b₂, ?_, ?_, ?_⟩
    · intro st op
      obtain ⟨⟨s1, st2⟩, hc1⟩ := hcomp₁ st
      obtain ⟨⟨parts, st3⟩, hc2⟩ := hcomp₂ st2 op
      have heq : pgCompileList postgres.filterConfig op (child :: rest) st
          = (do
              let (childSQL, st2') ←
                pgCompileFilter postgres.filterConfig child st
              let (parts', st3') ←
                pgCompileList postgres.filterConfig op rest st2'
              Except.ok (childSQL :: parts', st3')) := by
        cases child
        · exact absurd rfl hnn
        all_goals rfl
      refine ⟨(s1 :: parts, st3), ?_⟩
      rw [heq, hc1, bindE_ok]
      show (do
          let (parts', st3') ← pgCompileList postgres.filterConfig op rest st2
          Except.ok (s1 :: parts', st3')) = Except.ok (s1 :: parts, st3)
      rw [hc2, bindE_ok]
    · have heq : pgEvalList false (child :: rest) r
          = (do
              let v ← pgEvalSQL child r
              let w ← pgEvalList false rest r
              Except.ok (triOr v w)) := by
        cases child
        · exact absurd rfl hnn
        all_goals rfl
      rw [heq, hev₁, bindE_ok, hev₂, bindE_ok]
    · have heq : mssql.matchesAny (child :: rest) r
          = (do
              let ok ← mssql.matchesFilter child r
              if ok then Except.ok true else mssql.matchesAny rest r) := by
        cases child
        · exact absurd rfl hnn
        all_goals rfl
      rw [heq, hmf₁, bindE_ok]
      cases b₁ with
      | true => rw [if_pos rfl, Bool.true_or]
      | false => rw [if_neg (by decide), hany₂, Bool.false_or]
    · rw [triOr_some_true, hiff₁, hiff₂, Bool.or_eq_true]

end

theorem msInParts_ok : ∀ (values : List JVal) (st : mssql.MSState),
    values.all isStr = true →
    ∃ parts st2, mssql.msCompileInColumnParts values st = .ok (parts, st2)
  | [], st, _ => ⟨[], st, rfl⟩
  | v :: rest, st, h => by
    rw [List.all_cons, Bool.and_eq_true] at h
    obtain ⟨s, rfl⟩ := isStr_cases v h.1
    obtain ⟨parts, st3, hp⟩ :=
      msInParts_ok rest ⟨st.args ++ [.v (.jstr s)], st.nextArg + 1⟩ h.2
    refine ⟨("@p" ++ toString st.nextArg) :: parts, st3, ?_⟩
    show (mssql.msCompileInColumnParts rest
        ⟨st.args ++ [.v (.jstr s)], st.nextArg + 1⟩).map
        (fun x => (("@p" ++ toString st.nextArg) :: x.1, x.2))
      = .ok (("@p" ++ toString st.nextArg) :: parts, st3)
    rw [hp]
    rfl

theorem ms_agree_feq_col (name : String) (path : List String) (t : String)
    (r : Record) (hcol : msColOK name = true) :
    (∀ st : mssql.MSState, ∃ out,
      mssql.msCompileFilter (.feq ⟨"column", name, path⟩ (.jstr t)) st = .ok out)
    ∧ ∃ v b, mssql.msEvalSQL (.feq ⟨"column", name, path⟩ (.jstr t)) r = .ok v ∧
        mssql.matchesFilter (.feq ⟨"column", name, path⟩ (.jstr t)) r = .ok b ∧
        (v = some true ↔ b = true) := by
  rcases msColOK_cases name hcol with hid | hcont
  · constructor
    · intro st
      refine ⟨("(" ++ mssql.quoteIdent idColumn ++ " = " ++
          ("@p" ++ toString st.nextArg) ++ ")",
          ⟨st.args ++ [.v (.jstr t)], st.nextArg + 1⟩), ?_⟩
      simp only [mssql.msCompileFilter]
      unfold mssql.msCompileEq
      rw [msResolveField_id name path hid, bindE_ok]
      all_goals rfl
    · refine ⟨some (decide (r.id = t)), decide (JVal.jstr r.id = JVal.jstr t),
        ?_, ?_, by simp⟩
      · simp only [mssql.msEvalSQL]
        rw [msResolveSem_id name path hid, bindE_ok]
        rfl
      · simp only [mssql.matchesFilter]
        rw [rfv_id name path r hid, bindE_ok, ← valuesEqual_eq]
        all_goals rfl
  · constructor
    · intro st
      refine ⟨("(" ++ mssql.quoteIdent contentColumn ++ " = " ++
          ("@p" ++ toString st.nextArg) ++ ")",
          ⟨st.args ++ [.v (.jstr t)], st.nextArg + 1⟩), ?_⟩
      simp only [mssql.msCompileFilter]
      unfold mssql.msCompileEq
      rw [msResolveField_content name path hcont, bindE_ok]
      all_goals rfl
    · have h1 : mssql.msEvalSQL (.feq ⟨"column", name, path⟩ (.jstr t)) r
          = .ok (r.content.map fun s => decide (s = t)) := by
        simp only [mssql.msEvalSQL]
        rw [msResolveSem_content name path hcont, bindE_ok]
        rfl
      cases hc : r.content with
      | none =>
        refine ⟨none, false, ?_, ?_, by simp⟩
        · rw [h1, hc]
          rfl
        · simp only [mssql.matchesFilter]
          rw [rfv_content name path r hcont, bindE_ok, hc]
          all_goals rfl
      | some c =>
        refine ⟨some (decide (c = t)), decide (JVal.jstr c = JVal.jstr t),
          ?_, ?_, by simp⟩
        · rw [h1, hc]
          rfl
        · simp only [mssql.matchesFilter]
          rw [rfv_content name path r hcont, bindE_ok, hc, ← valuesEqual_eq]
          all_goals rfl

theorem ms_agree_fin_col (name : String) (path : List String)
    (v0 : JVal) (vs : List JVal) (r : Record) (hcol : msColOK name = true)
    (hstr : (v0 :: vs).all isStr = true) :
    (∀ st : mssql.MSState, ∃ out,
      mssql.msCompileFilter (.fin ⟨"column", name, path⟩ (v0 :: vs)) st
        = .ok out)
    ∧ ∃ v b,
        mssql.msEvalSQL (.fin ⟨"column", name, path⟩ (v0 :: vs)) r = .ok v ∧
        mssql.matchesFilter (.fin ⟨"column", name, path⟩ (v0 :: vs)) r
          = .ok b ∧
        (v = some true ↔ b = true) := by
  have hni : ¬((v0 :: vs).isEmpty = true) := by simp
  rcases msColOK_cases name hcol with hid | hcont
  · constructor
    · intro st
      obtain ⟨parts, st2, hp⟩ := msInParts_ok (v0 :: vs) st hstr
      refine ⟨("(" ++ mssql.quoteIdent idColumn ++ " IN (" ++
          String.intercalate ", " parts ++ "))", st2), ?_⟩
      simp only [mssql.msCompileFilter]
      unfold mssql.msCompileIn
      rw [msResolveField_id name path hid, bindE_ok]
      simp only []
      rw [hp, bindE_ok]
      all_goals rfl
    · refine ⟨some ((v0 :: vs).any fun v => match v with
          | JVal.jstr t => decide (r.id = t) | _ => false),
        (v0 :: vs).any fun value => mssql.valuesEqual (.jstr r.id) value,
        ?_, ?_, ?_⟩
      · simp only [mssql.msEvalSQL]
        rw [msResolveSem_id name path hid, bindE_ok]
        simp only []
        rw [isStr_fn_eq, if_pos hstr]
        all_goals rfl
      · simp only [mssql.matchesFilter]
        rw [if_neg hni, rfv_id name path r hid, bindE_ok]
        all_goals rfl
      · rw [any_str_eq r.id (v0 :: vs) hstr]
        simp
  · constructor
    · intro st
      obtain ⟨parts, st2, hp⟩ := msInParts_ok (v0 :: vs) st hstr
      refine ⟨("(" ++ mssql.quoteIdent contentColumn ++ " IN (" ++
          String.intercalate ", " parts ++ "))", st2), ?_⟩
      simp only [mssql.msCompileFilter]
      unfold mssql.msCompileIn
      rw [msResolveField_content name path hcont, bindE_ok]
      simp only []
      rw [hp, bindE_ok]
      all_goals rfl
    · have h1 : mssql.msEvalSQL (.fin ⟨"column", name, path⟩ (v0 :: vs)) r
          = .ok (r.content.map fun s => (v0 :: vs).any fun v => match v with
              | JVal.jstr t => decide (s = t) | _ => false) := by
        simp only [mssql.msEvalSQL]
        rw [msResolveSem_content name path hcont, bindE_ok]
        simp only []
        rw [isStr_fn_eq, if_pos hstr]
        all_goals rfl
      cases hc : r.content with
      | none =>
        refine ⟨none, false, ?_, ?_, by simp⟩
        · rw [h1, hc]
          all_goals rfl
        · simp only [mssql.matchesFilter]
          rw [if_neg hni, rfv_content name path r hcont, bindE_ok, hc]
          all_goals rfl
      | some c =>
        refine ⟨some ((v0 :: vs).any fun v => match v with
            | JVal.jstr t => decide (c = t) | _ => false),
          (v0 :: vs).any fun value => mssql.valuesEqual (.jstr c) value,
          ?_, ?_, ?_⟩
        · rw [h1, hc]
          all_goals rfl
        · simp only [mssql.matchesFilter]
          rw [if_neg hni, rfv_content name path r hcont, bindE_ok, hc]
          all_goals rfl
        · rw [any_str_eq c (v0 :: vs) hstr]
          simp

theorem ms_agree_fgt_col (name : String) (path : List String) (t : String)
    (r : Record) (hcol : msColOK name = true) :
    (∀ st : mssql.MSState, ∃ out,
      mssql.msCompileFilter (.fgt ⟨"column", name, path⟩ (.jstr t)) st
        = .ok out)
    ∧ ∃ v b,
        mssql.msEvalSQL (.fgt ⟨"column", name, path⟩ (.jstr t)) r = .ok v ∧
        mssql.matchesFilter (.fgt ⟨"column", name, path⟩ (.jstr t)) r
          = .ok b ∧
        (v = some true ↔ b = true) := by
  rcases msColOK_cases name hcol with hid | hcont
  · constructor
    · intro st
      refine ⟨("(" ++ mssql.quoteIdent idColumn ++ " > " ++
          ("@p" ++ toString st.nextArg) ++ ")",
          ⟨st.args ++ [.v (.jstr t)], st.nextArg + 1⟩), ?_⟩
      simp only [mssql.msCompileFilter]
      unfold mssql.msCompileGt
      rw [msResolveField_id name path hid, bindE_ok]
      all_goals rfl
    · refine ⟨some (strLt t r.id),
        decide (mssql.compareValues (.jstr r.id) (.jstr t) > 0), ?_, ?_, ?_⟩
      · simp only [mssql.msEvalSQL]
        unfold mssql.msEvalCompare
        rw [msResolveSem_id name path hid, bindE_ok]
        all_goals rfl
      · simp only [mssql.matchesFilter]
        rw [rfv_id name path r hid, bindE_ok]
        all_goals rfl
      · rw [cmp_str_gt]
        simp
  · constructor
    · intro st
      refine ⟨("(" ++ mssql.quoteIdent contentColumn ++ " > " ++
          ("@p" ++ toString st.nextArg) ++ ")",
          ⟨st.args ++ [.v (.jstr t)], st.nextArg + 1⟩), ?_⟩
      simp only [mssql.msCompileFilter]
      unfold mssql.msCompileGt
      rw [msResolveField_content name path hcont, bindE_ok]
      all_goals rfl
    · have h1 : mssql.msEvalSQL (.fgt ⟨"column", name, path⟩ (.jstr t)) r
          = .ok (r.content.map fun s => strLt t s) := by
        simp only [mssql.msEvalSQL]
        unfold mssql.msEvalCompare
        rw [msResolveSem_content name path hcont, bindE_ok]
        all_goals rfl
      cases hc : r.content with
      | none =>
        refine ⟨none, false, ?_, ?_, by simp⟩
        · rw [h1, hc]
          all_goals rfl
        · simp only [mssql.matchesFilter]
          rw [rfv_content name path r hcont, bindE_ok, hc]
          all_goals rfl
      | some c =>
        refine ⟨some (strLt t c),
          decide (mssql.compareValues (.jstr c) (.jstr t) > 0), ?_, ?_, ?_⟩
        · rw [h1, hc]
          all_goals rfl
        · simp only [mssql.matchesFilter]
          rw [rfv_content name path r hcont, bindE_ok, hc]
          all_goals rfl
        · rw [cmp_str_gt]
          simp

theorem ms_agree_flt_col (name : String) (path : List String) (t : String)
    (r : Record) (hcol : msColOK name = true) :
    (∀ st : mssql.MSState, ∃ out,
      mssql.msCompileFilter (.flt ⟨"column", name, path⟩ (.jstr t)) st
        = .ok out)
    ∧ ∃ v b,
        mssql.msEvalSQL (.flt ⟨"column", name, path⟩ (.jstr t)) r = .ok v ∧
        mssql.matchesFilter (.flt ⟨"column", name, path⟩ (.jstr t)) r
          = .ok b ∧
        (v = some true ↔ b = true) := by
  rcases msColOK_cases name hcol with hid | hcont
  · constructor
    · intro st
      refine ⟨("(" ++ mssql.quoteIdent idColumn ++ " < " ++
          ("@p" ++ toString st.nextArg) ++ ")",
          ⟨st.args ++ [.v (.jstr t)], st.nextArg + 1⟩), ?_⟩
      simp only [mssql.msCompileFilter]
      unfold mssql.msCompileLt
      rw [msResolveField_id name path hid, bindE_ok]
      all_goals rfl
    · refine ⟨some (strLt r.id t),
        decide (mssql.compareValues (.jstr r.id) (.jstr t) < 0), ?_, ?_, ?_⟩
      · simp only [mssql.msEvalSQL]
        unfold mssql.msEvalCompare
        rw [msResolveSem_id name path hid, bindE_ok]
        all_goals rfl
      · simp only [mssql.matchesFilter]
        rw [rfv_id name path r hid, bindE_ok]
        all_goals rfl
      · rw [cmp_str_lt]
        simp
  · constructor
    · intro st
      refine ⟨("(" ++ mssql.quoteIdent contentColumn ++ " < " ++
          ("@p" ++ toString st.nextArg) ++ ")",
          ⟨st.args ++ [.v (.jstr t)], st.nextArg + 1⟩), ?_⟩
      simp only [mssql.msCompileFilter]
      unfold mssql.msCompileLt
      rw [msResolveField_content name path hcont, bindE_ok]
      all_goals rfl
    · have h1 : mssql.msEvalSQL (.flt ⟨"column", name, path⟩ (.jstr t)) r
          = .ok (r.content.map fun s => strLt s t) := by
        simp only [mssql.msEvalSQL]
        unfold mssql.msEvalCompare
        rw [msResolveSem_content name path hcont, bindE_ok]
        all_goals rfl
      cases hc : r.content with
      | none =>
        refine ⟨none, false, ?_, ?_, by simp⟩
        · rw [h1, hc]
          all_goals rfl
        · simp only [mssql.matchesFilter]
          rw [rfv_content name path r hcont, bindE_ok, hc]
          all_goals rfl
      | some c =>
        refine ⟨some (strLt c t),
          decide (mssql.compareValues (.jstr c) (.jstr t) < 0), ?_, ?_, ?_⟩
        · rw [h1, hc]
          all_goals rfl
        · simp only [mssql.matchesFilter]
          rw [rfv_content name path r hcont, bindE_ok, hc]
          all_goals rfl
        · rw [cmp_str_lt]
          simp

theorem ms_agree_fex_col (name : String) (path : List String)
    (r : Record) (hcol : msColOK name = true) :
    (∀ st : mssql.MSState, ∃ out,
      mssql.msCompileFilter (.fex ⟨"column", name, path⟩) st = .ok out)
    ∧ ∃ v b,
        mssql.msEvalSQL (.fex ⟨"column", name, path⟩) r = .ok v ∧
        mssql.matchesFilter (.fex ⟨"column", name, path⟩) r = .ok b ∧
        (v = some true ↔ b = true) := by
  rcases msColOK_cases name hcol with hid | hcont
  · constructor
    · intro st
      refine ⟨("(" ++ mssql.quoteIdent idColumn ++ " IS NOT NULL)", st), ?_⟩
      simp only [mssql.msCompileFilter]
      unfold mssql.msCompileExists
      rw [msResolveField_id name path hid, bindE_ok]
      all_goals rfl
    · refine ⟨some true, true, ?_, ?_, by simp⟩
      · simp only [mssql.msEvalSQL]
        rw [msResolveSem_id name path hid, bindE_ok]
        all_goals rfl
      · simp only [mssql.matchesFilter]
        rw [rfv_id name path r hid, bindE_ok]
        all_goals rfl
  · constructor
    · intro st
      refine ⟨("(" ++ mssql.quoteIdent contentColumn ++ " IS NOT NULL)", st),
        ?_⟩
      simp only [mssql.msCompileFilter]
      unfold mssql.msCompileExists
      rw [msResolveField_content name path hcont, bindE_ok]
      all_goals rfl
    · have h1 : mssql.msEvalSQL (.fex ⟨"column", name, path⟩) r
          = .ok (some r.content.isSome) := by
        simp only [mssql.msEvalSQL]
        rw [msResolveSem_content name path hcont, bindE_ok]
        all_goals rfl
      cases hc : r.content with
      | none =>
        refine ⟨some false, false, ?_, ?_, by simp⟩
        · rw [h1, hc]
          all_goals rfl
        · simp only [mssql.matchesFilter]
          rw [rfv_content name path r hcont, bindE_ok, hc]
          all_goals rfl
      | some c =>
        refine ⟨some true, true, ?_, ?_, by simp⟩
        · rw [h1, hc]
          all_goals rfl
        · simp only [mssql.matchesFilter]
          rw [rfv_content name path r hcont, bindE_ok, hc]
          all_goals rfl

theorem ms_agree_fex_meta (name : String) (path : List String)
    (r : Record) (hne : path ≠ [])
    (hall : (path.all fun s => goTrim s ≠ "") = true) :
    (∀ st : mssql.MSState, ∃ out,
      mssql.msCompileFilter (.fex ⟨"metadata", name, path⟩) st = .ok out)
    ∧ ∃ v b,
        mssql.msEvalSQL (.fex ⟨"metadata", name, path⟩) r = .ok v ∧
        mssql.matchesFilter (.fex ⟨"metadata", name, path⟩) r = .ok b ∧
        (v = some true ↔ b = true) := by
  cases path with
  | nil => exact absurd rfl hne
  | cons s rest =>
    constructor
    · intro st
      refine ⟨("(JSON_PATH_EXISTS(" ++ mssql.quoteIdent mssql.metadataColumn
          ++ ", " ++ ("@p" ++ toString st.nextArg) ++ ") = 1)",
          ⟨st.args ++
            [.v (.jstr (mssql.metadataPathLiteral ((s :: rest).map goTrim)))],
            st.nextArg + 1⟩), ?_⟩
      simp only [mssql.msCompileFilter]
      unfold mssql.msCompileExists
      rw [msResolveField_meta name (s :: rest) hall hne, bindE_ok]
      all_goals rfl
    · have h1 : mssql.msEvalSQL (.fex ⟨"metadata", name, s :: rest⟩) r
          = .ok (some (mssql.msNav (storedMetadata r)
              ((s :: rest).map goTrim)).isSome) := by
        simp only [mssql.msEvalSQL]
        rw [msResolveSem_meta name (s :: rest) hall hne, bindE_ok]
        all_goals rfl
      cases hm : r.metadata with
      | none =>
        refine ⟨some false, false, ?_, ?_, by simp⟩
        · rw [h1, storedMetadata_none r hm]
          all_goals rfl
        · simp only [mssql.matchesFilter]
          rw [rfv_meta_none name (s :: rest) r (List.cons_ne_nil s rest) hm,
            bindE_ok]
          all_goals rfl
      | some m =>
        refine ⟨some (mssql.msNav (.jobj m) ((s :: rest).map goTrim)).isSome,
          (mssql.msNav (.jobj m) ((s :: rest).map goTrim)).isSome,
          ?_, ?_, by simp⟩
        · rw [h1, storedMetadata_some r m hm]
        · simp only [mssql.matchesFilter]
          rw [rfv_meta_some name (s :: rest) r m (List.cons_ne_nil s rest) hm,
            metadataWalk_msNav (s :: rest) (.jobj m) hall, bindE_ok]
          all_goals rfl

theorem msSafe_cases (f : Filter) (h : msSafe f = true) :
    (∃ name path t, f = .feq ⟨"column", name, path⟩ (.jstr t) ∧
      msColOK name = true) ∨
    (∃ name path v0 vs, f = .fin ⟨"column", name, path⟩ (v0 :: vs) ∧
      msColOK name = true ∧ (v0 :: vs).all isStr = true) ∨
    (∃ name path t, f = .fgt ⟨"column", name, path⟩ (.jstr t) ∧
      msColOK name = true) ∨
    (∃ name path t, f = .flt ⟨"column", name, path⟩ (.jstr t) ∧
      msColOK name = true) ∨
    (∃ name path, f = .fex ⟨"column", name, path⟩ ∧ msColOK name = true) ∨
    (∃ name path, f = .fex ⟨"metadata", name, path⟩ ∧
      path ≠ [] ∧ (path.all fun s => goTrim s ≠ "") = true) ∨
    (∃ children, f = .fand children ∧ children ≠ [] ∧
      msSafeList children = true) ∨
    (∃ children, f = .forl children ∧ children ≠ [] ∧
      msSafeList children = true) := by
  rw [msSafe.eq_def] at h
  split at h
  · rw [Bool.and_eq_true] at h
    obtain ⟨t, rfl⟩ := isStr_cases _ h.2
    exact Or.inl ⟨_, _, t, rfl, h.1⟩
  · rw [Bool.and_eq_true, Bool.and_eq_true] at h
    obtain ⟨v0, vs, rfl⟩ := List.exists_cons_of_ne_nil (not_isEmpty_ne _ h.1.2)
    exact Or.inr (Or.inl ⟨_, _, v0, vs, rfl, h.1.1, h.2⟩)
  · rw [Bool.and_eq_true] at h
    obtain ⟨t, rfl⟩ := isStr_cases _ h.2
    exact Or.inr (Or.inr (Or.inl ⟨_, _, t, rfl, h.1⟩))
  · rw [Bool.and_eq_true] at h
    obtain ⟨t, rfl⟩ := isStr_cases _ h.2
    exact Or.inr (Or.inr (Or.inr (Or.inl ⟨_, _, t, rfl, h.1⟩)))
  · exact Or.inr (Or.inr (Or.inr (Or.inr (Or.inl ⟨_, _, rfl, h⟩))))
  · unfold msPathOK at h
    rw [Bool.and_eq_true] at h
    exact Or.inr (Or.inr (Or.inr (Or.inr (Or.inr (Or.inl
      ⟨_, _, rfl, not_isEmpty_ne _ h.1, h.2⟩)))))
  · rw [Bool.and_eq_true] at h
    exact Or.inr (Or.inr (Or.inr (Or.inr (Or.inr (Or.inr (Or.inl
      ⟨_, rfl, not_isEmpty_ne _ h.1, h.2⟩))))))
  · rw [Bool.and_eq_true] at h
    exact Or.inr (Or.inr (Or.inr (Or.inr (Or.inr (Or.inr (Or.inr
      ⟨_, rfl, not_isEmpty_ne _ h.1, h.2⟩))))))
  · exact absurd h (by simp)

mutual

theorem ms_agree (f : Filter) (r : Record) (hsafe : msSafe f = true) :
    (∀ st : mssql.MSState, ∃ out, mssql.msCompileFilter f st = .ok out)
    ∧ ∃ v b, mssql.msEvalSQL f r = .ok v ∧ mssql.matchesFilter f r = .ok b ∧
        (v = some true ↔ b = true) := by
  rcases msSafe_cases f hsafe with
    ⟨name, path, t, rfl, hcol⟩ |
    ⟨name, path, v0, vs, rfl, hcol, hstr⟩ |
    ⟨name, path, t, rfl, hcol⟩ | ⟨name, path, t, rfl, hcol⟩ |
    ⟨name, path, rfl, hcol⟩ | ⟨name, path, rfl, hne, hall⟩ |
    ⟨children, rfl, hne, hlist⟩ | ⟨children, rfl, hne, hlist⟩
  · exact ms_agree_feq_col name path t r hcol
  · exact ms_agree_fin_col name path v0 vs r hcol hstr
  · exact ms_agree_fgt_col name path t r hcol
  · exact ms_agree_flt_col name path t r hcol
  · exact ms_agree_fex_col name path r hcol
  · exact ms_agree_fex_meta name path r hne hall
  · have hne' : ¬(children.isEmpty = true) := by
      cases children
      · exact absurd rfl hne
      · simp
    obtain ⟨hcomp, v, b, hev, hmf, hiff⟩ :=
      ms_agree_list_and children r hlist
    constructor
    · intro st
      obtain ⟨⟨parts, st2⟩, hc⟩ := hcomp st "AND"
      refine ⟨("(" ++ String.intercalate " AND " parts ++ ")", st2), ?_⟩
      simp only [mssql.msCompileFilter]
      rw [if_neg hne', hc, bindE_ok]
    · refine ⟨v, b, ?_, ?_, hiff⟩
      · simp only [mssql.msEvalSQL]
        rw [if_neg hne']
        exact hev
      · simp only [mssql.matchesFilter]
        rw [if_neg hne']
        exact hmf
  · have hne' : ¬(children.isEmpty = true) := by
      cases children
      · exact absurd rfl hne
      · simp
    obtain ⟨hcomp, v, b, hev, hmf, hiff⟩ :=
      ms_agree_list_or children r hlist
    constructor
    · intro st
      obtain ⟨⟨parts, st2⟩, hc⟩ := hcomp st "OR"
      refine ⟨("(" ++ String.intercalate " OR " parts ++ ")", st2), ?_⟩
      simp only [mssql.msCompileFilter]
      rw [if_neg hne', hc, bindE_ok]
    · refine ⟨v, b, ?_, ?_, hiff⟩
      · simp only [mssql.msEvalSQL]
        rw [if_neg hne']
        exact hev
      · simp only [mssql.matchesFilter]
        rw [if_neg hne']
        exact hmf

theorem ms_agree_list_and (children : List Filter) (r : Record)
    (hsafe : msSafeList children = true) :
    (∀ (st : mssql.MSState) (op : String), ∃ out,
        mssql.msCompileList op children st = .ok out)
    ∧ ∃ v b, mssql.msEvalList true children r = .ok v ∧
        mssql.matchesAll children r = .ok b ∧ (v = some true ↔ b = true) := by
  cases children with
  | nil => exact ⟨fun st op => ⟨_, rfl⟩, some true, true, rfl, rfl, by simp⟩
  | cons child rest =>
    rw [show msSafeList (child :: rest)
        = (msSafe child && msSafeList rest) from rfl] at hsafe
    rw [Bool.and_eq_true] at hsafe
    have hnn : child ≠ .fnil := fun hcontra => by
      rw [hcontra, show msSafe .fnil = false from rfl] at hsafe
      exact Bool.false_ne_true hsafe.1
    obtain ⟨hcomp₁, v₁, b₁, hev₁, hmf₁, hiff₁⟩ := ms_agree child r hsafe.1
    obtain ⟨hcomp₂, v₂, b₂, hev₂, hall₂, hiff₂⟩ :=
      ms_agree_list_and rest r hsafe.2
    refine ⟨?_, triAnd v₁ v₂, b₁ && b₂, ?_, ?_, ?_⟩
    · intro st op
      obtain ⟨⟨s1, st2⟩, hc1⟩ := hcomp₁ st
      obtain ⟨⟨parts, st3⟩, hc2⟩ := hcomp₂ st2 op
      have heq : mssql.msCompileList op (child :: rest) st
          = (do
              let (childSQL, st2') ← mssql.msCompileFilter child st
              let (parts', st3') ← mssql.msCompileList op rest st2'
              Except.ok (childSQL :: parts', st3')) := by
        cases child
        · exact absurd rfl hnn
        all_goals rfl
      refine ⟨(s1 :: parts, st3), ?_⟩
      rw [heq, hc1, bindE_ok]
      show (do
          let (parts', st3') ← mssql.msCompileList op rest st2
          Except.ok (s1 :: parts', st3')) = Except.ok (s1 :: parts, st3)
      rw [hc2, bindE_ok]
    · have heq : mssql.msEvalList true (child :: rest) r
          = (do
              let v ← mssql.msEvalSQL child r
              let w ← mssql.msEvalList true rest r
              Except.ok (triAnd v w)) := by
        cases child
        · exact absurd rfl hnn
        all_goals rfl
      rw [heq, hev₁, bindE_ok, hev₂, bindE_ok]
    · have heq : mssql.matchesAll (child :: rest) r
          = (do
              let ok ← mssql.matchesFilter child r
              if ok then mssql.matchesAll rest r else Except.ok false) := by
        cases child
        · exact absurd rfl hnn
        all_goals rfl
      rw [heq, hmf₁, bindE_ok]
      cases b₁ with
      | true => rw [if_pos rfl, hall₂, Bool.true_and]
      | false => rw [if_neg (by decide), Bool.false_and]
    · rw [triAnd_some_true, hiff₁, hiff₂, Bool.and_eq_true]

theorem ms_agree_list_or (children : List Filter) (r : Record)
    (hsafe : msSafeList children = true) :
    (∀ (st : mssql.MSState) (op : String), ∃ out,
        mssql.msCompileList op children st = .ok out)
    ∧ ∃ v b, mssql.msEvalList false children r = .ok v ∧
        mssql.matchesAny children r = .ok b ∧ (v = some true ↔ b = true) := by
  cases children with
  | nil => exact ⟨fun st op => ⟨_, rfl⟩, some false, false, rfl, rfl, by simp⟩
  | cons child rest =>
    rw [show msSafeList (child :: rest)
        = (msSafe child && msSafeList rest) from rfl] at hsafe
    rw [Bool.and_eq_true] at hsafe
    have hnn : child ≠ .fnil := fun hcontra => by
      rw [hcontra, show msSafe .fnil = false from rfl] at hsafe
      exact Bool.false_ne_true hsafe.1
    obtain ⟨hcomp₁, v₁, b₁, hev₁, hmf₁, hiff₁⟩ := ms_agree child r hsafe.1
    obtain ⟨hcomp₂, v₂, b₂, hev₂, hany₂, hiff₂⟩ :=
      ms_agree_list_or rest r hsafe.2
    refine ⟨?_, triOr v₁ v₂, b₁ || b₂, ?_, ?_, ?_⟩
    · intro st op
      obtain ⟨⟨s1, st2⟩, hc1⟩ := hcomp₁ st
      obtain ⟨⟨parts, st3⟩, hc2⟩ := hcomp₂ st2 op
      have heq : mssql.msCompileList op (child :: rest) st
          = (do
              let (childSQL, st2') ← mssql.msCompileFilter child st
              let (parts', st3') ← mssql.msCompileList op rest st2'
              Except.ok (childSQL :: parts', st3')) := by
        cases child
        · exact absurd rfl hnn
        all_goals rfl
      refine ⟨(s1 :: parts, st3), ?_⟩
      rw [heq, hc1, bindE_ok]
      show (do
          let (parts', st3') ← mssql.msCompileList op rest st2
          Except.ok (s1 :: parts', st3')) = Except.ok (s1 :: parts, st3)
      rw [hc2, bindE_ok]
    · have heq : mssql.msEvalList false (child :: rest) r
          = (do
              let v ← mssql.msEvalSQL child r
              let w ← mssql.msEvalList false rest r
              Except.ok (triOr v w)) := by
        cases child
        · exact absurd rfl hnn
        all_goals rfl
      rw [heq, hev₁, bindE_ok, hev₂, bindE_ok]
    · have heq : mssql.matchesAny (child :: rest) r
          = (do
              let ok ← mssql.matchesFilter child r
              if ok then Except.ok true else mssql.matchesAny rest r) := by
        cases child
        · exact absurd rfl hnn
        all_goals rfl
      rw [heq, hmf₁, bindE_ok]
      cases b₁ with
      | true => rw [if_pos rfl, Bool.true_or]
      | false => rw [if_neg (by decide), hany₂, Bool.false_or]
    · rw [triOr_some_true, hiff₁, hiff₂, Bool.or_eq_true]

end

theorem compileFilterSQL_of_pg (f : Filter) (hnn : f ≠ .fnil)
    (hcomp : ∀ st : PGState, ∃ out,
      pgCompileFilter postgres.filterConfig f st = .ok out)
    (k : ℤ) :
    ∃ out, CompileFilterSQL f postgres.filterConfig k = .ok out := by
  obtain ⟨⟨sql, st2⟩, hc⟩ := hcomp ⟨[], if k < 1 then 1 else k⟩
  have heq : CompileFilterSQL f postgres.filterConfig k
      = (do
          let (out, st) ← pgCompileFilter postgres.filterConfig f
            ⟨[], if k < 1 then 1 else k⟩
          Except.ok (out, st.args, st.nextArg)) := by
    cases f
    · exact absurd rfl hnn
    all_goals rfl
  refine ⟨(sql, st2.args, st2.nextArg), ?_⟩
  rw [heq, hc, bindE_ok]

theorem compileMSSQL_of_ms (f : Filter) (hnn : f ≠ .fnil)
    (hcomp : ∀ st : mssql.MSState, ∃ out,
      mssql.msCompileFilter f st = .ok out)
    (k : ℤ) :
    ∃ out, mssql.compileMSSQLFilterSQL f k = .ok out := by
  obtain ⟨⟨sql, st2⟩, hc⟩ := hcomp ⟨[], if k < 1 then 1 else k⟩
  have heq : mssql.compileMSSQLFilterSQL f k
      = (do
          let (out, st) ← mssql.msCompileFilter f
            ⟨[], if k < 1 then 1 else k⟩
          Except.ok (out, st.args, st.nextArg)) := by
    cases f
    · exact absurd rfl hnn
    all_goals rfl
  refine ⟨(sql, st2.args, st2.nextArg), ?_⟩
  rw [heq, hc, bindE_ok]

/-- C1 counterexample: the claimed agreement between the compiled SQL
fragment's verdict and the in-process matchesFilter verdict fails on four
families of filters that every compiler accepts. (1) On Postgres, NOT over
an equality on a missing metadata key: the fragment compiles, SQL
three-valued logic gives NOT(UNKNOWN) = UNKNOWN (the row is not matched
with verdict `none`), while matchesFilter returns true. (2) On MSSQL,
metadata equality compares JSON_VALUE's text rendering: the string "5"
equals the stored number 5 in SQL but not in the typed in-process
comparison. (3) On Postgres, the `#>` path operator supports array
indexing, so path ["arr","0"] resolves in SQL while the in-process
metadataWalk only traverses objects and returns no match. (4) On MSSQL, a
numeric Gt over metadata holding a non-numeric string: TRY_CONVERT yields
SQL NULL (verdict `none`), while the in-process comparator renders both
values to text and returns true. -/
theorem compiled_filter_diverges_from_matchesFilter :
    ((CompileFilterSQL (.fnot (.feq (Metadata ["k"]) (.jstr "v")))
        postgres.filterConfig 1).toOption.isSome = true ∧
      pgEvalSQL (.fnot (.feq (Metadata ["k"]) (.jstr "v")))
        ⟨"r", [], none, none⟩ = .ok none ∧
      mssql.matchesFilter (.fnot (.feq (Metadata ["k"]) (.jstr "v")))
        ⟨"r", [], none, none⟩ = .ok true) ∧
    ((mssql.compileMSSQLFilterSQL (.feq (Metadata ["k"]) (.jstr "5"))
        1).toOption.isSome = true ∧
      mssql.msEvalSQL (.feq (Metadata ["k"]) (.jstr "5"))
        ⟨"r", [], some [("k", .jnum 5)], none⟩ = .ok (some true) ∧
      mssql.matchesFilter (.feq (Metadata ["k"]) (.jstr "5"))
        ⟨"r", [], some [("k", .jnum 5)], none⟩ = .ok false) ∧
    ((CompileFilterSQL (.feq (Metadata ["arr", "0"]) (.jstr "x"))
        postgres.filterConfig 1).toOption.isSome = true ∧
      pgEvalSQL (.feq (Metadata ["arr", "0"]) (.jstr "x"))
        ⟨"r", [], some [("arr", .jarr [.jstr "x"])], none⟩ = .ok (some true) ∧
      mssql.matchesFilter (.feq (Metadata ["arr", "0"]) (.jstr "x"))
        ⟨"r", [], some [("arr", .jarr [.jstr "x"])], none⟩ = .ok false) ∧
    ((mssql.compileMSSQLFilterSQL (.fgt (Metadata ["k"]) (.jnum 5))
        1).toOption.isSome = true ∧
      mssql.msEvalSQL (.fgt (Metadata ["k"]) (.jnum 5))
        ⟨"r", [], some [("k", .jstr "abc")], none⟩ = .ok none ∧
      mssql.matchesFilter (.fgt (Metadata ["k"]) (.jnum 5))
        ⟨"r", [], some [("k", .jstr "abc")], none⟩ = .ok true) :=
  ⟨⟨by with_unfolding_all rfl, by with_unfolding_all rfl,
    by with_unfolding_all rfl⟩,
   ⟨by with_unfolding_all rfl, by with_unfolding_all rfl,
    by with_unfolding_all rfl⟩,
   ⟨by with_unfolding_all rfl, by with_unfolding_all rfl,
    by with_unfolding_all rfl⟩,
   ⟨by with_unfolding_all rfl, by with_unfolding_all rfl,
    by with_unfolding_all rfl⟩⟩

/-- C1 (amended): on the safe fragments the pushdown compilers and the
in-process evaluator provably agree. For every filter in the Postgres-safe
fragment (Eq/In/Gt/Lt on columns with string values, Eq/In on metadata
with scalar values over integral-free non-blank paths, Exists on columns
and metadata, and non-empty And/Or over such filters) the Postgres
compiler CompileFilterSQL succeeds for every start index, the executed
fragment's three-valued verdict is error-free, matchesFilter is
error-free, and the fragment matches the record (verdict `some true`)
exactly when matchesFilter returns true. The same holds for the restricted
MSSQL compiler compileMSSQLFilterSQL on the MSSQL-safe fragment (Eq/In/
Gt/Lt on columns with string values, Exists on columns and metadata, and
non-empty And/Or). Outside these fragments the agreement is refuted by
compiled_filter_diverges_from_matchesFilter. -/
theorem safe_fragment_pushdown_agrees :
    (∀ (f : Filter) (r : Record), pgSafe f = true →
      (∀ k : ℤ, ∃ out, CompileFilterSQL f postgres.filterConfig k = .ok out) ∧
      ∃ v b, pgEvalSQL f r = .ok v ∧ mssql.matchesFilter f r = .ok b ∧
        (v = some true ↔ b = true)) ∧
    (∀ (f : Filter) (r : Record), msSafe f = true →
      (∀ k : ℤ, ∃ out, mssql.compileMSSQLFilterSQL f k = .ok out) ∧
      ∃ v b, mssql.msEvalSQL f r = .ok v ∧ mssql.matchesFilter f r = .ok b ∧
        (v = some true ↔ b = true)) := by
  constructor
  · intro f r hsafe
    have hnn : f ≠ .fnil := fun hc => by
      rw [hc] at hsafe
      exact absurd hsafe (by decide)
    obtain ⟨hcomp, hsem⟩ := pg_agree f r hsafe
    exact ⟨fun k => compileFilterSQL_of_pg f hnn hcomp k, hsem⟩
  · intro f r hsafe
    have hnn : f ≠ .fnil := fun hc => by
      rw [hc] at hsafe
      exact absurd hsafe (by decide)
    obtain ⟨hcomp, hsem⟩ := ms_agree f r hsafe
    exact ⟨fun k => compileMSSQL_of_ms f hnn hcomp k, hsem⟩

theorem safe_fragment_pushdown_agrees_witness :
    pgSafe (.feq (Column "id") (.jstr "x")) = true ∧
    msSafe (.feq (Column "id") (.jstr "x")) = true ∧
    ((∀ k : ℤ, ∃ out, CompileFilterSQL (.feq (Column "id") (.jstr "x"))
        postgres.filterConfig k = .ok out) ∧
      ∃ v b, pgEvalSQL (.feq (Column "id") (.jstr "x"))
          ⟨"rec", [], none, none⟩ = .ok v ∧
        mssql.matchesFilter (.feq (Column "id") (.jstr "x"))
          ⟨"rec", [], none, none⟩ = .ok b ∧ (v = some true ↔ b = true)) ∧
    ((∀ k : ℤ, ∃ out, mssql.compileMSSQLFilterSQL
        (.feq (Column "id") (.jstr "x")) k = .ok out) ∧
      ∃ v b, mssql.msEvalSQL (.feq (Column "id") (.jstr "x"))
          ⟨"rec", [], none, none⟩ = .ok v ∧
        mssql.matchesFilter (.feq (Column "id") (.jstr "x"))
          ⟨"rec", [], none, none⟩ = .ok b ∧ (v = some true ↔ b = true)) :=
  ⟨by decide, by decide,
   safe_fragment_pushdown_agrees.1 (.feq (Column "id") (.jstr "x"))
     ⟨"rec", [], none, none⟩ (by decide),
   safe_fragment_pushdown_agrees.2 (.feq (Column "id") (.jstr "x"))
     ⟨"rec", [], none, none⟩ (by decide)⟩
